import Mathlib

set_option maxRecDepth 10000

/-!
Shallow embedding of the slot-materialization and booking core of the
appointment-platform repository.

Time is modelled as an integer count of seconds since the Unix epoch, in a
fixed-offset (UTC) location: `time.Time` values become `Int`, durations become
`Int` seconds, `AddDate(0, 0, n)` becomes `+ n * 86400`, and the calendar-date
truncation used by the code becomes flooring to a multiple of `86400`.
-/

namespace AppointmentCore

/-- Seconds per day. -/
def secondsPerDay : Int := 86400

/-- Unix-seconds value of Go's zero `time.Time` (0001-01-01T00:00:00 UTC);
`t.IsZero()` becomes comparison with this constant. -/
def goZeroTime : Int := -62135596800

/-- `dateOnly` from `calendar_utils.go`: truncate an instant to the midnight of
its calendar day. -/
def dateOnly (t : Int) : Int := secondsPerDay * (Int.ediv t secondsPerDay)

/-- The `Clock()` part of an instant: seconds elapsed since its midnight. -/
def timeOfDay (t : Int) : Int := Int.emod t secondsPerDay

/-- Go `time.Weekday` of an instant: 0 = Sunday, …, 6 = Saturday
(1970-01-01 was a Thursday, weekday 4). -/
def goWeekday (t : Int) : Int := Int.emod (Int.ediv t secondsPerDay + 4) 7

/-- `TimeRange` from `calendar_utils.go`: half-open interval `[Start, End)`. -/
structure TimeRange where
  Start : Int
  End : Int
deriving DecidableEq, Repr

/-- `rangesOverlap` from `calendar_utils.go`. -/
def rangesOverlap (a b : TimeRange) (inclusive : Bool) : Bool :=
  if inclusive then decide (a.Start ≤ b.End) && decide (b.Start ≤ a.End)
  else decide (a.Start < b.End) && decide (b.Start < a.End)

/-- `HasOverlap` from `calendar_utils.go`: linear scan collecting conflicts. -/
def HasOverlap (newRange : TimeRange) (existing : List TimeRange) (inclusive : Bool) :
    Bool × List TimeRange :=
  let conflicts := existing.filter (fun tr => rangesOverlap newRange tr inclusive)
  (decide (0 < conflicts.length), conflicts)

inductive RecurrenceFrequency
  | FreqDaily
  | FreqWeekly
deriving DecidableEq, Repr

/-- `RecurringRule` from `calendar_utils.go`. The `Exceptions` map becomes an
optional list of calendar days (UTC midnights); `nil` maps to `none`. -/
structure RecurringRule where
  Freq : RecurrenceFrequency
  Interval : Int
  Weekdays : List Int
  StartTime : Int
  Duration : Int
  Until : Option Int
  Count : Option Int
  Exceptions : Option (List Int)
deriving DecidableEq, Repr

/-- `isException` from `calendar_utils.go`. -/
def isException (rule : RecurringRule) (t : Int) : Bool :=
  match rule.Exceptions with
  | none => false
  | some days => days.contains (dateOnly t)

/-- `containsWeekday` from `calendar_utils.go`. -/
def containsWeekday (l : List Int) (w : Int) : Bool := l.contains w

/-- Insertion of an element into a sorted list (ascending). -/
def insertSorted (x : Int) : List Int → List Int
  | [] => [x]
  | y :: ys => if x ≤ y then x :: y :: ys else y :: insertSorted x ys

/-- Insertion sort, ascending. -/
def sortInts : List Int → List Int
  | [] => []
  | x :: xs => insertSorted x (sortInts xs)

/-- First-occurrence deduplication (the `seen` map of `uniqueSortedWeekdays`). -/
def dedupFirst : List Int → List Int → List Int
  | [], _ => []
  | d :: rest, seen =>
    if seen.contains d then dedupFirst rest seen
    else d :: dedupFirst rest (d :: seen)

/-- `uniqueSortedWeekdays` from `calendar_utils.go`. -/
def uniqueSortedWeekdays (days : List Int) : List Int :=
  sortInts (dedupFirst days [])

/-- `offsetFromMonday` from `calendar_utils.go`. -/
def offsetFromMonday (wd : Int) : Int := if wd = 0 then 6 else wd - 1

/-- `weekStartMonday` from `calendar_utils.go`: Monday midnight of the ISO week
containing `t`. -/
def weekStartMonday (t : Int) : Int :=
  let midnight := dateOnly t
  let wd := goWeekday midnight
  let delta := if wd = 0 then 6 else wd - 1
  midnight - secondsPerDay * delta

/-- `nextOccurrence` from `calendar_utils.go` (the default case coincides with
the daily one). -/
def nextOccurrence (rule : RecurringRule) (cur : Int) : Int :=
  match rule.Freq with
  | .FreqDaily => cur + secondsPerDay * rule.Interval
  | .FreqWeekly => cur + 7 * (secondsPerDay * rule.Interval)

/-- `rule.Until != nil && rule.Until < t`. -/
def pastUntil (u : Option Int) (t : Int) : Bool :=
  match u with
  | none => false
  | some ub => decide (ub < t)

/-- `rule.Count != nil && countGenerated >= *rule.Count`. -/
def countReached (c : Option Int) (cnt : Nat) : Bool :=
  match c with
  | none => false
  | some cmax => decide (cmax ≤ (cnt : Int))

/-- The daily-style cursor loop of `ExpandRecurringRule` (also the weekly
fallback without weekday set), with explicit fuel; `none` means the fuel ran
out before the loop exited. -/
def expandDailyLoop (rule : RecurringRule) (window : TimeRange) :
    Nat → Int → Nat → List TimeRange → Option (List TimeRange)
  | 0, _, _, _ => none
  | fuel + 1, cur, cnt, acc =>
    if pastUntil rule.Until cur then some acc
    else if countReached rule.Count cnt then some acc
    else
      let occStart := cur
      let occEnd := cur + rule.Duration
      if rule.Freq == .FreqWeekly && !rule.Weekdays.isEmpty
          && !containsWeekday rule.Weekdays (goWeekday occStart) then
        expandDailyLoop rule window fuel (nextOccurrence rule cur) cnt acc
      else if isException rule occStart then
        expandDailyLoop rule window fuel (nextOccurrence rule cur) cnt acc
      else
        let occRange : TimeRange := ⟨occStart, occEnd⟩
        if rangesOverlap occRange window false then
          expandDailyLoop rule window fuel (nextOccurrence rule cur) (cnt + 1) (acc ++ [occRange])
        else if decide (window.End < occEnd) && decide (window.End < occStart) then
          some acc
        else
          expandDailyLoop rule window fuel (nextOccurrence rule cur) cnt acc

/-- The inner per-weekday loop of the weekly branch of `ExpandRecurringRule`.
The returned `Bool` is `true` when the loop hit the `until` early return. -/
def expandWeeklyDays (rule : RecurringRule) (window : TimeRange) (weekStart : Int) :
    List Int → Nat → List TimeRange → Bool × Nat × List TimeRange
  | [], cnt, acc => (false, cnt, acc)
  | wd :: rest, cnt, acc =>
    if countReached rule.Count cnt then (false, cnt, acc)
    else
      let d := weekStart + secondsPerDay * offsetFromMonday wd
      let occStart := dateOnly d + timeOfDay rule.StartTime
      if decide (occStart < rule.StartTime) then
        expandWeeklyDays rule window weekStart rest cnt acc
      else if pastUntil rule.Until occStart then (true, cnt, acc)
      else if isException rule occStart then
        expandWeeklyDays rule window weekStart rest cnt acc
      else
        let occEnd := occStart + rule.Duration
        let occRange : TimeRange := ⟨occStart, occEnd⟩
        if rangesOverlap occRange window false then
          expandWeeklyDays rule window weekStart rest (cnt + 1) (acc ++ [occRange])
        else if decide (window.End < occStart) && decide (window.End < occEnd) then
          (false, cnt, acc)
        else
          expandWeeklyDays rule window weekStart rest cnt acc

/-- The outer per-week loop of the weekly branch of `ExpandRecurringRule`,
with explicit fuel. -/
def expandWeeklyWeeks (rule : RecurringRule) (window : TimeRange) (weekdays : List Int) :
    Nat → Int → Nat → List TimeRange → Option (List TimeRange)
  | 0, _, _, _ => none
  | fuel + 1, weekCursor, cnt, acc =>
    if countReached rule.Count cnt then some acc
    else
      let weekStart := weekStartMonday weekCursor
      if decide (window.End < weekStart) then some acc
      else
        match expandWeeklyDays rule window weekStart weekdays cnt acc with
        | (true, _, acc₂) => some acc₂
        | (false, cnt₂, acc₂) =>
          let nextCursor := weekCursor + 7 * (secondsPerDay * rule.Interval)
          if pastUntil rule.Until nextCursor then some acc₂
          else expandWeeklyWeeks rule window weekdays fuel nextCursor cnt₂ acc₂

/-- `ExpandRecurringRule` from `calendar_utils.go`, with explicit fuel for the
two cursor loops (`.ok none` means the fuel ran out). -/
def ExpandRecurringRule (fuel : Nat) (rule0 : RecurringRule) (window : TimeRange) :
    Except String (Option (List TimeRange)) :=
  if decide (rule0.Duration ≤ 0) then .error "recurring rule: duration must be positive"
  else
    let rule := if rule0.Interval ≤ 0 then { rule0 with Interval := 1 } else rule0
    if rule.StartTime = goZeroTime then .error "recurring rule: StartTime is required"
    else if !decide (window.Start < window.End) then .ok (some [])
    else if rule.Freq == .FreqWeekly && !rule.Weekdays.isEmpty then
      .ok (expandWeeklyWeeks rule window (uniqueSortedWeekdays rule.Weekdays)
        fuel rule.StartTime 0 [])
    else
      .ok (expandDailyLoop rule window fuel rule.StartTime 0 [])

/-! ## Persistent data model (`internal/model`) -/

/-- `TimeSlotStatus` from `model/slot.go`. -/
inductive TimeSlotStatus
  | planned
  | booked
  | cancelled
deriving DecidableEq, Repr

/-- `BookingStatus` from `model/booking.go`. -/
inductive BookingStatus
  | pending
  | confirmed
  | cancelled
deriving DecidableEq, Repr

/-- `model.TimeSlot` (`time_slots` table). Ids are abstract naturals. -/
structure TimeSlot where
  id : Nat
  scheduleId : Option Nat
  providerId : Nat
  serviceId : Option Nat
  startsAt : Int
  endsAt : Int
  status : TimeSlotStatus
deriving DecidableEq, Repr

/-- `model.Booking` (`bookings` table; `slot_id` carries a unique index). -/
structure Booking where
  id : Nat
  clientId : Nat
  slotId : Nat
  status : BookingStatus
  cancelledAt : Option Int
  comment : String
deriving DecidableEq, Repr

/-- `model.Client` (`clients` table; `user_id` is a non-null foreign key). -/
structure Client where
  id : Nat
  userId : Nat
deriving DecidableEq, Repr

/-- `model.User` (`users` table). -/
structure User where
  id : Nat
  telegramId : Int
deriving DecidableEq, Repr

/-- The shared database state the calendar service mutates: the `time_slots`
and `bookings` tables, the read-only `clients`/`users` tables, and a fresh-id
source standing for primary-key generation. -/
structure DBState where
  slots : List TimeSlot
  bookings : List Booking
  clients : List Client
  users : List User
  nextId : Nat
deriving DecidableEq, Repr

/-- gRPC-style error results (`google.golang.org/grpc/codes`). -/
inductive GErr
  | invalidArgument (msg : String)
  | notFound (msg : String)
  | failedPrecondition (msg : String)
  | internal (msg : String)
deriving DecidableEq, Repr

/-- `SELECT ... WHERE id = ?` with `First` semantics. -/
def findSlot (s : DBState) (slotId : Nat) : Option TimeSlot :=
  s.slots.find? (fun sl => sl.id == slotId)

def findBooking (s : DBState) (bookingId : Nat) : Option Booking :=
  s.bookings.find? (fun b => b.id == bookingId)

def findClient (s : DBState) (clientId : Nat) : Option Client :=
  s.clients.find? (fun c => c.id == clientId)

def findUser (s : DBState) (userId : Nat) : Option User :=
  s.users.find? (fun u => u.id == userId)

/-! ## Calendar service operations (`calendar_service.go`) -/

/-- `listClientConfirmedBookingRangesTx`: slot ranges of the client's
`Confirmed` bookings, joined to `time_slots`, excluding `excludeSlotId`. -/
def listClientConfirmedBookingRangesTx (s : DBState) (clientId excludeSlotId : Nat) :
    List TimeRange :=
  s.bookings.filterMap (fun b =>
    match findSlot s b.slotId with
    | none => none
    | some sl =>
      if b.clientId == clientId && b.status == .confirmed && !(sl.id == excludeSlotId) then
        some ⟨sl.startsAt, sl.endsAt⟩
      else none)

/-- `listProviderConfirmedBookingRangesTx`: slot ranges of the provider's
`Confirmed` bookings, joined to `time_slots`, excluding `excludeSlotId`. -/
def listProviderConfirmedBookingRangesTx (s : DBState) (providerId excludeSlotId : Nat) :
    List TimeRange :=
  s.bookings.filterMap (fun b =>
    match findSlot s b.slotId with
    | none => none
    | some sl =>
      if sl.providerId == providerId && b.status == .confirmed && !(sl.id == excludeSlotId) then
        some ⟨sl.startsAt, sl.endsAt⟩
      else none)

/-- `CreateBooking`. The transaction body either returns the mutated state or
an error, in which case the caller keeps the pre-transaction state (gorm rolls
back). The `bookings.slot_id` unique index makes the insert fail when any
booking row for the slot already exists. -/
def CreateBooking (s : DBState) (clientId slotId : Nat) (comment : String) :
    Except GErr (DBState × Booking) :=
  match findClient s clientId with
  | none => .error (.notFound "client not found")
  | some _ =>
    match findSlot s slotId with
    | none => .error (.notFound "slot not found")
    | some slot =>
      if !(slot.status == .planned) then .error (.failedPrecondition "slot is not free")
      else
        let newRange : TimeRange := ⟨slot.startsAt, slot.endsAt⟩
        if (HasOverlap newRange (listClientConfirmedBookingRangesTx s clientId slot.id) false).1 then
          .error (.failedPrecondition "client has conflicting booking")
        else if (HasOverlap newRange
            (listProviderConfirmedBookingRangesTx s slot.providerId slot.id) false).1 then
          .error (.failedPrecondition "provider has conflicting booking")
        else if s.bookings.any (fun b => b.slotId == slot.id) then
          .error (.internal "create booking: unique constraint on slot_id")
        else
          let b : Booking :=
            { id := s.nextId, clientId := clientId, slotId := slot.id,
              status := .confirmed, cancelledAt := none, comment := comment }
          let s' : DBState :=
            { s with
              bookings := s.bookings ++ [b],
              slots := s.slots.map (fun sl =>
                if sl.id == slot.id then { sl with status := .booked } else sl),
              nextId := s.nextId + 1 }
          .ok (s', b)

/-- `CancelBooking`: idempotent no-op on an already-cancelled booking;
otherwise cancel the booking and set its slot back to `Planned`
(unconditionally on the slot's prior status). -/
def CancelBooking (s : DBState) (bookingId : Nat) (now : Int) :
    Except GErr (DBState × Booking) :=
  match findBooking s bookingId with
  | none => .error (.notFound "booking not found")
  | some b =>
    if b.status == .cancelled then .ok (s, b)
    else
      let b' : Booking := { b with status := .cancelled, cancelledAt := some now }
      let s' : DBState :=
        { s with
          bookings := s.bookings.map (fun x =>
            if x.id == bookingId then { x with status := .cancelled, cancelledAt := some now }
            else x),
          slots := s.slots.map (fun sl =>
            if sl.id == b.slotId then { sl with status := .planned } else sl) }
      .ok (s', b')

/-- Result of `CheckAvailability`. -/
structure CheckAvailabilityResponse where
  available : Bool
  reason : String
deriving DecidableEq, Repr

/-- `CheckAvailability`: read-only; downgrades slot-not-found, slot-not-free
and conflicts to `available = false`, but still hard-errors on a missing
client. -/
def CheckAvailability (s : DBState) (clientId slotId : Nat) :
    Except GErr CheckAvailabilityResponse :=
  match findClient s clientId with
  | none => .error (.notFound "client not found")
  | some _ =>
    match findSlot s slotId with
    | none => .ok ⟨false, "slot not found"⟩
    | some slot =>
      if !(slot.status == .planned) then .ok ⟨false, "slot is not free"⟩
      else
        let newRange : TimeRange := ⟨slot.startsAt, slot.endsAt⟩
        if (HasOverlap newRange (listClientConfirmedBookingRangesTx s clientId slot.id) false).1 then
          .ok ⟨false, "client has conflicting booking"⟩
        else if (HasOverlap newRange
            (listProviderConfirmedBookingRangesTx s slot.providerId slot.id) false).1 then
          .ok ⟨false, "provider has conflicting booking"⟩
        else
          .ok ⟨true, ""⟩

/-- One row of the pre-mutation capture query of `BulkCancelProviderSlots`
(`affectedBookingRow`). -/
structure AffectedBooking where
  bookingId : Nat
  slotId : Nat
  clientId : Nat
  clientUserId : Nat
  clientTelegramId : Int
  providerId : Nat
  serviceId : Option Nat
  startsAt : Int
  endsAt : Int
deriving DecidableEq, Repr

/-- Result of `BulkCancelProviderSlots`. -/
structure BulkCancelResult where
  cancelledSlots : Nat
  cancelledBookings : Nat
  affectedBookings : List AffectedBooking
deriving DecidableEq, Repr

/-- Whether a slot is targeted by `BulkCancelProviderSlots`: same provider,
bounds fully inside the window and not already cancelled. -/
def bulkSlotTarget (providerId : Nat) (start fin : Int) (sl : TimeSlot) : Bool :=
  sl.providerId == providerId && decide (start ≤ sl.startsAt) && decide (sl.endsAt ≤ fin)
    && !(sl.status == .cancelled)

/-- Whether a booking is cancelled by `BulkCancelProviderSlots`: it is not
already cancelled and sits on a targeted slot. -/
def bulkBookingTarget (s : DBState) (providerId : Nat) (start fin : Int) (b : Booking) : Bool :=
  (match findSlot s b.slotId with
   | some sl => bulkSlotTarget providerId start fin sl
   | none => false) && !(b.status == .cancelled)

/-- The capture query of `BulkCancelProviderSlots`: bookings joined to
`time_slots`, `clients` and `users`, slot of the provider and fully inside the
window, slot and booking not cancelled; fields captured before any mutation. -/
def bulkAffectedRows (s : DBState) (providerId : Nat) (start fin : Int) :
    List AffectedBooking :=
  s.bookings.filterMap (fun b =>
    match findSlot s b.slotId with
    | none => none
    | some sl =>
      match findClient s b.clientId with
      | none => none
      | some c =>
        match findUser s c.userId with
        | none => none
        | some u =>
          if bulkSlotTarget providerId start fin sl && !(b.status == .cancelled) then
            some { bookingId := b.id, slotId := sl.id, clientId := b.clientId,
                   clientUserId := c.userId, clientTelegramId := u.telegramId,
                   providerId := sl.providerId, serviceId := sl.serviceId,
                   startsAt := sl.startsAt, endsAt := sl.endsAt }
          else none)

/-- `BulkCancelProviderSlots`: one transaction capturing affected bookings,
cancelling those bookings (comment overwritten only for a non-empty reason) and
cancelling the provider's in-window slots. -/
def BulkCancelProviderSlots (s : DBState) (providerId : Nat) (start fin : Int)
    (reason : String) (now : Int) : Except GErr (DBState × BulkCancelResult) :=
  if !decide (start < fin) then .error (.invalidArgument "end must be after start")
  else
    let rows := bulkAffectedRows s providerId start fin
    let bookingIDs := rows.map (fun r => r.bookingId)
    let bookings' :=
      if rows.isEmpty then s.bookings
      else s.bookings.map (fun b =>
        if bookingIDs.contains b.id && !(b.status == .cancelled) then
          { b with status := .cancelled, cancelledAt := some now,
                   comment := if reason == "" then b.comment else reason }
        else b)
    let cancelledBookings :=
      if rows.isEmpty then 0
      else (s.bookings.filter (fun b =>
        bookingIDs.contains b.id && !(b.status == .cancelled))).length
    let cancelledSlots :=
      (s.slots.filter (fun sl => bulkSlotTarget providerId start fin sl)).length
    let slots' := s.slots.map (fun sl =>
      if bulkSlotTarget providerId start fin sl then { sl with status := .cancelled } else sl)
    .ok ({ s with slots := slots', bookings := bookings' },
         { cancelledSlots := cancelledSlots, cancelledBookings := cancelledBookings,
           affectedBookings := rows })

/-- `CreateSlot`: insert a new `Planned` slot after validating the range. -/
def CreateSlot (s : DBState) (providerId : Nat) (serviceId : Option Nat)
    (start fin : Int) : Except GErr (DBState × TimeSlot) :=
  if !decide (start < fin) then .error (.invalidArgument "end must be after start")
  else
    let sl : TimeSlot :=
      { id := s.nextId, scheduleId := none, providerId := providerId,
        serviceId := serviceId, startsAt := start, endsAt := fin, status := .planned }
    .ok ({ s with slots := s.slots ++ [sl], nextId := s.nextId + 1 }, sl)

/-- `UpdateSlot`: fetch the slot, apply the optional service, range and status
modifications from the request, and write it back. A status argument of `none`
models `SLOT_STATUS_UNSPECIFIED` (field left unchanged). -/
def UpdateSlot (s : DBState) (slotId : Nat) (newServiceId : Option Nat)
    (newRange : Option (Int × Int)) (newStatus : Option TimeSlotStatus) :
    Except GErr (DBState × TimeSlot) :=
  match findSlot s slotId with
  | none => .error (.notFound "slot not found")
  | some slot0 =>
    let slot1 :=
      match newServiceId with
      | none => slot0
      | some sid => { slot0 with serviceId := some sid }
    match newRange with
    | some (a, b) =>
      if !decide (a < b) then .error (.invalidArgument "end must be after start")
      else
        let slot2 := { slot1 with startsAt := a, endsAt := b }
        let slot3 := match newStatus with
          | none => slot2
          | some st => { slot2 with status := st }
        .ok ({ s with slots := s.slots.map (fun sl => if sl.id == slotId then slot3 else sl) },
             slot3)
    | none =>
      let slot3 := match newStatus with
        | none => slot1
        | some st => { slot1 with status := st }
      .ok ({ s with slots := s.slots.map (fun sl => if sl.id == slotId then slot3 else sl) },
           slot3)

/-- `DeleteSlot`: the `bookings.slot_id` foreign key is declared
`OnDelete:RESTRICT`, so deleting a slot referenced by any booking fails and
rolls back. -/
def DeleteSlot (s : DBState) (slotId : Nat) : Except GErr DBState :=
  match findSlot s slotId with
  | none => .error (.notFound "slot not found")
  | some _ =>
    if s.bookings.any (fun b => b.slotId == slotId) then
      .error (.internal "delete slot: foreign key restriction")
    else
      .ok { s with slots := s.slots.filter (fun sl => !(sl.id == slotId)) }

/-! ## Slot materialization (`materializeSlotsFromSchedules`) -/

/-- `commonpb.RecurrenceFrequency`. -/
inductive RecurrenceFrequencyPB
  | unspecified
  | daily
  | weekly
deriving DecidableEq, Repr

/-- A decoded `commonpb.RecurrenceRule` as attached to a schedule row
(`decodeScheduleRule` output; `none` fields model absent protobuf fields). -/
structure RulePB where
  frequency : RecurrenceFrequencyPB
  interval : Int
  weekdays : List Int
  startsAt : Option Int
  durationMin : Int
  untilTS : Option Int
  count : Int
  exceptions : List Int
deriving DecidableEq, Repr

/-- `model.Schedule`, restricted to a UTC timezone (`TimeZone = ""` in the
row); `rule = none` models a rule blob that fails to decode. Date bounds are
UTC midnights. -/
structure Schedule where
  id : Nat
  providerId : Nat
  startDate : Option Int
  endDate : Option Int
  rule : Option RulePB
deriving DecidableEq, Repr

/-- Weekday mapping of `expandScheduleModelInWindowUTC`: protobuf days 1–7
(Mon–Sun) to Go weekdays, dropping out-of-range values. -/
def mapWeekdaysPB (l : List Int) : List Int :=
  l.filterMap (fun d =>
    if decide (d < 1) || decide (7 < d) then none
    else if d == 7 then some 0 else some d)

/-- `expandScheduleModelInWindowUTC` for a UTC schedule: clip the window to the
schedule date bounds, build the `RecurringRule` from the decoded protobuf rule
and expand it. `.ok none` means the expansion fuel ran out. -/
def expandScheduleModelInWindowUTC (fuel : Nat) (sched : Schedule)
    (fromUTC toUTC : Int) : Except String (Option (List TimeRange)) :=
  match sched.rule with
  | none => .ok (some [])
  | some rulePB =>
    let window0 : TimeRange := ⟨fromUTC, toUTC⟩
    if !decide (window0.Start < window0.End) then .ok (some [])
    else
      let window1 : TimeRange :=
        match sched.startDate with
        | none => window0
        | some sd =>
          let sdMid := dateOnly sd
          if decide (window0.Start < sdMid) then ⟨sdMid, window0.End⟩ else window0
      let window : TimeRange :=
        match sched.endDate with
        | none => window1
        | some ed =>
          let edEnd := dateOnly ed + (secondsPerDay - 1)
          if decide (edEnd < window1.End) then ⟨window1.Start, edEnd⟩ else window1
      if !decide (window.Start < window.End) then .ok (some [])
      else
        match rulePB.startsAt with
        | none => .error "rule.starts_at is required"
        | some st =>
          let baseDate :=
            match sched.startDate with
            | none => window.Start
            | some sd => dateOnly sd
          let startTime := dateOnly baseDate + timeOfDay st
          let freq : RecurrenceFrequency :=
            match rulePB.frequency with
            | .weekly => .FreqWeekly
            | _ => .FreqDaily
          let untl : Option Int :=
            match rulePB.untilTS with
            | some u => some u
            | none =>
              match sched.endDate with
              | none => none
              | some ed => some (dateOnly ed + (secondsPerDay - 1))
          let cnt : Option Int :=
            if decide (0 < rulePB.count) then some rulePB.count else none
          let excs : Option (List Int) :=
            let l := rulePB.exceptions.map dateOnly
            if l.isEmpty then none else some l
          let rule : RecurringRule :=
            { Freq := freq, Interval := rulePB.interval,
              Weekdays := mapWeekdaysPB rulePB.weekdays,
              StartTime := startTime, Duration := rulePB.durationMin * 60,
              Until := untl, Count := cnt, Exceptions := excs }
          ExpandRecurringRule fuel rule window

/-- `slotKey` / `makeSlotKey`: lookup key `(serviceId, startsAtUTC, endsAtUTC)`. -/
structure SlotKey where
  serviceId : Option Nat
  startNS : Int
  endNS : Int
deriving DecidableEq, Repr

/-- Existing-slot query of the materialization transaction: provider's slots
with bounds fully inside the window, matching the service filter (`IS NULL`
when no service is given). -/
def materializeExistingQuery (s : DBState) (providerId : Nat) (serviceId : Option Nat)
    (fromUTC toUTC : Int) : List TimeSlot :=
  s.slots.filter (fun sl =>
    sl.providerId == providerId && decide (fromUTC ≤ sl.startsAt)
      && decide (sl.endsAt ≤ toUTC)
      && match serviceId with
         | some sid => sl.serviceId == some sid
         | none => sl.serviceId == none)

/-- Insertion into the deterministically sorted staging list (ascending start,
then end). -/
def insertSlotSorted (x : TimeSlot) : List TimeSlot → List TimeSlot
  | [] => [x]
  | y :: ys =>
    if decide (x.startsAt < y.startsAt)
        || (x.startsAt == y.startsAt && decide (x.endsAt < y.endsAt)) then
      x :: y :: ys
    else y :: insertSlotSorted x ys

def sortSlotsByStart : List TimeSlot → List TimeSlot
  | [] => []
  | x :: xs => insertSlotSorted x (sortSlotsByStart xs)

/-- The staging step of `materializeSlotsFromSchedules`: candidate occurrences
not found in the existing-slot lookup become new `Planned` rows. The lookup is
keyed by `(serviceId, startsAt, endsAt)` and is not extended while staging. -/
def materializeToCreate (existingKeys : List SlotKey) (providerId : Nat)
    (serviceId : Option Nat) (occBySchedule : List (Nat × List TimeRange)) :
    List TimeSlot :=
  occBySchedule.flatMap (fun p =>
    p.2.filterMap (fun occ =>
      if existingKeys.contains ⟨serviceId, occ.Start, occ.End⟩ then none
      else some { id := 0, scheduleId := some p.1, providerId := providerId,
                  serviceId := serviceId, startsAt := occ.Start, endsAt := occ.End,
                  status := TimeSlotStatus.planned }))

/-- Assign fresh primary keys to a batch of staged rows. -/
def assignIds (nextId : Nat) : List TimeSlot → List TimeSlot
  | [] => []
  | sl :: rest => { sl with id := nextId } :: assignIds (nextId + 1) rest

/-- The expansion loop of `materializeSlotsFromSchedules`: expand each
schedule, abort on the first error, skip schedules with no occurrences.
`.ok none` means the expansion fuel ran out. -/
def expandAllSchedules (fuel : Nat) (fromUTC toUTC : Int) :
    List Schedule → Except String (Option (List (Nat × List TimeRange)))
  | [] => .ok (some [])
  | sched :: rest =>
    match expandScheduleModelInWindowUTC fuel sched fromUTC toUTC with
    | .error e => .error e
    | .ok none => .ok none
    | .ok (some occs) =>
      match expandAllSchedules fuel fromUTC toUTC rest with
      | .error e => .error e
      | .ok none => .ok none
      | .ok (some pairs) =>
        .ok (some (if occs.isEmpty then pairs else (sched.id, occs) :: pairs))

/-- `materializeSlotsFromSchedules`: expand every schedule in the window, then
in one transaction read the existing slots, stage the missing candidate rows
and batch-insert them sorted by (start, end). `.ok none` means the expansion
fuel ran out. -/
def materializeSlotsFromSchedules (fuel : Nat) (s : DBState) (providerId : Nat)
    (serviceId : Option Nat) (fromUTC toUTC : Int) (schedules : List Schedule) :
    Except String (Option DBState) :=
  if schedules.isEmpty then .ok (some s)
  else if !decide (fromUTC < toUTC) then .ok (some s)
  else
    match expandAllSchedules fuel fromUTC toUTC schedules with
    | .error e => .error e
    | .ok none => .ok none
    | .ok (some occBySchedule) =>
      if occBySchedule.isEmpty then .ok (some s)
      else
        let existing := materializeExistingQuery s providerId serviceId fromUTC toUTC
        let existingKeys := existing.map (fun sl => SlotKey.mk sl.serviceId sl.startsAt sl.endsAt)
        let toCreate := materializeToCreate existingKeys providerId serviceId occBySchedule
        if toCreate.isEmpty then .ok (some s)
        else
          let sorted := sortSlotsByStart toCreate
          let created := assignIds s.nextId sorted
          .ok (some { s with slots := s.slots ++ created,
                             nextId := s.nextId + created.length })

/-! ## Transaction wrappers

gorm's `Transaction` rolls back on error: the caller keeps the
pre-transaction state whenever the body returns an error. -/

/-- `CreateBooking` as seen by the caller: on error the state is unchanged. -/
def runCreateBooking (s : DBState) (clientId slotId : Nat) (comment : String) :
    DBState × Except GErr Booking :=
  match CreateBooking s clientId slotId comment with
  | .ok (s', b) => (s', .ok b)
  | .error e => (s, .error e)

/-- `CancelBooking` as seen by the caller: on error the state is unchanged. -/
def runCancelBooking (s : DBState) (bookingId : Nat) (now : Int) :
    DBState × Except GErr Booking :=
  match CancelBooking s bookingId now with
  | .ok (s', b) => (s', .ok b)
  | .error e => (s, .error e)

/-! ## The reachable-state relation of the core operations

`CoreStep` collects the mutating core operations quantified over by the
invariant claim, excluding only a status-modifying `UpdateSlot` (which can
write any status). Failed operations leave the state unchanged (rollback) and
need no step. -/

inductive CoreStep : DBState → DBState → Prop
  | createBooking (cid sid : Nat) (comment : String) (s s' : DBState) (b : Booking) :
      CreateBooking s cid sid comment = .ok (s', b) → CoreStep s s'
  | cancelBooking (bid : Nat) (now : Int) (s s' : DBState) (b : Booking) :
      CancelBooking s bid now = .ok (s', b) → CoreStep s s'
  | bulkCancel (pid : Nat) (start fin : Int) (reason : String) (now : Int)
      (s s' : DBState) (r : BulkCancelResult) :
      BulkCancelProviderSlots s pid start fin reason now = .ok (s', r) → CoreStep s s'
  | materialize (fuel : Nat) (pid : Nat) (sid : Option Nat) (fromUTC toUTC : Int)
      (schedules : List Schedule) (s s' : DBState) :
      materializeSlotsFromSchedules fuel s pid sid fromUTC toUTC schedules = .ok (some s') →
      CoreStep s s'
  | createSlot (pid : Nat) (sid : Option Nat) (start fin : Int) (s s' : DBState) (sl : TimeSlot) :
      CreateSlot s pid sid start fin = .ok (s', sl) → CoreStep s s'
  | updateSlotNoStatus (slotId : Nat) (newServiceId : Option Nat)
      (newRange : Option (Int × Int)) (s s' : DBState) (sl : TimeSlot) :
      UpdateSlot s slotId newServiceId newRange none = .ok (s', sl) → CoreStep s s'
  | deleteSlot (slotId : Nat) (s s' : DBState) :
      DeleteSlot s slotId = .ok s' → CoreStep s s'

/-- Reachability by any sequence of core operations. -/
def CoreReachable : DBState → DBState → Prop := Relation.ReflTransGen CoreStep

/-! ## Invariant checks (decidable, for the invariant claim) -/

/-- The slot/booking status invariant: a `Confirmed` booking's slot is
`Booked`; a `Cancelled` booking's slot is `Planned` or `Cancelled`. -/
def statusInvCheck (s : DBState) : Bool :=
  s.bookings.all (fun b =>
    match b.status with
    | .confirmed =>
      match findSlot s b.slotId with
      | some sl => sl.status == .booked
      | none => false
    | .cancelled =>
      match findSlot s b.slotId with
      | some sl => sl.status == .planned || sl.status == .cancelled
      | none => false
    | .pending => true)

/-- Referential and key well-formedness: primary keys below the id source and
pairwise distinct, at most one booking row per slot (the `slot_id` unique
index), and foreign keys resolvable (booking → slot, booking → client,
client → user). -/
def wfCheck (s : DBState) : Bool :=
  s.bookings.all (fun b => decide (b.id < s.nextId)) &&
  s.slots.all (fun sl => decide (sl.id < s.nextId)) &&
  decide (s.slots.Pairwise (fun a b => a.id ≠ b.id)) &&
  decide (s.bookings.Pairwise (fun a b => a.id ≠ b.id)) &&
  decide (s.bookings.Pairwise (fun a b => a.slotId ≠ b.slotId)) &&
  s.bookings.all (fun b => (findSlot s b.slotId).isSome) &&
  s.bookings.all (fun b => (findClient s b.clientId).isSome) &&
  s.clients.all (fun c => (findUser s c.userId).isSome)

/-! ## Concrete instances used by the claim theorems -/

/-- A small database: one user, one client, one `Planned` slot, no bookings. -/
def stateA : DBState :=
  { slots := [{ id := 3, scheduleId := none, providerId := 4, serviceId := none,
                startsAt := 1000, endsAt := 2000, status := .planned }],
    bookings := [], clients := [{ id := 2, userId := 1 }],
    users := [{ id := 1, telegramId := 100 }], nextId := 10 }

/-- `stateA` with a `Cancelled` booking already occupying the slot. -/
def stateCancelledBooking : DBState :=
  { stateA with
    bookings := [{ id := 5, clientId := 2, slotId := 3, status := .cancelled,
                   cancelledAt := some 50, comment := "" }] }

/-- The daily rule of the spec's count example:
2025-01-01T10:00Z, 1h, count 3. -/
def ruleDailyCount : RecurringRule :=
  { Freq := .FreqDaily, Interval := 1, Weekdays := [], StartTime := 1735725600,
    Duration := 3600, Until := none, Count := some 3, Exceptions := none }

/-- The window `[2025-01-01T00:00Z, 2025-01-10T00:00Z)`. -/
def windowJan : TimeRange := ⟨1735689600, 1736467200⟩

/-- A weekly rule anchored Wednesday 1970-01-07 18:00 UTC, Mondays only, with
`until` on Tuesday 1970-01-13 12:00 UTC. -/
def ruleWeeklyUntil : RecurringRule :=
  { Freq := .FreqWeekly, Interval := 1, Weekdays := [1], StartTime := 583200,
    Duration := 3600, Until := some 1080000, Count := none, Exceptions := none }

/-- A daily rule with two-day duration (duration exceeds the daily step). -/
def ruleDailyLong : RecurringRule :=
  { Freq := .FreqDaily, Interval := 1, Weekdays := [], StartTime := 0,
    Duration := 172800, Until := none, Count := none, Exceptions := none }

/-- A weekly rule on Sunday and Monday anchored Monday 1970-01-05 10:00 UTC. -/
def ruleWeeklySunMon : RecurringRule :=
  { Freq := .FreqWeekly, Interval := 1, Weekdays := [0, 1], StartTime := 381600,
    Duration := 3600, Until := none, Count := none, Exceptions := none }

/-- A schedule whose daily rule starts at 09:30 with a one-hour duration. -/
def schedEarly : Schedule :=
  { id := 7, providerId := 4, startDate := none, endDate := none,
    rule := some { frequency := .daily, interval := 1, weekdays := [],
                   startsAt := some 34200, durationMin := 60, untilTS := none,
                   count := 0, exceptions := [] } }

/-- An empty database. -/
def stateEmpty : DBState :=
  { slots := [], bookings := [], clients := [], users := [], nextId := 0 }

/-- The single slot of `stateA`. -/
def slotA : TimeSlot :=
  { id := 3, scheduleId := none, providerId := 4, serviceId := none,
    startsAt := 1000, endsAt := 2000, status := .planned }

/-- The booking created by `CreateBooking stateA 2 3 ""`. -/
def bookA : Booking :=
  { id := 10, clientId := 2, slotId := 3, status := .confirmed,
    cancelledAt := none, comment := "" }

/-- `bookA` after cancellation at time 555. -/
def bookACancelled : Booking :=
  { bookA with status := .cancelled, cancelledAt := some 555 }

/-- State after booking slot 3 of `stateA` for client 2. -/
def stateAfterBook : DBState := (runCreateBooking stateA 2 3 "").1

/-- State after additionally cancelling that booking at time 555. -/
def stateAfterCancel : DBState := (runCancelBooking stateAfterBook 10 555).1

/-- State after forcing slot 3 of `stateAfterBook` back to `Planned` through
`UpdateSlot` while its booking is still `Confirmed`. -/
def stateSlotForcedFree : DBState :=
  match UpdateSlot stateAfterBook 3 none none (some .planned) with
  | .ok (s', _) => s'
  | .error _ => stateAfterBook

/-- The slot returned by that `UpdateSlot` call. -/
def slotForcedFree : TimeSlot :=
  match UpdateSlot stateAfterBook 3 none none (some .planned) with
  | .ok (_, sl) => sl
  | .error _ => { id := 0, scheduleId := none, providerId := 0, serviceId := none,
                  startsAt := 0, endsAt := 0, status := .planned }

/-- State after the first materialization run of `schedEarly` over
`[10:00, 12:00)` of 1970-01-01, starting from an empty database. -/
def stateMat1 : DBState :=
  match materializeSlotsFromSchedules 10 stateEmpty 4 none 36000 43200 [schedEarly] with
  | .ok (some s) => s
  | _ => stateEmpty

/-- State after the second, immediately repeated materialization run. -/
def stateMat2 : DBState :=
  match materializeSlotsFromSchedules 10 stateMat1 4 none 36000 43200 [schedEarly] with
  | .ok (some s) => s
  | _ => stateMat1

/-- A provider-4 database for the bulk-cancel scenario: two in-window slots
(one `Booked` with a `Confirmed` booking, one `Planned`) and one slot outside
the window. -/
def stateBulk : DBState :=
  { slots := [{ id := 3, scheduleId := none, providerId := 4, serviceId := none,
                startsAt := 1000, endsAt := 2000, status := .booked },
              { id := 6, scheduleId := none, providerId := 4, serviceId := none,
                startsAt := 2500, endsAt := 3000, status := .planned },
              { id := 7, scheduleId := none, providerId := 4, serviceId := none,
                startsAt := 9000, endsAt := 9500, status := .planned }],
    bookings := [{ id := 5, clientId := 2, slotId := 3, status := .confirmed,
                   cancelledAt := none, comment := "hello" }],
    clients := [{ id := 2, userId := 1 }],
    users := [{ id := 1, telegramId := 100 }], nextId := 10 }

/-- A schedule whose single daily occurrence [10:00, 11:00) lies fully inside
the day window used below. -/
def schedInside : Schedule :=
  { id := 8, providerId := 4, startDate := none, endDate := none,
    rule := some { frequency := .daily, interval := 1, weekdays := [],
                   startsAt := some 36000, durationMin := 60, untilTS := none,
                   count := 0, exceptions := [] } }

/-- State after materializing `schedInside` over `[0, 86400)` from an empty
database. -/
def stateMatW : DBState :=
  match materializeSlotsFromSchedules 10 stateEmpty 4 none 0 86400 [schedInside] with
  | .ok (some s) => s
  | _ => stateEmpty

end AppointmentCore

namespace AppointmentCore

/-! ## List helper lemmas -/

/-! ## Claim-side description of the weekly expansion -/

/-- Claim-side weekly occurrence start: the given Go weekday of the week
starting at `ws`, at the anchor's time-of-day (`expandWeeklyDays` computes
exactly this value). -/
def weeklyOccStart (rule : RecurringRule) (ws wd : Int) : Int :=
  dateOnly (ws + secondsPerDay * offsetFromMonday wd) + timeOfDay rule.StartTime

/-- Claim-side emission filter for a weekly occurrence: not before the anchor,
not past `Until`, not an exception day, and window-overlapping. -/
def weeklyOccPass (rule : RecurringRule) (window : TimeRange) (occ : Int) : Bool :=
  !decide (occ < rule.StartTime) && !pastUntil rule.Until occ
    && !isException rule occ
    && rangesOverlap ⟨occ, occ + rule.Duration⟩ window false

/-- The week cursor of the weekly loop after `k` steps: the anchor advanced by
`k` intervals of seven days. -/
def weeklyCursor (rule : RecurringRule) (k : Nat) : Int :=
  rule.StartTime + (k : Int) * (7 * (secondsPerDay * rule.Interval))

/-- A weekly rule on Mondays anchored Monday 1970-01-05 10:00 UTC, unbounded. -/
def ruleWeeklyMon : RecurringRule :=
  { Freq := .FreqWeekly, Interval := 1, Weekdays := [1], StartTime := 381600,
    Duration := 3600, Until := none, Count := none, Exceptions := none }

/-- `find?` by a key commutes with mapping a key-preserving function. -/
theorem find?_key_map {α : Type} (key : α → Nat) (f : α → α)
    (hf : ∀ a, key (f a) = key a) (l : List α) (j : Nat) :
    (l.map f).find? (fun a => key a == j) = (l.find? (fun a => key a == j)).map f := by
  have hpred : ((fun a => key a == j) ∘ f) = (fun a => key a == j) := by
    funext a
    simp [Function.comp, hf]
  rw [List.find?_map, hpred]

/-- A guarded rewrite map is the identity on lists where the guard never
fires. -/
theorem map_ite_of_guard_false {α : Type} (cond : α → Bool) (g : α → α) (l : List α)
    (h : ∀ a ∈ l, cond a = false) :
    l.map (fun a => if cond a then g a else a) = l := by
  have : l.map (fun a => if cond a then g a else a) = l.map id :=
    List.map_congr_left (fun a ha => by rw [h a ha]; simp)
  rw [this, List.map_id]

theorem find?_append_singleton_of_none {α : Type} (p : α → Bool) (l : List α) (b : α)
    (h : ∀ x ∈ l, p x = false) (hb : p b = true) : (l ++ [b]).find? p = some b := by
  rw [List.find?_append, List.find?_eq_none.mpr (by intro x hx; simp [h x hx])]
  simp [List.find?, hb]

/-- The client conflict query only reads booking client/status and slot
id/bounds, so it is unchanged by slot maps that keep id and bounds and by
appending non-`Confirmed` bookings. -/
theorem listClientRanges_congr (s s' : DBState) (f : TimeSlot → TimeSlot)
    (hid : ∀ sl, (f sl).id = sl.id)
    (hsa : ∀ sl, (f sl).startsAt = sl.startsAt)
    (hea : ∀ sl, (f sl).endsAt = sl.endsAt)
    (hslots : s'.slots = s.slots.map f)
    (extra : List Booking) (hbk : s'.bookings = s.bookings ++ extra)
    (hextra : ∀ b ∈ extra, (b.status == BookingStatus.confirmed) = false)
    (cid k : Nat) :
    listClientConfirmedBookingRangesTx s' cid k =
      listClientConfirmedBookingRangesTx s cid k := by
  have hfindAll : ∀ j, findSlot s' j = (findSlot s j).map f := by
    intro j
    unfold findSlot
    rw [hslots]
    exact find?_key_map TimeSlot.id f hid s.slots j
  unfold listClientConfirmedBookingRangesTx
  rw [hbk, List.filterMap_append]
  have hextraNil : extra.filterMap (fun b =>
      match findSlot s' b.slotId with
      | none => none
      | some sl =>
        if b.clientId == cid && b.status == BookingStatus.confirmed && !(sl.id == k) then
          some (⟨sl.startsAt, sl.endsAt⟩ : TimeRange)
        else none) = [] := by
    rw [List.filterMap_eq_nil]
    intro b hb
    have hb' := hextra b hb
    cases hfs : findSlot s' b.slotId with
    | none => simp
    | some sl => simp [hb']
  rw [hextraNil, List.append_nil]
  apply List.filterMap_congr
  intro b _
  rw [hfindAll b.slotId]
  cases hfs : findSlot s b.slotId with
  | none => simp
  | some sl =>
    simp only [Option.map_some']
    rw [hid sl, hsa sl, hea sl]

/-- Provider-side analogue of `listClientRanges_congr`. -/
theorem listProviderRanges_congr (s s' : DBState) (f : TimeSlot → TimeSlot)
    (hid : ∀ sl, (f sl).id = sl.id)
    (hsa : ∀ sl, (f sl).startsAt = sl.startsAt)
    (hea : ∀ sl, (f sl).endsAt = sl.endsAt)
    (hpid : ∀ sl, (f sl).providerId = sl.providerId)
    (hslots : s'.slots = s.slots.map f)
    (extra : List Booking) (hbk : s'.bookings = s.bookings ++ extra)
    (hextra : ∀ b ∈ extra, (b.status == BookingStatus.confirmed) = false)
    (pid k : Nat) :
    listProviderConfirmedBookingRangesTx s' pid k =
      listProviderConfirmedBookingRangesTx s pid k := by
  have hfindAll : ∀ j, findSlot s' j = (findSlot s j).map f := by
    intro j
    unfold findSlot
    rw [hslots]
    exact find?_key_map TimeSlot.id f hid s.slots j
  unfold listProviderConfirmedBookingRangesTx
  rw [hbk, List.filterMap_append]
  have hextraNil : extra.filterMap (fun b =>
      match findSlot s' b.slotId with
      | none => none
      | some sl =>
        if sl.providerId == pid && b.status == BookingStatus.confirmed && !(sl.id == k) then
          some (⟨sl.startsAt, sl.endsAt⟩ : TimeRange)
        else none) = [] := by
    rw [List.filterMap_eq_nil]
    intro b hb
    have hb' := hextra b hb
    cases hfs : findSlot s' b.slotId with
    | none => simp
    | some sl => simp [hb']
  rw [hextraNil, List.append_nil]
  apply List.filterMap_congr
  intro b _
  rw [hfindAll b.slotId]
  cases hfs : findSlot s b.slotId with
  | none => simp
  | some sl =>
    simp only [Option.map_some']
    rw [hid sl, hsa sl, hea sl, hpid sl]

/-! ## Claim theorems -/

/-- C7: for the daily rule `{interval 1, start 2025-01-01T10:00Z, 1h, count 3}`
over the window `[2025-01-01, 2025-01-10)`, `ExpandRecurringRule` returns
exactly the occurrences of 01-01, 01-02 and 01-03 at 10:00, one hour each; and
with the exception date 2025-01-02 it returns exactly 01-01, 01-03 and 01-04 —
the excepted occurrence is skipped without consuming the count budget. -/
theorem C7_daily_count_and_exception :
    ExpandRecurringRule 10 ruleDailyCount windowJan =
      .ok (some [⟨1735725600, 1735729200⟩, ⟨1735812000, 1735815600⟩,
                 ⟨1735898400, 1735902000⟩])
  ∧ ExpandRecurringRule 10 { ruleDailyCount with Exceptions := some [1735776000] } windowJan =
      .ok (some [⟨1735725600, 1735729200⟩, ⟨1735898400, 1735902000⟩,
                 ⟨1735984800, 1735988400⟩]) :=
  ⟨rfl, rfl⟩

/-- C9 counterexample: `CheckAvailability` with a syntactically valid but
non-existing client id returns a hard `NotFound` error rather than a normal
`available = false` result, contradicting the claim that a referenced entity
not being found never produces an error. -/
theorem C9_counterexample :
    findClient stateA 99 = none
  ∧ CheckAvailability stateA 99 3 = .error (.notFound "client not found") :=
  ⟨rfl, rfl⟩

/-- C1 counterexample: in `stateCancelledBooking` the client and slot exist,
the slot is `Planned` and there is no client or provider conflict, yet
`CreateBooking` does not insert a booking: the `bookings.slot_id` unique index
rejects the second row for the slot (a cancelled booking already references
it) and the call fails `Internal`. -/
theorem C1_counterexample :
    (findClient stateCancelledBooking 2).isSome = true
  ∧ findSlot stateCancelledBooking 3 =
      some { id := 3, scheduleId := none, providerId := 4, serviceId := none,
             startsAt := 1000, endsAt := 2000, status := .planned }
  ∧ (HasOverlap ⟨1000, 2000⟩
      (listClientConfirmedBookingRangesTx stateCancelledBooking 2 3) false).1 = false
  ∧ (HasOverlap ⟨1000, 2000⟩
      (listProviderConfirmedBookingRangesTx stateCancelledBooking 4 3) false).1 = false
  ∧ CreateBooking stateCancelledBooking 2 3 "" =
      .error (.internal "create booking: unique constraint on slot_id") :=
  ⟨rfl, rfl, rfl, rfl, rfl⟩

/-- C2 counterexample: `CreateBooking` → `CancelBooking` → `CreateBooking` on
the same slot does not succeed twice: the second `CreateBooking` fails
`Internal` because the `bookings.slot_id` unique index forbids a second
booking row for the slot, so no second (Confirmed) booking record is ever
created. -/
theorem C2_counterexample :
    CreateBooking stateA 2 3 "" = .ok (stateAfterBook, bookA)
  ∧ CancelBooking stateAfterBook 10 555 = .ok (stateAfterCancel, bookACancelled)
  ∧ CreateBooking stateAfterCancel 2 3 "" =
      .error (.internal "create booking: unique constraint on slot_id")
  ∧ stateAfterCancel.bookings = [bookACancelled] :=
  ⟨rfl, rfl, rfl, rfl⟩

/-- C3 counterexample: from the conflict-free `stateA`, the sequence
`CreateBooking` then `UpdateSlot` (a slot CRUD operation of the same service,
writing status `FREE`) reaches a state whose booking is `Confirmed` while its
slot is `Planned` — the claimed invariant fails on the full operation set. -/
theorem C3_counterexample :
    statusInvCheck stateA = true
  ∧ wfCheck stateA = true
  ∧ CreateBooking stateA 2 3 "" = .ok (stateAfterBook, bookA)
  ∧ statusInvCheck stateAfterBook = true
  ∧ UpdateSlot stateAfterBook 3 none none (some .planned) =
      .ok (stateSlotForcedFree, slotForcedFree)
  ∧ statusInvCheck stateSlotForcedFree = false :=
  ⟨rfl, rfl, rfl, rfl, rfl, rfl⟩

/-- C4 counterexample: the daily rule of `schedEarly` places a 09:30–10:30
candidate overlapping the window `[10:00, 12:00)` without lying fully inside
it. The first materialization run inserts it; the second run's existing-slot
query (`starts_at >= from AND ends_at <= to`) does not see it, so the run
stages it again: the slot row count grows from 1 to 2 — materialization is not
idempotent under serialized repetition. -/
theorem C4_counterexample :
    materializeSlotsFromSchedules 10 stateEmpty 4 none 36000 43200 [schedEarly] =
      .ok (some stateMat1)
  ∧ stateMat1.slots.length = 1
  ∧ materializeSlotsFromSchedules 10 stateMat1 4 none 36000 43200 [schedEarly] =
      .ok (some stateMat2)
  ∧ stateMat2.slots.length = 2 :=
  ⟨rfl, rfl, rfl, rfl⟩

/-- C8 counterexample: a daily rule whose duration (2 days) exceeds its step
produces consecutive overlapping ranges; and a weekly rule on
`{Sunday, Monday}` emits the Sunday occurrence of a week before that week's
Monday occurrence, so the output is not ordered by ascending start. -/
theorem C8_counterexample :
    ExpandRecurringRule 10 ruleDailyLong ⟨0, 345600⟩ =
      .ok (some [⟨0, 172800⟩, ⟨86400, 259200⟩, ⟨172800, 345600⟩, ⟨259200, 432000⟩])
  ∧ rangesOverlap ⟨0, 172800⟩ ⟨86400, 259200⟩ false = true
  ∧ ExpandRecurringRule 20 ruleWeeklySunMon ⟨0, 950400⟩ =
      .ok (some [⟨900000, 903600⟩, ⟨381600, 385200⟩])
  ∧ (381600 : Int) < 900000 :=
  ⟨rfl, rfl, rfl, by decide⟩

/-- C6 counterexample: for `ruleWeeklyUntil` (anchor Wednesday 18:00, Mondays,
`until` Tuesday of the next week at 12:00) the Monday occurrence at 1015200
starts before `until`, is at the anchor's time-of-day on a listed weekday, is
not excepted and overlaps the window, yet the expansion returns the empty
list: the outer loop stops as soon as the week cursor (anchor + 7·interval
days) exceeds `until`, skipping valid earlier-weekday occurrences. -/
theorem C6_counterexample :
    ExpandRecurringRule 10 ruleWeeklyUntil ⟨0, 1728000⟩ = .ok (some [])
  ∧ goWeekday 1015200 = 1
  ∧ timeOfDay 1015200 = timeOfDay ruleWeeklyUntil.StartTime
  ∧ ruleWeeklyUntil.StartTime ≤ 1015200
  ∧ pastUntil ruleWeeklyUntil.Until 1015200 = false
  ∧ rangesOverlap ⟨1015200, 1015200 + ruleWeeklyUntil.Duration⟩ ⟨0, 1728000⟩ false = true :=
  ⟨rfl, by decide, by decide, by decide, by decide, rfl⟩

/-- C9 (amended): once the client exists, `CheckAvailability` never raises:
a missing slot, a non-free slot and client/provider conflicts are all reported
as `available = false` with the corresponding human-readable reason, and the
operation reads but never writes the database. A missing client, however, is
still a hard `NotFound` error (see the counterexample), unlike what the claim
states. -/
theorem C9_checkAvailability_amended (s : DBState) (cid sid : Nat)
    (hc : (findClient s cid).isSome = true) :
    (∃ r, CheckAvailability s cid sid = .ok r)
  ∧ (findSlot s sid = none →
      CheckAvailability s cid sid = .ok ⟨false, "slot not found"⟩)
  ∧ (∀ slot, findSlot s sid = some slot → ¬slot.status = .planned →
      CheckAvailability s cid sid = .ok ⟨false, "slot is not free"⟩)
  ∧ (∀ slot, findSlot s sid = some slot → slot.status = .planned →
      (HasOverlap ⟨slot.startsAt, slot.endsAt⟩
        (listClientConfirmedBookingRangesTx s cid slot.id) false).1 = true →
      CheckAvailability s cid sid = .ok ⟨false, "client has conflicting booking"⟩)
  ∧ (∀ slot, findSlot s sid = some slot → slot.status = .planned →
      (HasOverlap ⟨slot.startsAt, slot.endsAt⟩
        (listClientConfirmedBookingRangesTx s cid slot.id) false).1 = false →
      (HasOverlap ⟨slot.startsAt, slot.endsAt⟩
        (listProviderConfirmedBookingRangesTx s slot.providerId slot.id) false).1 = true →
      CheckAvailability s cid sid = .ok ⟨false, "provider has conflicting booking"⟩) := by
  obtain ⟨c, hcEq⟩ := Option.isSome_iff_exists.mp hc
  unfold CheckAvailability
  rw [hcEq]
  refine ⟨?_, ?_, ?_, ?_, ?_⟩
  · cases hslot : findSlot s sid with
    | none => exact ⟨⟨false, "slot not found"⟩, rfl⟩
    | some slot =>
      by_cases hst : slot.status = .planned
      · simp only [hst]
        by_cases hcc : (HasOverlap ⟨slot.startsAt, slot.endsAt⟩
            (listClientConfirmedBookingRangesTx s cid slot.id) false).1 = true
        · simp [hcc]
        · by_cases hpc : (HasOverlap ⟨slot.startsAt, slot.endsAt⟩
              (listProviderConfirmedBookingRangesTx s slot.providerId slot.id) false).1 = true
          · simp [hcc, hpc]
          · simp [hcc, hpc]
      · simp [hst]
  · intro hnone
    rw [hnone]
  · intro slot hslot hst
    rw [hslot]
    simp [hst]
  · intro slot hslot hst hcc
    rw [hslot]
    simp [hst, hcc]
  · intro slot hslot hst hcc hpc
    rw [hslot]
    simp [hst, hcc, hpc]

/-- Witness for `C9_checkAvailability_amended` at `stateA`, client 2, slot 3. -/
theorem C9_checkAvailability_amended_witness :
    (findClient stateA 2).isSome = true
  ∧ ∃ r, CheckAvailability stateA 2 3 = .ok r :=
  ⟨by decide, (C9_checkAvailability_amended stateA 2 3 (by decide)).1⟩

/-- C1 (amended): for a `CreateBooking` call whose client and slot exist, the
outcomes are checked in order: a non-`Planned` slot fails
`FailedPrecondition` "slot is not free"; an exclusive overlap with another
slot's `Confirmed` booking of the same client fails `FailedPrecondition`
"client has conflicting booking"; then the same check for the provider fails
"provider has conflicting booking"; if any booking row (of any status) already
references the slot, the `bookings.slot_id` unique index rejects the insert
and the call fails `Internal` (this case is missing from the claim); otherwise
exactly one `Confirmed` booking is inserted and the slot becomes `Booked`.
Every failure leaves the state unchanged (the transaction rolls back). -/
theorem C1_createBooking_amended (s : DBState) (cid sid : Nat) (comment : String)
    (slot : TimeSlot) (hc : (findClient s cid).isSome = true)
    (hs : findSlot s sid = some slot) :
    (¬slot.status = .planned →
      CreateBooking s cid sid comment = .error (.failedPrecondition "slot is not free"))
  ∧ (slot.status = .planned →
      (HasOverlap ⟨slot.startsAt, slot.endsAt⟩
        (listClientConfirmedBookingRangesTx s cid slot.id) false).1 = true →
      CreateBooking s cid sid comment =
        .error (.failedPrecondition "client has conflicting booking"))
  ∧ (slot.status = .planned →
      (HasOverlap ⟨slot.startsAt, slot.endsAt⟩
        (listClientConfirmedBookingRangesTx s cid slot.id) false).1 = false →
      (HasOverlap ⟨slot.startsAt, slot.endsAt⟩
        (listProviderConfirmedBookingRangesTx s slot.providerId slot.id) false).1 = true →
      CreateBooking s cid sid comment =
        .error (.failedPrecondition "provider has conflicting booking"))
  ∧ (slot.status = .planned →
      (HasOverlap ⟨slot.startsAt, slot.endsAt⟩
        (listClientConfirmedBookingRangesTx s cid slot.id) false).1 = false →
      (HasOverlap ⟨slot.startsAt, slot.endsAt⟩
        (listProviderConfirmedBookingRangesTx s slot.providerId slot.id) false).1 = false →
      s.bookings.any (fun b => b.slotId == slot.id) = true →
      CreateBooking s cid sid comment =
        .error (.internal "create booking: unique constraint on slot_id"))
  ∧ (slot.status = .planned →
      (HasOverlap ⟨slot.startsAt, slot.endsAt⟩
        (listClientConfirmedBookingRangesTx s cid slot.id) false).1 = false →
      (HasOverlap ⟨slot.startsAt, slot.endsAt⟩
        (listProviderConfirmedBookingRangesTx s slot.providerId slot.id) false).1 = false →
      s.bookings.any (fun b => b.slotId == slot.id) = false →
      CreateBooking s cid sid comment = .ok
        ({ s with
           bookings := s.bookings ++
             [{ id := s.nextId, clientId := cid, slotId := slot.id,
                status := .confirmed, cancelledAt := none, comment := comment }],
           slots := s.slots.map (fun sl =>
             if sl.id == slot.id then { sl with status := .booked } else sl),
           nextId := s.nextId + 1 },
         { id := s.nextId, clientId := cid, slotId := slot.id,
           status := .confirmed, cancelledAt := none, comment := comment }))
  ∧ (∀ e, CreateBooking s cid sid comment = .error e →
      runCreateBooking s cid sid comment = (s, .error e)) := by
  obtain ⟨c, hcEq⟩ := Option.isSome_iff_exists.mp hc
  refine ⟨?_, ?_, ?_, ?_, ?_, ?_⟩
  · intro hst
    unfold CreateBooking
    rw [hcEq, hs]
    simp [hst]
  · intro hst hcc
    unfold CreateBooking
    rw [hcEq, hs]
    simp [hst, hcc]
  · intro hst hcc hpc
    unfold CreateBooking
    rw [hcEq, hs]
    simp [hst, hcc, hpc]
  · intro hst hcc hpc hany
    unfold CreateBooking
    rw [hcEq, hs]
    simp [hst, hcc, hpc, hany]
  · intro hst hcc hpc hany
    unfold CreateBooking
    rw [hcEq, hs]
    simp [hst, hcc, hpc, hany]
  · intro e herr
    unfold runCreateBooking
    rw [herr]

/-- Witness for `C1_createBooking_amended`: at `stateA` the success case fires
and inserts the unique `Confirmed` booking while marking the slot `Booked`. -/
theorem C1_createBooking_amended_witness :
    (findClient stateA 2).isSome = true
  ∧ findSlot stateA 3 = some slotA
  ∧ CreateBooking stateA 2 3 "" = .ok
      ({ stateA with
         bookings := stateA.bookings ++
           [{ id := stateA.nextId, clientId := 2, slotId := slotA.id,
              status := .confirmed, cancelledAt := none, comment := "" }],
         slots := stateA.slots.map (fun sl =>
           if sl.id == slotA.id then { sl with status := .booked } else sl),
         nextId := stateA.nextId + 1 },
       { id := stateA.nextId, clientId := 2, slotId := slotA.id,
         status := .confirmed, cancelledAt := none, comment := "" }) :=
  ⟨by decide, by decide,
    (C1_createBooking_amended stateA 2 3 "" slotA (by decide) (by decide)).2.2.2.2.1
      (by decide) (by decide) (by decide) (by decide)⟩



/-- C2 (amended): on a `Planned` slot with no prior booking row and no
conflicts, `CreateBooking` succeeds; `CancelBooking` then cancels the booking
and frees the slot; but the second `CreateBooking` fails `Internal` because
the `bookings.slot_id` unique index forbids a second booking row for the same
slot. Afterwards exactly one booking record references the slot — the first
one, now `Cancelled` — and the slot's status is `Planned` (not `Booked` as the
claim states). -/
theorem C2_cancel_rebook_amended (s : DBState) (cid sid : Nat) (comment : String) (now : Int)
    (slot : TimeSlot)
    (hc : (findClient s cid).isSome = true)
    (hs : findSlot s sid = some slot)
    (hst : slot.status = .planned)
    (hcc : (HasOverlap ⟨slot.startsAt, slot.endsAt⟩
        (listClientConfirmedBookingRangesTx s cid slot.id) false).1 = false)
    (hpc : (HasOverlap ⟨slot.startsAt, slot.endsAt⟩
        (listProviderConfirmedBookingRangesTx s slot.providerId slot.id) false).1 = false)
    (hnoB : s.bookings.all (fun b => !(b.slotId == slot.id)) = true)
    (hids : s.bookings.all (fun b => decide (b.id < s.nextId)) = true) :
    ∃ s1 b1 s2 b2,
      CreateBooking s cid sid comment = .ok (s1, b1)
    ∧ b1.status = .confirmed ∧ b1.slotId = slot.id
    ∧ CancelBooking s1 b1.id now = .ok (s2, b2)
    ∧ b2.status = .cancelled ∧ b2.id = b1.id ∧ b2.slotId = slot.id
    ∧ CreateBooking s2 cid sid comment =
        .error (.internal "create booking: unique constraint on slot_id")
    ∧ s2.bookings.filter (fun b => b.slotId == slot.id) = [b2]
    ∧ findSlot s2 sid = some { slot with status := .planned } := by
  obtain ⟨c, hcEq⟩ := Option.isSome_iff_exists.mp hc
  have hany : s.bookings.any (fun b => b.slotId == slot.id) = false := by
    rw [List.any_eq_false]
    intro x hx
    have hh := List.all_eq_true.mp hnoB x hx
    simpa using hh
  have hidsf : ∀ x ∈ s.bookings, (x.id == s.nextId) = false := by
    intro x hx
    have := List.all_eq_true.mp hids x hx
    simp at this ⊢
    omega
  -- step 1: the first CreateBooking succeeds
  have h1 : CreateBooking s cid sid comment = .ok
      ({ s with
         bookings := s.bookings ++
           [{ id := s.nextId, clientId := cid, slotId := slot.id,
              status := .confirmed, cancelledAt := none, comment := comment }],
         slots := s.slots.map (fun sl =>
           if sl.id == slot.id then { sl with status := .booked } else sl),
         nextId := s.nextId + 1 },
       { id := s.nextId, clientId := cid, slotId := slot.id,
         status := .confirmed, cancelledAt := none, comment := comment }) := by
    unfold CreateBooking
    rw [hcEq, hs]
    simp [hst, hcc, hpc, hany]
  -- step 2: the created booking is found again
  have hfindb : findBooking
      ({ s with
         bookings := s.bookings ++
           [{ id := s.nextId, clientId := cid, slotId := slot.id,
              status := .confirmed, cancelledAt := none, comment := comment }],
         slots := s.slots.map (fun sl =>
           if sl.id == slot.id then { sl with status := .booked } else sl),
         nextId := s.nextId + 1 }) s.nextId = some
      { id := s.nextId, clientId := cid, slotId := slot.id,
        status := .confirmed, cancelledAt := none, comment := comment } := by
    unfold findBooking
    exact find?_append_singleton_of_none _ _ _ hidsf (by simp)
  -- step 3: the cancellation succeeds
  have h2 : CancelBooking
      ({ s with
         bookings := s.bookings ++
           [{ id := s.nextId, clientId := cid, slotId := slot.id,
              status := .confirmed, cancelledAt := none, comment := comment }],
         slots := s.slots.map (fun sl =>
           if sl.id == slot.id then { sl with status := .booked } else sl),
         nextId := s.nextId + 1 }) s.nextId now = .ok
      ({ s with
         bookings := (s.bookings ++
           [({ id := s.nextId, clientId := cid, slotId := slot.id,
               status := .confirmed, cancelledAt := none, comment := comment } : Booking)]).map
           (fun x : Booking => if x.id == s.nextId then
              { x with status := .cancelled, cancelledAt := some now } else x),
         slots := (s.slots.map (fun sl =>
           if sl.id == slot.id then { sl with status := .booked } else sl)).map
           (fun sl : TimeSlot => if sl.id == slot.id then { sl with status := .planned } else sl),
         nextId := s.nextId + 1 },
       { id := s.nextId, clientId := cid, slotId := slot.id,
         status := .cancelled, cancelledAt := some now, comment := comment }) := by
    unfold CancelBooking
    rw [hfindb]
    simp
  -- step 4: normalize the cancelled state
  have hbook2 : ((s.bookings ++
      [({ id := s.nextId, clientId := cid, slotId := slot.id,
          status := .confirmed, cancelledAt := none, comment := comment } : Booking)]).map
      (fun x : Booking => if x.id == s.nextId then
        { x with status := .cancelled, cancelledAt := some now } else x)) =
      s.bookings ++
      [({ id := s.nextId, clientId := cid, slotId := slot.id,
          status := .cancelled, cancelledAt := some now, comment := comment } : Booking)] := by
    rw [List.map_append]
    congr 1
    · exact map_ite_of_guard_false _ _ _ hidsf
    · simp
  have hslots2 : ((s.slots.map (fun sl =>
      if sl.id == slot.id then { sl with status := .booked } else sl)).map
      (fun sl : TimeSlot => if sl.id == slot.id then { sl with status := .planned } else sl)) =
      s.slots.map (fun sl : TimeSlot =>
        if sl.id == slot.id then { sl with status := .planned } else sl) := by
    rw [List.map_map]
    apply List.map_congr_left
    intro a _
    by_cases h : a.id == slot.id <;> simp [Function.comp, h]
  rw [hbook2, hslots2] at h2
  have hFPid : ∀ sl : TimeSlot, ((if sl.id == slot.id then
      { sl with status := TimeSlotStatus.planned } else sl) : TimeSlot).id = sl.id := by
    intro sl; by_cases h : sl.id == slot.id <;> simp [h]
  have hFPsa : ∀ sl : TimeSlot, ((if sl.id == slot.id then
      { sl with status := TimeSlotStatus.planned } else sl) : TimeSlot).startsAt = sl.startsAt := by
    intro sl; by_cases h : sl.id == slot.id <;> simp [h]
  have hFPea : ∀ sl : TimeSlot, ((if sl.id == slot.id then
      { sl with status := TimeSlotStatus.planned } else sl) : TimeSlot).endsAt = sl.endsAt := by
    intro sl; by_cases h : sl.id == slot.id <;> simp [h]
  have hFPpid : ∀ sl : TimeSlot, ((if sl.id == slot.id then
      { sl with status := TimeSlotStatus.planned } else sl) : TimeSlot).providerId = sl.providerId := by
    intro sl; by_cases h : sl.id == slot.id <;> simp [h]
  -- step 5: the second CreateBooking hits the unique index
  have hfs2 : findSlot
      ({ s with
         bookings := s.bookings ++
           [({ id := s.nextId, clientId := cid, slotId := slot.id,
               status := .cancelled, cancelledAt := some now, comment := comment } : Booking)],
         slots := s.slots.map (fun sl : TimeSlot =>
           if sl.id == slot.id then { sl with status := .planned } else sl),
         nextId := s.nextId + 1 }) sid =
      some { slot with status := TimeSlotStatus.planned } := by
    unfold findSlot
    rw [find?_key_map TimeSlot.id _ hFPid]
    unfold findSlot at hs
    rw [hs]
    simp
  have hccS2 : listClientConfirmedBookingRangesTx
      ({ s with
         bookings := s.bookings ++
           [({ id := s.nextId, clientId := cid, slotId := slot.id,
               status := .cancelled, cancelledAt := some now, comment := comment } : Booking)],
         slots := s.slots.map (fun sl : TimeSlot =>
           if sl.id == slot.id then { sl with status := .planned } else sl),
         nextId := s.nextId + 1 }) cid slot.id =
      listClientConfirmedBookingRangesTx s cid slot.id := by
    apply listClientRanges_congr s _ _ hFPid hFPsa hFPea rfl _ rfl
    intro b hb
    simp at hb
    simp [hb]
  have hpcS2 : listProviderConfirmedBookingRangesTx
      ({ s with
         bookings := s.bookings ++
           [({ id := s.nextId, clientId := cid, slotId := slot.id,
               status := .cancelled, cancelledAt := some now, comment := comment } : Booking)],
         slots := s.slots.map (fun sl : TimeSlot =>
           if sl.id == slot.id then { sl with status := .planned } else sl),
         nextId := s.nextId + 1 }) slot.providerId slot.id =
      listProviderConfirmedBookingRangesTx s slot.providerId slot.id := by
    apply listProviderRanges_congr s _ _ hFPid hFPsa hFPea hFPpid rfl _ rfl
    intro b hb
    simp at hb
    simp [hb]
  have hany2 : (s.bookings ++
      [({ id := s.nextId, clientId := cid, slotId := slot.id,
          status := .cancelled, cancelledAt := some now, comment := comment } : Booking)]).any
      (fun b => b.slotId == slot.id) = true := by
    rw [List.any_append]
    simp
  have h3 : CreateBooking
      ({ s with
         bookings := s.bookings ++
           [({ id := s.nextId, clientId := cid, slotId := slot.id,
               status := .cancelled, cancelledAt := some now, comment := comment } : Booking)],
         slots := s.slots.map (fun sl : TimeSlot =>
           if sl.id == slot.id then { sl with status := .planned } else sl),
         nextId := s.nextId + 1 }) cid sid comment =
      .error (.internal "create booking: unique constraint on slot_id") := by
    unfold CreateBooking
    simp only [show findClient
      ({ s with
         bookings := s.bookings ++
           [({ id := s.nextId, clientId := cid, slotId := slot.id,
               status := .cancelled, cancelledAt := some now, comment := comment } : Booking)],
         slots := s.slots.map (fun sl : TimeSlot =>
           if sl.id == slot.id then { sl with status := .planned } else sl),
         nextId := s.nextId + 1 }) cid = some c from hcEq, hfs2]
    dsimp only
    simp only [hccS2, hpcS2, hcc, hpc, hany2]
    simp
  -- step 6: the slot carries exactly one (cancelled) booking row
  have hfilter : (s.bookings ++
      [({ id := s.nextId, clientId := cid, slotId := slot.id,
          status := .cancelled, cancelledAt := some now, comment := comment } : Booking)]).filter
      (fun b => b.slotId == slot.id) =
      [({ id := s.nextId, clientId := cid, slotId := slot.id,
          status := .cancelled, cancelledAt := some now, comment := comment } : Booking)] := by
    rw [List.filter_append]
    have h0 : s.bookings.filter (fun b => b.slotId == slot.id) = [] := by
      rw [List.filter_eq_nil_iff]
      intro a ha
      have := List.all_eq_true.mp hnoB a ha
      simpa using this
    rw [h0]
    simp
  exact ⟨_, _, _, _, h1, rfl, rfl, h2, rfl, rfl, rfl, h3, hfilter, hfs2⟩

/-- Witness for `C2_cancel_rebook_amended` at `stateA`, client 2, slot 3. -/
theorem C2_cancel_rebook_amended_witness :
    (findClient stateA 2).isSome = true
  ∧ findSlot stateA 3 = some slotA
  ∧ ∃ s1 b1 s2 b2,
      CreateBooking stateA 2 3 "" = .ok (s1, b1)
    ∧ b1.status = .confirmed ∧ b1.slotId = slotA.id
    ∧ CancelBooking s1 b1.id 555 = .ok (s2, b2)
    ∧ b2.status = .cancelled ∧ b2.id = b1.id ∧ b2.slotId = slotA.id
    ∧ CreateBooking s2 2 3 "" =
        .error (.internal "create booking: unique constraint on slot_id")
    ∧ s2.bookings.filter (fun b => b.slotId == slotA.id) = [b2]
    ∧ findSlot s2 3 = some { slotA with status := .planned } :=
  ⟨by decide, by decide,
    C2_cancel_rebook_amended stateA 2 3 "" 555 slotA (by decide) (by decide)
      (by decide) (by decide) (by decide) (by decide) (by decide)⟩


/-- In a list pairwise distinct on a key, elements with equal keys are equal. -/
theorem eq_of_mem_of_pairwise_key {α : Type} (key : α → Nat) :
    ∀ (l : List α), List.Pairwise (fun a b => key a ≠ key b) l →
      ∀ a ∈ l, ∀ b ∈ l, key a = key b → a = b
  | [], _, a, ha, _, _, _ => absurd ha (List.not_mem_nil a)
  | x :: xs, hp, a, ha, b, hb, hk => by
    rcases List.mem_cons.mp ha with ha' | ha' <;>
      rcases List.mem_cons.mp hb with hb' | hb'
    · rw [ha', hb']
    · exact absurd (ha' ▸ hk) ((List.pairwise_cons.mp hp).1 b hb')
    · exact absurd (hb' ▸ hk.symm) ((List.pairwise_cons.mp hp).1 a ha')
    · exact eq_of_mem_of_pairwise_key key xs (List.pairwise_cons.mp hp).2 a ha' b hb' hk

/-- Membership in the bulk-cancel capture rows. -/
theorem mem_bulkAffectedRows (s : DBState) (pid : Nat) (start fin : Int)
    (row : AffectedBooking) :
    row ∈ bulkAffectedRows s pid start fin ↔
      ∃ b ∈ s.bookings, ∃ sl c u,
        findSlot s b.slotId = some sl ∧ findClient s b.clientId = some c ∧
        findUser s c.userId = some u ∧
        (bulkSlotTarget pid start fin sl && !(b.status == .cancelled)) = true ∧
        row = { bookingId := b.id, slotId := sl.id, clientId := b.clientId,
                clientUserId := c.userId, clientTelegramId := u.telegramId,
                providerId := sl.providerId, serviceId := sl.serviceId,
                startsAt := sl.startsAt, endsAt := sl.endsAt } := by
  unfold bulkAffectedRows
  rw [List.mem_filterMap]
  constructor
  · rintro ⟨b, hb, hg⟩
    refine ⟨b, hb, ?_⟩
    repeat' split at hg
    all_goals try exact Option.noConfusion hg
    rename_i x2 sl heqs x1 c heqc x0 u hequ hcond
    exact ⟨sl, c, u, heqs, heqc, hequ, hcond, (Option.some_inj.mp hg).symm⟩
  · rintro ⟨b, hb, sl, c, u, hfs, hfc, hfu, hcond, hrow⟩
    refine ⟨b, hb, ?_⟩
    subst hrow
    simp [hfs, hfc, hfu, hcond]

/-- Under referential integrity and distinct booking ids, the id list of the
capture rows contains exactly the targeted bookings. -/
theorem bulk_contains_iff (s : DBState) (pid : Nat) (start fin : Int)
    (hpair : List.Pairwise (fun a b => a.id ≠ b.id) s.bookings)
    (hUsers : s.bookings.all (fun b =>
      match findClient s b.clientId with
      | some c => (findUser s c.userId).isSome
      | none => false) = true) :
    ∀ b ∈ s.bookings,
      ((bulkAffectedRows s pid start fin).map (fun r => r.bookingId)).contains b.id =
        bulkBookingTarget s pid start fin b := by
  intro b hb
  by_cases ht : bulkBookingTarget s pid start fin b = true
  · rw [ht]
    have hU := List.all_eq_true.mp hUsers b hb
    unfold bulkBookingTarget at ht
    cases hfs : findSlot s b.slotId with
    | none => simp only [hfs] at ht; exact absurd ht (by simp)
    | some sl =>
      simp only [hfs] at ht
      cases hfc : findClient s b.clientId with
      | none => simp only [hfc] at hU; exact absurd hU (by simp)
      | some c =>
        simp only [hfc] at hU
        obtain ⟨u, hfu⟩ := Option.isSome_iff_exists.mp hU
        have hmem := (mem_bulkAffectedRows s pid start fin
          { bookingId := b.id, slotId := sl.id, clientId := b.clientId,
            clientUserId := c.userId, clientTelegramId := u.telegramId,
            providerId := sl.providerId, serviceId := sl.serviceId,
            startsAt := sl.startsAt, endsAt := sl.endsAt }).mpr
          ⟨b, hb, sl, c, u, hfs, hfc, hfu, ht, rfl⟩
        have hidmem : b.id ∈ (bulkAffectedRows s pid start fin).map (fun r => r.bookingId) :=
          List.mem_map.mpr ⟨_, hmem, rfl⟩
        exact List.elem_eq_true_of_mem hidmem
  · have ht' := Bool.eq_false_iff.mpr ht
    rw [ht']
    rw [Bool.eq_false_iff]
    intro hcon
    have hidmem : b.id ∈ (bulkAffectedRows s pid start fin).map (fun r => r.bookingId) := by
      simpa using hcon
    obtain ⟨row, hrowmem, hrowid⟩ := List.mem_map.mp hidmem
    obtain ⟨b', hb', sl, c, u, hfs, hfc, hfu, hcond, hroweq⟩ :=
      (mem_bulkAffectedRows s pid start fin row).mp hrowmem
    have hbid : b'.id = b.id := by rw [hroweq] at hrowid; exact hrowid
    have hbeq : b' = b := eq_of_mem_of_pairwise_key Booking.id s.bookings hpair b' hb' b hb hbid
    apply ht
    subst hbeq
    unfold bulkBookingTarget
    rw [hfs]
    exact hcond

/-- C5: `BulkCancelProviderSlots` cancels exactly the provider's
non-cancelled slots lying fully inside the window and exactly the
non-cancelled bookings attached to those slots (stamping `cancelledAt` and
overwriting the comment only for a non-empty reason); every other slot and
booking — other providers, out-of-window slots, already-cancelled rows — is
unchanged, and each returned `affectedBookings` entry carries the booking id,
slot id, client id, client contact identifiers, provider id, service id and
slot time range captured from the pre-mutation state. Holds under referential
integrity (bookings resolve to clients and users; booking ids distinct). -/
theorem C5_bulkCancel_frame (s : DBState) (pid : Nat) (start fin : Int)
    (reason : String) (now : Int)
    (hwin : start < fin)
    (hpair : List.Pairwise (fun a b => a.id ≠ b.id) s.bookings)
    (hUsers : s.bookings.all (fun b =>
      match findClient s b.clientId with
      | some c => (findUser s c.userId).isSome
      | none => false) = true) :
    ∃ s' r, BulkCancelProviderSlots s pid start fin reason now = .ok (s', r)
  ∧ s'.slots = s.slots.map (fun sl =>
      if bulkSlotTarget pid start fin sl then { sl with status := .cancelled } else sl)
  ∧ s'.bookings = s.bookings.map (fun b =>
      if bulkBookingTarget s pid start fin b then
        { b with status := .cancelled, cancelledAt := some now,
                 comment := if reason == "" then b.comment else reason }
      else b)
  ∧ s'.clients = s.clients
  ∧ s'.users = s.users
  ∧ r.cancelledSlots = (s.slots.filter (fun sl => bulkSlotTarget pid start fin sl)).length
  ∧ r.cancelledBookings =
      (s.bookings.filter (fun b => bulkBookingTarget s pid start fin b)).length
  ∧ r.affectedBookings = bulkAffectedRows s pid start fin
  ∧ (∀ row ∈ r.affectedBookings, ∃ b ∈ s.bookings, ∃ sl c u,
      findSlot s b.slotId = some sl ∧ findClient s b.clientId = some c ∧
      findUser s c.userId = some u ∧ bulkSlotTarget pid start fin sl = true ∧
      (b.status == BookingStatus.cancelled) = false ∧
      row = { bookingId := b.id, slotId := sl.id, clientId := b.clientId,
              clientUserId := c.userId, clientTelegramId := u.telegramId,
              providerId := sl.providerId, serviceId := sl.serviceId,
              startsAt := sl.startsAt, endsAt := sl.endsAt })
  ∧ (∀ b ∈ s.bookings, bulkBookingTarget s pid start fin b = true →
      ∃ row ∈ r.affectedBookings, row.bookingId = b.id) := by
  have hkey := bulk_contains_iff s pid start fin hpair hUsers
  have hcondEq : ∀ b ∈ s.bookings,
      (((bulkAffectedRows s pid start fin).map (fun r => r.bookingId)).contains b.id
        && !(b.status == BookingStatus.cancelled)) =
      bulkBookingTarget s pid start fin b := by
    intro b hb
    rw [hkey b hb]
    unfold bulkBookingTarget
    cases hm : (match findSlot s b.slotId with
      | some sl => bulkSlotTarget pid start fin sl
      | none => false) <;>
      cases hc : (b.status == BookingStatus.cancelled) <;> simp
  have hrun : BulkCancelProviderSlots s pid start fin reason now = .ok
      ({ s with
         slots := s.slots.map (fun sl =>
           if bulkSlotTarget pid start fin sl then { sl with status := .cancelled } else sl),
         bookings :=
           if (bulkAffectedRows s pid start fin).isEmpty then s.bookings
           else s.bookings.map (fun b =>
             if ((bulkAffectedRows s pid start fin).map (fun r => r.bookingId)).contains b.id
                 && !(b.status == BookingStatus.cancelled) then
               { b with status := .cancelled, cancelledAt := some now,
                        comment := if reason == "" then b.comment else reason }
             else b) },
       { cancelledSlots := (s.slots.filter (fun sl => bulkSlotTarget pid start fin sl)).length,
         cancelledBookings :=
           if (bulkAffectedRows s pid start fin).isEmpty then 0
           else (s.bookings.filter (fun b =>
             ((bulkAffectedRows s pid start fin).map (fun r => r.bookingId)).contains b.id
               && !(b.status == BookingStatus.cancelled))).length,
         affectedBookings := bulkAffectedRows s pid start fin }) := by
    unfold BulkCancelProviderSlots
    have hguard : (!decide (start < fin)) = false := by simp [hwin]
    rw [hguard]
    rfl
  have hbookings :
      (if (bulkAffectedRows s pid start fin).isEmpty then s.bookings
       else s.bookings.map (fun b =>
         if ((bulkAffectedRows s pid start fin).map (fun r => r.bookingId)).contains b.id
             && !(b.status == BookingStatus.cancelled) then
           { b with status := .cancelled, cancelledAt := some now,
                    comment := if reason == "" then b.comment else reason }
         else b)) =
      s.bookings.map (fun b =>
        if bulkBookingTarget s pid start fin b then
          { b with status := .cancelled, cancelledAt := some now,
                   comment := if reason == "" then b.comment else reason }
        else b) := by
    by_cases hempty : (bulkAffectedRows s pid start fin).isEmpty = true
    · rw [if_pos hempty]
      have hnone : ∀ b ∈ s.bookings, bulkBookingTarget s pid start fin b = false := by
        intro b hb
        rw [← hkey b hb]
        rw [List.isEmpty_iff.mp hempty]
        rfl
      exact (map_ite_of_guard_false _ _ s.bookings hnone).symm
    · rw [if_neg hempty]
      apply List.map_congr_left
      intro b hb
      rw [hcondEq b hb]
  have hcB :
      (if (bulkAffectedRows s pid start fin).isEmpty then 0
       else (s.bookings.filter (fun b =>
         ((bulkAffectedRows s pid start fin).map (fun r => r.bookingId)).contains b.id
           && !(b.status == BookingStatus.cancelled))).length) =
      (s.bookings.filter (fun b => bulkBookingTarget s pid start fin b)).length := by
    by_cases hempty : (bulkAffectedRows s pid start fin).isEmpty = true
    · rw [if_pos hempty]
      have hn : s.bookings.filter (fun b => bulkBookingTarget s pid start fin b) = [] := by
        rw [List.filter_eq_nil_iff]
        intro b hb
        rw [← hkey b hb]
        rw [List.isEmpty_iff.mp hempty]
        simp
      rw [hn]
      rfl
    · rw [if_neg hempty]
      congr 1
      apply List.filter_congr
      intro b hb
      rw [hcondEq b hb]
  refine ⟨_, _, hrun, rfl, hbookings, rfl, rfl, rfl, hcB, rfl, ?_, ?_⟩
  · intro row hrow
    obtain ⟨b, hb, sl, c, u, hfs, hfc, hfu, hcond, hroweq⟩ :=
      (mem_bulkAffectedRows s pid start fin row).mp hrow
    obtain ⟨h1, h2⟩ := Bool.and_eq_true_iff.mp hcond
    exact ⟨b, hb, sl, c, u, hfs, hfc, hfu, h1, by simpa using h2, hroweq⟩
  · intro b hb ht
    have hcontains := (hkey b hb).trans ht
    have hidmem : b.id ∈ (bulkAffectedRows s pid start fin).map (fun r => r.bookingId) := by
      simpa using hcontains
    obtain ⟨row, hrowmem, hrowid⟩ := List.mem_map.mp hidmem
    exact ⟨row, hrowmem, hrowid⟩

/-- Witness for `C5_bulkCancel_frame` at `stateBulk` over window `[0, 5000)`. -/
theorem C5_bulkCancel_frame_witness :
    (0 : Int) < 5000
  ∧ List.Pairwise (fun a b => a.id ≠ b.id) stateBulk.bookings
  ∧ ∃ s' r, BulkCancelProviderSlots stateBulk 4 0 5000 "closed" 777 = .ok (s', r)
  ∧ s'.slots = stateBulk.slots.map (fun sl =>
      if bulkSlotTarget 4 0 5000 sl then { sl with status := .cancelled } else sl)
  ∧ s'.bookings = stateBulk.bookings.map (fun b =>
      if bulkBookingTarget stateBulk 4 0 5000 b then
        { b with status := .cancelled, cancelledAt := some 777,
                 comment := if "closed" == "" then b.comment else "closed" }
      else b)
  ∧ s'.clients = stateBulk.clients
  ∧ s'.users = stateBulk.users
  ∧ r.cancelledSlots = (stateBulk.slots.filter (fun sl => bulkSlotTarget 4 0 5000 sl)).length
  ∧ r.cancelledBookings =
      (stateBulk.bookings.filter (fun b => bulkBookingTarget stateBulk 4 0 5000 b)).length
  ∧ r.affectedBookings = bulkAffectedRows stateBulk 4 0 5000
  ∧ (∀ row ∈ r.affectedBookings, ∃ b ∈ stateBulk.bookings, ∃ sl c u,
      findSlot stateBulk b.slotId = some sl ∧ findClient stateBulk b.clientId = some c ∧
      findUser stateBulk c.userId = some u ∧ bulkSlotTarget 4 0 5000 sl = true ∧
      (b.status == BookingStatus.cancelled) = false ∧
      row = { bookingId := b.id, slotId := sl.id, clientId := b.clientId,
              clientUserId := c.userId, clientTelegramId := u.telegramId,
              providerId := sl.providerId, serviceId := sl.serviceId,
              startsAt := sl.startsAt, endsAt := sl.endsAt })
  ∧ (∀ b ∈ stateBulk.bookings, bulkBookingTarget stateBulk 4 0 5000 b = true →
      ∃ row ∈ r.affectedBookings, row.bookingId = b.id) :=
  ⟨by decide, by decide,
    C5_bulkCancel_frame stateBulk 4 0 5000 "closed" 777 (by decide) (by decide) (by decide)⟩

/-- Every entry of a successful `expandAllSchedules` result comes from a
schedule of the input list. -/
theorem expandAllSchedules_mem (fuel : Nat) (fromUTC toUTC : Int) :
    ∀ (l : List Schedule) (occB : List (Nat × List TimeRange)),
      expandAllSchedules fuel fromUTC toUTC l = .ok (some occB) →
      ∀ p ∈ occB, ∃ sched ∈ l,
        sched.id = p.1 ∧
        expandScheduleModelInWindowUTC fuel sched fromUTC toUTC = .ok (some p.2)
  | [], occB, h, p, hp => by
    simp only [expandAllSchedules] at h
    obtain rfl : ([] : List (Nat × List TimeRange)) = occB := by
      simpa using h
    exact absurd hp (List.not_mem_nil p)
  | sched :: rest, occB, h, p, hp => by
    simp only [expandAllSchedules] at h
    cases hx : expandScheduleModelInWindowUTC fuel sched fromUTC toUTC with
    | error e => simp only [hx] at h; exact Except.noConfusion h
    | ok o =>
      simp only [hx] at h
      cases o with
      | none => simp at h
      | some occs =>
        cases hr : expandAllSchedules fuel fromUTC toUTC rest with
        | error e => simp only [hr] at h; exact Except.noConfusion h
        | ok o2 =>
          simp only [hr] at h
          cases o2 with
          | none => simp at h
          | some pairs =>
            have hocc : (if occs.isEmpty then pairs else (sched.id, occs) :: pairs) = occB := by
              simpa using h
            by_cases he : occs.isEmpty
            · rw [if_pos he] at hocc
              subst hocc
              obtain ⟨sc, hsc, h1, h2⟩ :=
                expandAllSchedules_mem fuel fromUTC toUTC rest pairs hr p hp
              exact ⟨sc, List.mem_cons_of_mem sched hsc, h1, h2⟩
            · rw [if_neg he] at hocc
              subst hocc
              rcases List.mem_cons.mp hp with hp' | hp'
              · subst hp'
                exact ⟨sched, List.mem_cons_self sched rest, rfl, hx⟩
              · obtain ⟨sc, hsc, h1, h2⟩ :=
                  expandAllSchedules_mem fuel fromUTC toUTC rest pairs hr p hp'
                exact ⟨sc, List.mem_cons_of_mem sched hsc, h1, h2⟩

/-- `sortSlotsByStart` permutes its input, so membership is preserved. -/
theorem mem_sortSlotsByStart : ∀ (l : List TimeSlot) (x : TimeSlot),
    x ∈ l → x ∈ sortSlotsByStart l
  | [], x, hx => absurd hx (List.not_mem_nil x)
  | y :: ys, x, hx => by
    simp only [sortSlotsByStart]
    have hins : ∀ (z : TimeSlot) (m : List TimeSlot) (w : TimeSlot),
        w = z ∨ w ∈ m → w ∈ insertSlotSorted z m := by
      intro z m
      induction m with
      | nil => intro w hw; simp only [insertSlotSorted]; rcases hw with h | h
               · simp [h]
               · exact absurd h (List.not_mem_nil w)
      | cons a as ih =>
        intro w hw
        simp only [insertSlotSorted]
        split
        · rcases hw with h | h
          · simp [h]
          · simp [List.mem_cons.mp h]
        · rcases hw with h | h
          · exact List.mem_cons_of_mem a (ih w (Or.inl h))
          · rcases List.mem_cons.mp h with h' | h'
            · simp [h']
            · exact List.mem_cons_of_mem a (ih w (Or.inr h'))
    rcases List.mem_cons.mp hx with h | h
    · exact hins y (sortSlotsByStart ys) x (Or.inl h)
    · exact hins y (sortSlotsByStart ys) x (Or.inr (mem_sortSlotsByStart ys x h))

/-- `assignIds` only rewrites primary keys: every input row appears with the
same payload fields. -/
theorem assignIds_fields : ∀ (l : List TimeSlot) (n : Nat), ∀ y ∈ l,
    ∃ x ∈ assignIds n l,
      x.providerId = y.providerId ∧ x.serviceId = y.serviceId ∧
      x.startsAt = y.startsAt ∧ x.endsAt = y.endsAt ∧ x.status = y.status
  | [], _, y, hy => absurd hy (List.not_mem_nil y)
  | z :: zs, n, y, hy => by
    rcases List.mem_cons.mp hy with h | h
    · subst h
      exact ⟨{ y with id := n }, List.mem_cons_self _ _, rfl, rfl, rfl, rfl, rfl⟩
    · obtain ⟨x, hx, hf⟩ := assignIds_fields zs (n + 1) y h
      exact ⟨x, List.mem_cons_of_mem _ hx, hf⟩



theorem materializeToCreate_eq_nil (keys : List SlotKey) (pid : Nat) (sid : Option Nat)
    (occB : List (Nat × List TimeRange))
    (h : ∀ p ∈ occB, ∀ occ ∈ p.2,
      keys.contains (SlotKey.mk sid occ.Start occ.End) = true) :
    materializeToCreate keys pid sid occB = [] := by
  unfold materializeToCreate
  rw [List.flatMap_eq_nil_iff]
  intro p hp
  rw [List.filterMap_eq_nil_iff]
  intro occ hocc
  rw [if_pos (h p hp occ hocc)]

theorem mem_materializeToCreate_of (keys : List SlotKey) (pid : Nat) (sid : Option Nat)
    (occB : List (Nat × List TimeRange)) (p : Nat × List TimeRange) (hp : p ∈ occB)
    (occ : TimeRange) (hocc : occ ∈ p.2)
    (hmiss : keys.contains (SlotKey.mk sid occ.Start occ.End) = false) :
    ({ id := 0, scheduleId := some p.1, providerId := pid, serviceId := sid,
       startsAt := occ.Start, endsAt := occ.End, status := .planned } : TimeSlot) ∈
      materializeToCreate keys pid sid occB := by
  unfold materializeToCreate
  exact List.mem_flatMap.mpr ⟨p, hp, List.mem_filterMap.mpr
    ⟨occ, hocc, by rw [if_neg (by intro hcc; rw [hcc] at hmiss; exact Bool.noConfusion hmiss)]⟩⟩

/-- C4 (amended): serialized repetition of `materializeSlotsFromSchedules` is
idempotent provided every candidate interval lies fully inside the window
`[fromUTC, toUTC]`: the second run stages no new rows and returns the state of
the first run unchanged, so the slot row count is unchanged. (Without that
proviso a candidate that merely overlaps the window is re-staged on every run,
because the existing-slot lookup only reads slots lying fully inside the
window — see the counterexample.) -/
theorem C4_materialize_idempotent_amended (fuel : Nat) (s : DBState) (pid : Nat)
    (sid : Option Nat) (fromUTC toUTC : Int) (schedules : List Schedule) (s1 : DBState)
    (hrun : materializeSlotsFromSchedules fuel s pid sid fromUTC toUTC schedules =
      .ok (some s1))
    (hinside : ∀ sched ∈ schedules, ∀ occs,
      expandScheduleModelInWindowUTC fuel sched fromUTC toUTC = .ok (some occs) →
      ∀ occ ∈ occs, fromUTC ≤ occ.Start ∧ occ.End ≤ toUTC) :
    materializeSlotsFromSchedules fuel s1 pid sid fromUTC toUTC schedules = .ok (some s1)
  ∧ (∀ s2, materializeSlotsFromSchedules fuel s1 pid sid fromUTC toUTC schedules =
      .ok (some s2) → s2.slots.length = s1.slots.length) := by
  have hfix : materializeSlotsFromSchedules fuel s1 pid sid fromUTC toUTC schedules =
      .ok (some s1) := by
    unfold materializeSlotsFromSchedules at hrun ⊢
    by_cases hse : schedules.isEmpty = true
    · rw [if_pos hse]
    · rw [if_neg hse] at hrun ⊢
      by_cases hw : (!decide (fromUTC < toUTC)) = true
      · rw [if_pos hw]
      · rw [if_neg hw] at hrun ⊢
        cases hex : expandAllSchedules fuel fromUTC toUTC schedules with
        | error e => rw [hex] at hrun; dsimp only at hrun; exact Except.noConfusion hrun
        | ok o =>
          rw [hex] at hrun
          cases o with
          | none => dsimp only at hrun; exact Option.noConfusion (Except.ok.inj hrun)
          | some occB =>
            dsimp only at hrun ⊢
            by_cases hoB : occB.isEmpty = true
            · rw [if_pos hoB] at hrun ⊢
            · rw [if_neg hoB] at hrun ⊢
              by_cases htc1 : (materializeToCreate
                  ((materializeExistingQuery s pid sid fromUTC toUTC).map
                    (fun sl => SlotKey.mk sl.serviceId sl.startsAt sl.endsAt))
                  pid sid occB).isEmpty = true
              · rw [if_pos htc1] at hrun
                have hss : s = s1 := by simpa using hrun
                subst hss
                rw [if_pos htc1]
              · rw [if_neg htc1] at hrun
                have hs1 : s1 = { s with
                    slots := s.slots ++ assignIds s.nextId (sortSlotsByStart
                      (materializeToCreate
                        ((materializeExistingQuery s pid sid fromUTC toUTC).map
                          (fun sl => SlotKey.mk sl.serviceId sl.startsAt sl.endsAt))
                        pid sid occB)),
                    nextId := s.nextId + (assignIds s.nextId (sortSlotsByStart
                      (materializeToCreate
                        ((materializeExistingQuery s pid sid fromUTC toUTC).map
                          (fun sl => SlotKey.mk sl.serviceId sl.startsAt sl.endsAt))
                        pid sid occB))).length } := by
                  have := Except.ok.inj hrun
                  exact (Option.some_inj.mp this).symm
                have hkey2 : ∀ p ∈ occB, ∀ occ ∈ p.2,
                    ((materializeExistingQuery s1 pid sid fromUTC toUTC).map
                      (fun sl => SlotKey.mk sl.serviceId sl.startsAt sl.endsAt)).contains
                      (SlotKey.mk sid occ.Start occ.End) = true := by
                  intro p hp occ hocc
                  obtain ⟨sched, hsched, hid, hexp⟩ :=
                    expandAllSchedules_mem fuel fromUTC toUTC schedules occB hex p hp
                  obtain ⟨hlo, hhi⟩ := hinside sched hsched p.2 hexp occ hocc
                  -- find a slot of s1 carrying this key and passing the query
                  have hfound : ∃ x ∈ s1.slots,
                      x.providerId = pid ∧ x.serviceId = sid ∧
                      x.startsAt = occ.Start ∧ x.endsAt = occ.End := by
                    by_cases hk1 : ((materializeExistingQuery s pid sid fromUTC toUTC).map
                        (fun sl => SlotKey.mk sl.serviceId sl.startsAt sl.endsAt)).contains
                        (SlotKey.mk sid occ.Start occ.End) = true
                    · -- already present before the first run
                      have hmem : SlotKey.mk sid occ.Start occ.End ∈
                          (materializeExistingQuery s pid sid fromUTC toUTC).map
                            (fun sl => SlotKey.mk sl.serviceId sl.startsAt sl.endsAt) := by
                        simpa using hk1
                      obtain ⟨sl, hsl, hkeq⟩ := List.mem_map.mp hmem
                      have hslq := List.mem_filter.mp hsl
                      have hfields : sl.serviceId = sid ∧ sl.startsAt = occ.Start ∧
                          sl.endsAt = occ.End := by
                        injection hkeq with h1 h2 h3
                        exact ⟨h1, h2, h3⟩
                      have hprov : sl.providerId = pid := by
                        have := hslq.2
                        simp only [Bool.and_eq_true] at this
                        simpa using this.1.1.1
                      exact ⟨sl, by rw [hs1]; exact List.mem_append_left _ hslq.1,
                        hprov, hfields.1, hfields.2.1, hfields.2.2⟩
                    · -- staged and inserted by the first run
                      have hy := mem_materializeToCreate_of _ pid sid occB p hp occ hocc
                        (Bool.eq_false_iff.mpr hk1)
                      have hy2 := mem_sortSlotsByStart _ _ hy
                      obtain ⟨x, hx, hxp, hxs, hxsa, hxea, hxst⟩ :=
                        assignIds_fields _ s.nextId _ hy2
                      refine ⟨x, by rw [hs1]; exact List.mem_append_right _ hx,
                        ?_, ?_, ?_, ?_⟩ <;> simp [hxp, hxs, hxsa, hxea]
                  obtain ⟨x, hxmem, hxp, hxs, hxsa, hxea⟩ := hfound
                  have hxq : x ∈ materializeExistingQuery s1 pid sid fromUTC toUTC := by
                    apply List.mem_filter.mpr
                    refine ⟨hxmem, ?_⟩
                    cases sid with
                    | none => simp [hxp, hxsa, hxea, hxs, hlo, hhi]
                    | some v => simp [hxp, hxsa, hxea, hxs, hlo, hhi]
                  have : SlotKey.mk sid occ.Start occ.End ∈
                      (materializeExistingQuery s1 pid sid fromUTC toUTC).map
                        (fun sl => SlotKey.mk sl.serviceId sl.startsAt sl.endsAt) := by
                    apply List.mem_map.mpr
                    exact ⟨x, hxq, by rw [hxs, hxsa, hxea]⟩
                  exact List.elem_eq_true_of_mem this
                have htc2 : materializeToCreate
                    ((materializeExistingQuery s1 pid sid fromUTC toUTC).map
                      (fun sl => SlotKey.mk sl.serviceId sl.startsAt sl.endsAt))
                    pid sid occB = [] :=
                  materializeToCreate_eq_nil _ pid sid occB hkey2
                rw [if_pos (by rw [htc2]; rfl)]
  refine ⟨hfix, ?_⟩
  intro s2 h2
  rw [hfix] at h2
  have : s1 = s2 := by simpa using h2
  rw [this]

/-- Witness for `C4_materialize_idempotent_amended`: materializing
`schedInside` over `[0, 86400)` twice from an empty database is idempotent. -/
theorem C4_materialize_idempotent_amended_witness :
    materializeSlotsFromSchedules 10 stateEmpty 4 none 0 86400 [schedInside] =
      .ok (some stateMatW)
  ∧ (materializeSlotsFromSchedules 10 stateMatW 4 none 0 86400 [schedInside] =
      .ok (some stateMatW)
    ∧ (∀ s2, materializeSlotsFromSchedules 10 stateMatW 4 none 0 86400 [schedInside] =
        .ok (some s2) → s2.slots.length = stateMatW.slots.length)) :=
  ⟨rfl,
    C4_materialize_idempotent_amended 10 stateEmpty 4 none 0 86400 [schedInside]
      stateMatW rfl
      (by
        intro sched hsched occs heq
        have hs : sched = schedInside := by simpa using hsched
        subst hs
        have hocs : Except.ok (some occs) =
            (Except.ok (some [(⟨36000, 39600⟩ : TimeRange)]) :
              Except String (Option (List TimeRange))) := by
          rw [← heq]
          rfl
        have hocs2 : occs = [(⟨36000, 39600⟩ : TimeRange)] := by
          simpa using hocs
        subst hocs2
        intro occ hocc
        have : occ = (⟨36000, 39600⟩ : TimeRange) := by simpa using hocc
        subst this
        exact ⟨by decide, by decide⟩)⟩

/-- The cursor strictly advances by at least `secondsPerDay * Interval`. -/
theorem nextOccurrence_ge (rule : RecurringRule) (cur : Int) (hiv : 1 ≤ rule.Interval) :
    cur + secondsPerDay * rule.Interval ≤ nextOccurrence rule cur ∧
      cur < nextOccurrence rule cur := by
  have hpos : 0 < secondsPerDay * rule.Interval := by
    apply mul_pos _ (by omega)
    unfold secondsPerDay
    omega
  unfold nextOccurrence
  cases rule.Freq <;> dsimp only <;> exact ⟨by omega, by omega⟩

/-- Soundness of the daily cursor loop (also the weekly fallback without a
weekday set): every range has length `Duration` and overlaps the window, the
starts are strictly ascending, and consecutive ranges are disjoint when the
duration does not exceed the step. -/
theorem expandDailyLoop_sound (rule : RecurringRule) (window : TimeRange)
    (hnb : (rule.Freq == RecurrenceFrequency.FreqWeekly && !rule.Weekdays.isEmpty) = false)
    (hdur : 0 < rule.Duration) (hiv : 1 ≤ rule.Interval) :
    ∀ (fuel : Nat) (cur : Int) (cnt : Nat) (acc res : List TimeRange),
      expandDailyLoop rule window fuel cur cnt acc = some res →
      (∀ r ∈ acc, r.End = r.Start + rule.Duration ∧ rangesOverlap r window false = true) →
      List.Pairwise (fun a b => a.Start < b.Start) acc →
      (∀ r ∈ acc, r.Start < cur) →
      (rule.Duration ≤ secondsPerDay * rule.Interval →
        List.Pairwise (fun a b => a.End ≤ b.Start) acc) →
      (rule.Duration ≤ secondsPerDay * rule.Interval → ∀ r ∈ acc, r.End ≤ cur) →
      (∀ r ∈ res, r.End = r.Start + rule.Duration ∧ rangesOverlap r window false = true)
      ∧ List.Pairwise (fun a b => a.Start < b.Start) res
      ∧ (rule.Duration ≤ secondsPerDay * rule.Interval →
          List.Pairwise (fun a b => a.End ≤ b.Start) res)
  | 0, cur, cnt, acc, res, hrun, _, _, _, _, _ => by
    simp only [expandDailyLoop] at hrun
    exact Option.noConfusion hrun
  | fuel + 1, cur, cnt, acc, res, hrun, hP, hasc, hlt, hdisj, hle => by
    obtain ⟨hnext1, hnext2⟩ := nextOccurrence_ge rule cur hiv
    simp only [expandDailyLoop] at hrun
    by_cases h1 : pastUntil rule.Until cur = true
    · rw [if_pos h1] at hrun
      obtain rfl := Option.some_inj.mp hrun
      exact ⟨hP, hasc, hdisj⟩
    · rw [if_neg h1] at hrun
      by_cases h2 : countReached rule.Count cnt = true
      · rw [if_pos h2] at hrun
        obtain rfl := Option.some_inj.mp hrun
        exact ⟨hP, hasc, hdisj⟩
      · rw [if_neg h2] at hrun
        have hwb : (rule.Freq == RecurrenceFrequency.FreqWeekly && !rule.Weekdays.isEmpty
            && !containsWeekday rule.Weekdays (goWeekday cur)) = false := by
          rw [hnb, Bool.false_and]
        rw [hwb] at hrun
        simp only [Bool.false_eq_true, if_false] at hrun
        by_cases h3 : isException rule cur = true
        · rw [if_pos h3] at hrun
          exact expandDailyLoop_sound rule window hnb hdur hiv fuel _ cnt acc res hrun hP hasc
            (fun r hr => lt_trans (hlt r hr) hnext2)
            hdisj
            (fun hd r hr => le_trans (hle hd r hr) (le_of_lt hnext2))
        · rw [if_neg h3] at hrun
          by_cases h4 : rangesOverlap ⟨cur, cur + rule.Duration⟩ window false = true
          · rw [if_pos h4] at hrun
            refine expandDailyLoop_sound rule window hnb hdur hiv fuel _ (cnt + 1)
              (acc ++ [⟨cur, cur + rule.Duration⟩]) res hrun ?_ ?_ ?_ ?_ ?_
            · intro r hr
              rcases List.mem_append.mp hr with h | h
              · exact hP r h
              · obtain rfl := List.mem_singleton.mp h
                exact ⟨rfl, h4⟩
            · rw [List.pairwise_append]
              refine ⟨hasc, List.pairwise_singleton _ _, ?_⟩
              intro a ha b hb
              obtain rfl := List.mem_singleton.mp hb
              exact hlt a ha
            · intro r hr
              rcases List.mem_append.mp hr with h | h
              · exact lt_trans (hlt r h) hnext2
              · obtain rfl := List.mem_singleton.mp h
                exact hnext2
            · intro hd
              rw [List.pairwise_append]
              refine ⟨hdisj hd, List.pairwise_singleton _ _, ?_⟩
              intro a ha b hb
              obtain rfl := List.mem_singleton.mp hb
              exact hle hd a ha
            · intro hd r hr
              rcases List.mem_append.mp hr with h | h
              · exact le_trans (hle hd r h) (le_of_lt hnext2)
              · obtain rfl := List.mem_singleton.mp h
                show cur + rule.Duration ≤ nextOccurrence rule cur
                omega
          · rw [if_neg h4] at hrun
            by_cases h5 : (decide (window.End < cur + rule.Duration)
                && decide (window.End < cur)) = true
            · rw [if_pos h5] at hrun
              obtain rfl := Option.some_inj.mp hrun
              exact ⟨hP, hasc, hdisj⟩
            · rw [if_neg h5] at hrun
              exact expandDailyLoop_sound rule window hnb hdur hiv fuel _ cnt acc res hrun hP
                hasc
                (fun r hr => lt_trans (hlt r hr) hnext2)
                hdisj
                (fun hd r hr => le_trans (hle hd r hr) (le_of_lt hnext2))

/-- Soundness of the inner weekly loop: appended ranges have length
`Duration` and overlap the window. -/
theorem expandWeeklyDays_sound (rule : RecurringRule) (window : TimeRange) (weekStart : Int) :
    ∀ (wds : List Int) (cnt : Nat) (acc : List TimeRange),
      (∀ r ∈ acc, r.End = r.Start + rule.Duration ∧ rangesOverlap r window false = true) →
      ∀ r ∈ (expandWeeklyDays rule window weekStart wds cnt acc).2.2,
        r.End = r.Start + rule.Duration ∧ rangesOverlap r window false = true
  | [], cnt, acc, hP => by
    simp only [expandWeeklyDays]
    exact hP
  | wd :: rest, cnt, acc, hP => by
    simp only [expandWeeklyDays]
    by_cases h1 : countReached rule.Count cnt = true
    · rw [if_pos h1]
      exact hP
    · rw [if_neg h1]
      by_cases h2 : decide (dateOnly (weekStart + secondsPerDay * offsetFromMonday wd)
          + timeOfDay rule.StartTime < rule.StartTime) = true
      · rw [if_pos h2]
        exact expandWeeklyDays_sound rule window weekStart rest cnt acc hP
      · rw [if_neg h2]
        by_cases h3 : pastUntil rule.Until (dateOnly (weekStart
            + secondsPerDay * offsetFromMonday wd) + timeOfDay rule.StartTime) = true
        · rw [if_pos h3]
          exact hP
        · rw [if_neg h3]
          by_cases h4 : isException rule (dateOnly (weekStart
              + secondsPerDay * offsetFromMonday wd) + timeOfDay rule.StartTime) = true
          · rw [if_pos h4]
            exact expandWeeklyDays_sound rule window weekStart rest cnt acc hP
          · rw [if_neg h4]
            by_cases h5 : rangesOverlap ⟨dateOnly (weekStart
                + secondsPerDay * offsetFromMonday wd) + timeOfDay rule.StartTime,
                dateOnly (weekStart + secondsPerDay * offsetFromMonday wd)
                + timeOfDay rule.StartTime + rule.Duration⟩ window false = true
            · rw [if_pos h5]
              apply expandWeeklyDays_sound rule window weekStart rest (cnt + 1)
              intro r hr
              rcases List.mem_append.mp hr with h | h
              · exact hP r h
              · obtain rfl := List.mem_singleton.mp h
                exact ⟨rfl, h5⟩
            · rw [if_neg h5]
              by_cases h6 : (decide (window.End < dateOnly (weekStart
                  + secondsPerDay * offsetFromMonday wd) + timeOfDay rule.StartTime)
                  && decide (window.End < dateOnly (weekStart
                  + secondsPerDay * offsetFromMonday wd) + timeOfDay rule.StartTime
                  + rule.Duration)) = true
              · rw [if_pos h6]
                exact hP
              · rw [if_neg h6]
                exact expandWeeklyDays_sound rule window weekStart rest cnt acc hP

/-- Soundness of the outer weekly loop: every range of a successful run has
length `Duration` and overlaps the window. -/
theorem expandWeeklyWeeks_sound (rule : RecurringRule) (window : TimeRange)
    (weekdays : List Int) :
    ∀ (fuel : Nat) (weekCursor : Int) (cnt : Nat) (acc res : List TimeRange),
      expandWeeklyWeeks rule window weekdays fuel weekCursor cnt acc = some res →
      (∀ r ∈ acc, r.End = r.Start + rule.Duration ∧ rangesOverlap r window false = true) →
      ∀ r ∈ res, r.End = r.Start + rule.Duration ∧ rangesOverlap r window false = true
  | 0, weekCursor, cnt, acc, res, hrun, _ => by
    simp only [expandWeeklyWeeks] at hrun
    exact Option.noConfusion hrun
  | fuel + 1, weekCursor, cnt, acc, res, hrun, hP => by
    simp only [expandWeeklyWeeks] at hrun
    by_cases h1 : countReached rule.Count cnt = true
    · rw [if_pos h1] at hrun
      obtain rfl := Option.some_inj.mp hrun
      exact hP
    · rw [if_neg h1] at hrun
      by_cases h2 : decide (window.End < weekStartMonday weekCursor) = true
      · rw [if_pos h2] at hrun
        obtain rfl := Option.some_inj.mp hrun
        exact hP
      · rw [if_neg h2] at hrun
        have hinner := expandWeeklyDays_sound rule window (weekStartMonday weekCursor)
          weekdays cnt acc hP
        cases hinn : expandWeeklyDays rule window (weekStartMonday weekCursor)
            weekdays cnt acc with
        | mk ret rest =>
          rw [hinn] at hrun
          rw [hinn] at hinner
          cases ret with
          | true =>
            simp only at hrun
            obtain rfl := Option.some_inj.mp hrun
            exact hinner
          | false =>
            simp only at hrun
            by_cases h3 : pastUntil rule.Until
                (weekCursor + 7 * (secondsPerDay * rule.Interval)) = true
            · rw [if_pos h3] at hrun
              obtain rfl := Option.some_inj.mp hrun
              exact hinner
            · rw [if_neg h3] at hrun
              exact expandWeeklyWeeks_sound rule window weekdays fuel _ rest.1 rest.2 res
                hrun hinner



/-- Soundness of the branch dispatch of `ExpandRecurringRule` for an
already-normalized rule. -/
theorem expandBranches_sound (rule : RecurringRule) (window : TimeRange)
    (fuel : Nat) (res : List TimeRange)
    (hdur : 0 < rule.Duration) (hiv : 1 ≤ rule.Interval)
    (hrun : (if rule.Freq == RecurrenceFrequency.FreqWeekly && !rule.Weekdays.isEmpty then
        expandWeeklyWeeks rule window (uniqueSortedWeekdays rule.Weekdays)
          fuel rule.StartTime 0 []
      else expandDailyLoop rule window fuel rule.StartTime 0 []) = some res) :
    (∀ r ∈ res, r.End = r.Start + rule.Duration ∧ rangesOverlap r window false = true)
  ∧ ((rule.Freq == RecurrenceFrequency.FreqWeekly && !rule.Weekdays.isEmpty) = false →
      List.Pairwise (fun a b => a.Start < b.Start) res
    ∧ (rule.Duration ≤ secondsPerDay * rule.Interval →
        List.Pairwise (fun a b => a.End ≤ b.Start) res)) := by
  by_cases hwk : (rule.Freq == RecurrenceFrequency.FreqWeekly && !rule.Weekdays.isEmpty) = true
  · rw [if_pos hwk] at hrun
    refine ⟨expandWeeklyWeeks_sound rule window (uniqueSortedWeekdays rule.Weekdays)
      fuel rule.StartTime 0 [] res hrun (by intro r hr; exact absurd hr (List.not_mem_nil r)),
      ?_⟩
    intro hfalse
    rw [hwk] at hfalse
    exact absurd hfalse (by simp)
  · rw [if_neg hwk] at hrun
    have hnb := Bool.eq_false_iff.mpr hwk
    obtain ⟨ha, hb, hc⟩ := expandDailyLoop_sound rule window hnb hdur hiv
      fuel rule.StartTime 0 [] res hrun
      (by intro r hr; exact absurd hr (List.not_mem_nil r))
      List.Pairwise.nil
      (by intro r hr; exact absurd hr (List.not_mem_nil r))
      (fun _ => List.Pairwise.nil)
      (by intro _ r hr; exact absurd hr (List.not_mem_nil r))
    exact ⟨ha, fun _ => ⟨hb, hc⟩⟩

/-- C8 (amended): every range returned by `ExpandRecurringRule` has length
exactly `rule.Duration` and overlaps the window under the half-open
comparison. For the daily-style branches (daily rules, and weekly rules
without a weekday set) the sequence is additionally ordered by strictly
ascending start, and is pairwise non-overlapping whenever the duration does
not exceed the recurrence step — consecutive ranges can overlap when the
duration exceeds the step, and the weekly branch with an explicit weekday set
emits a week's Sunday occurrence first, so neither ordering nor disjointness
is guaranteed there (see the counterexample). -/
theorem C8_output_shape_amended (rule0 : RecurringRule) (window : TimeRange)
    (fuel : Nat) (res : List TimeRange)
    (hdur : 0 < rule0.Duration)
    (hrun : ExpandRecurringRule fuel rule0 window = .ok (some res)) :
    (∀ r ∈ res, r.End = r.Start + rule0.Duration ∧ rangesOverlap r window false = true)
  ∧ ((rule0.Freq == RecurrenceFrequency.FreqWeekly && !rule0.Weekdays.isEmpty) = false →
      List.Pairwise (fun a b => a.Start < b.Start) res
    ∧ (rule0.Duration ≤ secondsPerDay * (if rule0.Interval ≤ 0 then 1 else rule0.Interval) →
        List.Pairwise (fun a b => a.End ≤ b.Start) res)) := by
  unfold ExpandRecurringRule at hrun
  rw [if_neg (by simp; omega)] at hrun
  dsimp only at hrun
  by_cases hI : rule0.Interval ≤ 0
  · rw [if_pos hI] at hrun
    by_cases hz : ({ rule0 with Interval := 1 } : RecurringRule).StartTime = goZeroTime
    · rw [if_pos hz] at hrun
      exact Except.noConfusion hrun
    · rw [if_neg hz] at hrun
      by_cases hw : (!decide (window.Start < window.End)) = true
      · rw [if_pos hw] at hrun
        have : [] = res := by simpa using hrun
        subst this
        exact ⟨by simp, fun _ => ⟨List.Pairwise.nil, fun _ => List.Pairwise.nil⟩⟩
      · rw [if_neg hw] at hrun
        have hok : (if ({ rule0 with Interval := 1 } : RecurringRule).Freq ==
              RecurrenceFrequency.FreqWeekly
              && !({ rule0 with Interval := 1 } : RecurringRule).Weekdays.isEmpty then
            expandWeeklyWeeks { rule0 with Interval := 1 } window
              (uniqueSortedWeekdays ({ rule0 with Interval := 1 } : RecurringRule).Weekdays)
              fuel ({ rule0 with Interval := 1 } : RecurringRule).StartTime 0 []
          else expandDailyLoop { rule0 with Interval := 1 } window fuel
            ({ rule0 with Interval := 1 } : RecurringRule).StartTime 0 []) = some res := by
          by_cases hwk : (({ rule0 with Interval := 1 } : RecurringRule).Freq ==
              RecurrenceFrequency.FreqWeekly
              && !({ rule0 with Interval := 1 } : RecurringRule).Weekdays.isEmpty) = true
          · rw [if_pos hwk]
            rw [if_pos hwk] at hrun
            simpa using hrun
          · rw [if_neg hwk]
            rw [if_neg hwk] at hrun
            simpa using hrun
        obtain ⟨ha, hb⟩ := expandBranches_sound { rule0 with Interval := 1 } window fuel res
          hdur (by simp) hok
        rw [if_pos hI]
        exact ⟨ha, hb⟩
  · rw [if_neg hI] at hrun
    by_cases hz : rule0.StartTime = goZeroTime
    · rw [if_pos hz] at hrun
      exact Except.noConfusion hrun
    · rw [if_neg hz] at hrun
      by_cases hw : (!decide (window.Start < window.End)) = true
      · rw [if_pos hw] at hrun
        have : [] = res := by simpa using hrun
        subst this
        exact ⟨by simp, fun _ => ⟨List.Pairwise.nil, fun _ => List.Pairwise.nil⟩⟩
      · rw [if_neg hw] at hrun
        have hok : (if rule0.Freq == RecurrenceFrequency.FreqWeekly
              && !rule0.Weekdays.isEmpty then
            expandWeeklyWeeks rule0 window (uniqueSortedWeekdays rule0.Weekdays)
              fuel rule0.StartTime 0 []
          else expandDailyLoop rule0 window fuel rule0.StartTime 0 []) = some res := by
          by_cases hwk : (rule0.Freq == RecurrenceFrequency.FreqWeekly
              && !rule0.Weekdays.isEmpty) = true
          · rw [if_pos hwk]
            rw [if_pos hwk] at hrun
            simpa using hrun
          · rw [if_neg hwk]
            rw [if_neg hwk] at hrun
            simpa using hrun
        obtain ⟨ha, hb⟩ := expandBranches_sound rule0 window fuel res hdur (by omega) hok
        rw [if_neg hI]
        exact ⟨ha, hb⟩

/-- Witness for `C8_output_shape_amended` on the daily count-3 rule. -/
theorem C8_output_shape_amended_witness :
    (0 : Int) < ruleDailyCount.Duration
  ∧ ((∀ r ∈ [(⟨1735725600, 1735729200⟩ : TimeRange), ⟨1735812000, 1735815600⟩,
        ⟨1735898400, 1735902000⟩],
        r.End = r.Start + ruleDailyCount.Duration ∧ rangesOverlap r windowJan false = true)
    ∧ ((ruleDailyCount.Freq == RecurrenceFrequency.FreqWeekly
          && !ruleDailyCount.Weekdays.isEmpty) = false →
        List.Pairwise (fun a b => a.Start < b.Start)
          [(⟨1735725600, 1735729200⟩ : TimeRange), ⟨1735812000, 1735815600⟩,
           ⟨1735898400, 1735902000⟩]
      ∧ (ruleDailyCount.Duration ≤ secondsPerDay *
            (if ruleDailyCount.Interval ≤ 0 then 1 else ruleDailyCount.Interval) →
          List.Pairwise (fun a b => a.End ≤ b.Start)
            [(⟨1735725600, 1735729200⟩ : TimeRange), ⟨1735812000, 1735815600⟩,
             ⟨1735898400, 1735902000⟩]))) :=
  ⟨by decide,
    C8_output_shape_amended ruleDailyCount windowJan 10
      [⟨1735725600, 1735729200⟩, ⟨1735812000, 1735815600⟩, ⟨1735898400, 1735902000⟩]
      (by decide) rfl⟩

end AppointmentCore
namespace AppointmentCore

/-- Flooring to midnight moves an instant down by less than one day. -/
theorem dateOnly_bounds (t : Int) : dateOnly t ≤ t ∧ t < dateOnly t + secondsPerDay := by
  unfold dateOnly secondsPerDay
  have hd : Int.ediv t 86400 = t / 86400 := rfl
  rw [hd]
  omega

/-- The Monday of an instant's ISO week lies at most seven days below it. -/
theorem weekStartMonday_bounds (t : Int) :
    t - 7 * secondsPerDay ≤ weekStartMonday t ∧ weekStartMonday t ≤ t := by
  unfold weekStartMonday
  obtain ⟨hd1, hd2⟩ := dateOnly_bounds t
  have hw1 : 0 ≤ goWeekday (dateOnly t) := by
    unfold goWeekday
    exact Int.emod_nonneg _ (by omega)
  have hw2 : goWeekday (dateOnly t) < 7 := by
    unfold goWeekday
    exact Int.emod_lt_of_pos _ (by omega)
  unfold secondsPerDay at *
  set w := goWeekday (dateOnly t) with hw
  by_cases h0 : w = 0 <;> simp only [h0, if_pos, if_neg] <;> omega

/-- An element's padded value is below the padded fold maximum. -/
theorem le_foldr_max (d : Int) : ∀ (l : List Int), ∀ e ∈ l,
    e + d ≤ l.foldr (fun x m => max (x + d) m) 0
  | [], e, he => absurd he (List.not_mem_nil e)
  | x :: xs, e, he => by
    rcases List.mem_cons.mp he with h | h
    · subst h
      exact le_max_left _ _
    · exact le_trans (le_foldr_max d xs e h) (le_max_right _ _)

/-- Totality of the daily cursor loop: with the weekly-weekday branch
disabled, enough fuel makes the loop exit on its own. -/
theorem expandDailyLoop_total (rule : RecurringRule) (window : TimeRange)
    (hnb : (rule.Freq == RecurrenceFrequency.FreqWeekly && !rule.Weekdays.isEmpty) = false)
    (hdur : 0 < rule.Duration) (hiv : 1 ≤ rule.Interval) (B : Int)
    (hB1 : window.End < B)
    (hB2 : ∀ l, rule.Exceptions = some l → ∀ e ∈ l, e + secondsPerDay ≤ B) :
    ∀ (fuel : Nat) (cur : Int) (cnt : Nat) (acc : List TimeRange),
      (B - cur).toNat < fuel →
      (expandDailyLoop rule window fuel cur cnt acc).isSome = true
  | 0, cur, cnt, acc, hfuel => absurd hfuel (by omega)
  | fuel + 1, cur, cnt, acc, hfuel => by
    obtain ⟨hnext1, hnext2⟩ := nextOccurrence_ge rule cur hiv
    have hrec : cur < B → (B - nextOccurrence rule cur).toNat < fuel := by
      intro hcb
      omega
    simp only [expandDailyLoop]
    by_cases h1 : pastUntil rule.Until cur = true
    · rw [if_pos h1]; rfl
    · rw [if_neg h1]
      by_cases h2 : countReached rule.Count cnt = true
      · rw [if_pos h2]; rfl
      · rw [if_neg h2]
        have hwb : (rule.Freq == RecurrenceFrequency.FreqWeekly && !rule.Weekdays.isEmpty
            && !containsWeekday rule.Weekdays (goWeekday cur)) = false := by
          rw [hnb, Bool.false_and]
        rw [hwb]
        simp only [Bool.false_eq_true, if_false]
        by_cases h3 : isException rule cur = true
        · rw [if_pos h3]
          have hcb : cur < B := by
            unfold isException at h3
            cases hexc : rule.Exceptions with
            | none => rw [hexc] at h3; exact absurd h3 (by simp)
            | some l =>
              rw [hexc] at h3
              have hmem : dateOnly cur ∈ l := by simpa using h3
              have := hB2 l hexc (dateOnly cur) hmem
              obtain ⟨hd1, hd2⟩ := dateOnly_bounds cur
              omega
          exact expandDailyLoop_total rule window hnb hdur hiv B hB1 hB2 fuel _ cnt acc
            (hrec hcb)
        · rw [if_neg h3]
          by_cases h4 : rangesOverlap ⟨cur, cur + rule.Duration⟩ window false = true
          · rw [if_pos h4]
            have hcb : cur < B := by
              simp only [rangesOverlap, Bool.false_eq_true, if_false, Bool.and_eq_true,
                decide_eq_true_eq] at h4
              omega
            exact expandDailyLoop_total rule window hnb hdur hiv B hB1 hB2 fuel _ (cnt + 1)
              (acc ++ [⟨cur, cur + rule.Duration⟩]) (hrec hcb)
          · rw [if_neg h4]
            by_cases h5 : (decide (window.End < cur + rule.Duration)
                && decide (window.End < cur)) = true
            · rw [if_pos h5]; rfl
            · rw [if_neg h5]
              have hcb : cur < B := by
                have h5' : ¬(window.End < cur + rule.Duration ∧ window.End < cur) := by
                  intro ⟨ha, hb⟩
                  exact h5 (by simp [ha, hb])
                omega
              exact expandDailyLoop_total rule window hnb hdur hiv B hB1 hB2 fuel _ cnt acc
                (hrec hcb)

/-- Totality of the outer weekly loop. -/
theorem expandWeeklyWeeks_total (rule : RecurringRule) (window : TimeRange)
    (weekdays : List Int) (hiv : 1 ≤ rule.Interval) (B : Int)
    (hB : window.End + 7 * secondsPerDay < B) :
    ∀ (fuel : Nat) (weekCursor : Int) (cnt : Nat) (acc : List TimeRange),
      (B - weekCursor).toNat < fuel →
      (expandWeeklyWeeks rule window weekdays fuel weekCursor cnt acc).isSome = true
  | 0, weekCursor, cnt, acc, hfuel => absurd hfuel (by omega)
  | fuel + 1, weekCursor, cnt, acc, hfuel => by
    simp only [expandWeeklyWeeks]
    by_cases h1 : countReached rule.Count cnt = true
    · rw [if_pos h1]; rfl
    · rw [if_neg h1]
      by_cases h2 : decide (window.End < weekStartMonday weekCursor) = true
      · rw [if_pos h2]; rfl
      · rw [if_neg h2]
        have hws := weekStartMonday_bounds weekCursor
        have hcb : weekCursor < B := by
          have h2' : ¬(window.End < weekStartMonday weekCursor) := by
            intro hcontra
            exact h2 (by simp [hcontra])
          unfold secondsPerDay at *
          omega
        have hstep : 0 < 7 * (secondsPerDay * rule.Interval) := by
          have : 0 < secondsPerDay * rule.Interval := by
            apply mul_pos _ (by omega)
            unfold secondsPerDay
            omega
          omega
        cases hinn : expandWeeklyDays rule window (weekStartMonday weekCursor)
            weekdays cnt acc with
        | mk ret rest =>
          cases ret with
          | true => rfl
          | false =>
            simp only
            by_cases h3 : pastUntil rule.Until
                (weekCursor + 7 * (secondsPerDay * rule.Interval)) = true
            · rw [if_pos h3]; rfl
            · rw [if_neg h3]
              exact expandWeeklyWeeks_total rule window weekdays hiv B hB fuel _
                rest.1 rest.2 (by omega)

end AppointmentCore
namespace AppointmentCore

/-- Totality of the branch dispatch of `ExpandRecurringRule` for an
already-normalized rule: some fuel makes the selected loop exit. -/
theorem expandBranches_total (rule : RecurringRule) (window : TimeRange)
    (hdur : 0 < rule.Duration) (hiv : 1 ≤ rule.Interval) :
    ∃ (fuel : Nat) (res : List TimeRange),
      (if rule.Freq == RecurrenceFrequency.FreqWeekly && !rule.Weekdays.isEmpty then
        expandWeeklyWeeks rule window (uniqueSortedWeekdays rule.Weekdays)
          fuel rule.StartTime 0 []
      else expandDailyLoop rule window fuel rule.StartTime 0 []) = some res := by
  by_cases hwk : (rule.Freq == RecurrenceFrequency.FreqWeekly && !rule.Weekdays.isEmpty) = true
  · have h := expandWeeklyWeeks_total rule window (uniqueSortedWeekdays rule.Weekdays) hiv
      (window.End + 7 * secondsPerDay + 1) (by omega)
      ((window.End + 7 * secondsPerDay + 1 - rule.StartTime).toNat + 1)
      rule.StartTime 0 [] (by omega)
    obtain ⟨res, hres⟩ := Option.isSome_iff_exists.mp h
    exact ⟨(window.End + 7 * secondsPerDay + 1 - rule.StartTime).toNat + 1, res,
      by rw [if_pos hwk]; exact hres⟩
  · have hnb := Bool.eq_false_iff.mpr hwk
    cases hexc : rule.Exceptions with
    | none =>
      have h := expandDailyLoop_total rule window hnb hdur hiv (window.End + 1)
        (by omega)
        (by intro l hl; rw [hexc] at hl; exact Option.noConfusion hl)
        ((window.End + 1 - rule.StartTime).toNat + 1) rule.StartTime 0 [] (by omega)
      obtain ⟨res, hres⟩ := Option.isSome_iff_exists.mp h
      exact ⟨(window.End + 1 - rule.StartTime).toNat + 1, res,
        by rw [if_neg hwk]; exact hres⟩
    | some l =>
      have hmx1 : window.End ≤ max window.End
          (l.foldr (fun x m => max (x + secondsPerDay) m) 0) := le_max_left _ _
      have hmx2 : l.foldr (fun x m => max (x + secondsPerDay) m) 0 ≤ max window.End
          (l.foldr (fun x m => max (x + secondsPerDay) m) 0) := le_max_right _ _
      have h := expandDailyLoop_total rule window hnb hdur hiv
        (max window.End (l.foldr (fun x m => max (x + secondsPerDay) m) 0) + 1)
        (by omega)
        (by
          intro l' hl' e he
          rw [hexc] at hl'
          injection hl' with hll
          subst hll
          have := le_foldr_max secondsPerDay l e he
          omega)
        ((max window.End (l.foldr (fun x m => max (x + secondsPerDay) m) 0) + 1
            - rule.StartTime).toNat + 1)
        rule.StartTime 0 [] (by omega)
      obtain ⟨res, hres⟩ := Option.isSome_iff_exists.mp h
      exact ⟨(max window.End (l.foldr (fun x m => max (x + secondsPerDay) m) 0) + 1
          - rule.StartTime).toNat + 1, res,
        by rw [if_neg hwk]; exact hres⟩

/-- C10: `ExpandRecurringRule` terminates on every rule with positive duration
and non-zero start time, for every window — even without `Until` or `Count`
bounds — because the daily cursor advances by at least a day, the weekly
cursor by at least a week, and the loop exits once occurrences are past the
window's end (and past every exception date). In the fuel model: some finite
fuel makes the expansion return a result. -/
theorem C10_expand_terminates (rule0 : RecurringRule) (window : TimeRange)
    (hdur : 0 < rule0.Duration) (hstart : rule0.StartTime ≠ goZeroTime) :
    ∃ (fuel : Nat) (res : List TimeRange),
      ExpandRecurringRule fuel rule0 window = .ok (some res) := by
  by_cases hwv : (!decide (window.Start < window.End)) = true
  · refine ⟨0, [], ?_⟩
    unfold ExpandRecurringRule
    rw [if_neg (by simp; omega)]
    dsimp only
    by_cases hI : rule0.Interval ≤ 0
    · rw [if_pos hI,
        if_neg (show ¬({ rule0 with Interval := 1 } : RecurringRule).StartTime = goZeroTime
          by simpa using hstart),
        if_pos hwv]
    · rw [if_neg hI, if_neg hstart, if_pos hwv]
  · by_cases hI : rule0.Interval ≤ 0
    · obtain ⟨fuel, res, hbr⟩ := expandBranches_total { rule0 with Interval := 1 } window
        (by simpa using hdur) (by simp)
      refine ⟨fuel, res, ?_⟩
      unfold ExpandRecurringRule
      rw [if_neg (by simp; omega)]
      dsimp only
      rw [if_pos hI,
        if_neg (show ¬({ rule0 with Interval := 1 } : RecurringRule).StartTime = goZeroTime
          by simpa using hstart),
        if_neg hwv]
      by_cases hwk : (({ rule0 with Interval := 1 } : RecurringRule).Freq ==
          RecurrenceFrequency.FreqWeekly
          && !({ rule0 with Interval := 1 } : RecurringRule).Weekdays.isEmpty) = true
      · rw [if_pos hwk]
        rw [if_pos hwk] at hbr
        rw [hbr]
      · rw [if_neg hwk]
        rw [if_neg hwk] at hbr
        rw [hbr]
    · obtain ⟨fuel, res, hbr⟩ := expandBranches_total rule0 window hdur (by omega)
      refine ⟨fuel, res, ?_⟩
      unfold ExpandRecurringRule
      rw [if_neg (by simp; omega)]
      dsimp only
      rw [if_neg hI, if_neg hstart, if_neg hwv]
      by_cases hwk : (rule0.Freq == RecurrenceFrequency.FreqWeekly
          && !rule0.Weekdays.isEmpty) = true
      · rw [if_pos hwk]
        rw [if_pos hwk] at hbr
        rw [hbr]
      · rw [if_neg hwk]
        rw [if_neg hwk] at hbr
        rw [hbr]

/-- Witness for `C10_expand_terminates` on the daily count-3 rule. -/
theorem C10_expand_terminates_witness :
    ((0 : Int) < ruleDailyCount.Duration ∧ ruleDailyCount.StartTime ≠ goZeroTime)
  ∧ ∃ (fuel : Nat) (res : List TimeRange),
      ExpandRecurringRule fuel ruleDailyCount windowJan = .ok (some res) :=
  ⟨⟨by decide, by decide⟩,
    C10_expand_terminates ruleDailyCount windowJan (by decide) (by decide)⟩

end AppointmentCore
namespace AppointmentCore

/-- The status invariant, read as a per-booking proposition. -/
theorem statusInvCheck_iff (s : DBState) :
    statusInvCheck s = true ↔ ∀ b ∈ s.bookings,
      (b.status = BookingStatus.confirmed →
        ∃ sl, findSlot s b.slotId = some sl ∧ sl.status = TimeSlotStatus.booked)
    ∧ (b.status = BookingStatus.cancelled →
        ∃ sl, findSlot s b.slotId = some sl ∧
          (sl.status = TimeSlotStatus.planned ∨ sl.status = TimeSlotStatus.cancelled)) := by
  unfold statusInvCheck
  rw [List.all_eq_true]
  constructor
  · intro h b hb
    have hB := h b hb
    constructor
    · intro hc
      rw [hc] at hB
      dsimp only at hB
      cases hfs : findSlot s b.slotId with
      | none => rw [hfs] at hB; exact absurd hB (by simp)
      | some sl =>
        rw [hfs] at hB
        exact ⟨sl, rfl, by simpa using hB⟩
    · intro hc
      rw [hc] at hB
      dsimp only at hB
      cases hfs : findSlot s b.slotId with
      | none => rw [hfs] at hB; exact absurd hB (by simp)
      | some sl =>
        rw [hfs] at hB
        exact ⟨sl, rfl, by simpa using hB⟩
  · intro h b hb
    obtain ⟨h1, h2⟩ := h b hb
    cases hbst : b.status with
    | pending => rfl
    | confirmed =>
      obtain ⟨sl, hfs, hst⟩ := h1 hbst
      dsimp only
      rw [hfs]
      dsimp only
      rw [hst]
      rfl
    | cancelled =>
      obtain ⟨sl, hfs, hst⟩ := h2 hbst
      dsimp only
      rw [hfs]
      dsimp only
      rcases hst with hst | hst <;> rw [hst] <;> rfl

/-- Well-formedness, read as a conjunction of propositions. -/
theorem wfCheck_iff (s : DBState) :
    wfCheck s = true ↔
      (∀ b ∈ s.bookings, b.id < s.nextId)
    ∧ (∀ sl ∈ s.slots, sl.id < s.nextId)
    ∧ List.Pairwise (fun a b => a.id ≠ b.id) s.slots
    ∧ List.Pairwise (fun a b => a.id ≠ b.id) s.bookings
    ∧ List.Pairwise (fun a b => a.slotId ≠ b.slotId) s.bookings
    ∧ (∀ b ∈ s.bookings, (findSlot s b.slotId).isSome = true)
    ∧ (∀ b ∈ s.bookings, (findClient s b.clientId).isSome = true)
    ∧ (∀ c ∈ s.clients, (findUser s c.userId).isSome = true) := by
  unfold wfCheck
  simp only [Bool.and_eq_true, List.all_eq_true, decide_eq_true_eq]
  constructor
  · rintro ⟨⟨⟨⟨⟨⟨⟨h1, h2⟩, h3⟩, h4⟩, h5⟩, h6⟩, h7⟩, h8⟩
    exact ⟨h1, h2, h3, h4, h5, h6, h7, h8⟩
  · rintro ⟨h1, h2, h3, h4, h5, h6, h7, h8⟩
    exact ⟨⟨⟨⟨⟨⟨⟨h1, h2⟩, h3⟩, h4⟩, h5⟩, h6⟩, h7⟩, h8⟩

/-- `find?` ignores a filter whose predicate holds wherever the search
predicate does. -/
theorem find?_filter_of_imp {α : Type} (p q : α → Bool) :
    ∀ (l : List α), (∀ a ∈ l, p a = true → q a = true) →
      (l.filter q).find? p = l.find? p
  | [], _ => rfl
  | x :: xs, h => by
    have ih := find?_filter_of_imp p q xs
      (fun a ha hp => h a (List.mem_cons_of_mem x ha) hp)
    rw [List.filter_cons]
    by_cases hp : p x = true
    · have hq := h x (List.mem_cons_self x xs) hp
      rw [if_pos hq, List.find?_cons_of_pos _ hp, List.find?_cons_of_pos _ hp]
    · have hp' := Bool.eq_false_iff.mpr hp
      by_cases hq : q x = true
      · rw [if_pos hq, List.find?_cons_of_neg _ (by rw [hp']; simp),
          List.find?_cons_of_neg _ (by rw [hp']; simp)]
        exact ih
      · rw [if_neg hq, List.find?_cons_of_neg _ (by rw [hp']; simp)]
        exact ih

/-- `find?` over an append whose left part already yields a hit. -/
theorem find?_append_of_isSome {α : Type} (p : α → Bool) (l₁ l₂ : List α)
    (h : (l₁.find? p).isSome = true) : (l₁ ++ l₂).find? p = l₁.find? p := by
  obtain ⟨x, hx⟩ := Option.isSome_iff_exists.mp h
  rw [List.find?_append, hx]
  rfl

/-- Slot lookup through an id-preserving slot map. -/
theorem findSlot_map (s s' : DBState) (f : TimeSlot → TimeSlot)
    (hid : ∀ sl, (f sl).id = sl.id) (hslots : s'.slots = s.slots.map f) (j : Nat) :
    findSlot s' j = (findSlot s j).map f := by
  unfold findSlot
  rw [hslots]
  exact find?_key_map TimeSlot.id f hid s.slots j

/-- `assignIds` keeps the batch length. -/
theorem assignIds_length : ∀ (l : List TimeSlot) (n : Nat),
    (assignIds n l).length = l.length
  | [], _ => rfl
  | x :: xs, n => by
    simp only [assignIds, List.length_cons]
    rw [assignIds_length xs (n + 1)]

/-- Every id assigned by `assignIds` lies in `[n, n + length)`. -/
theorem mem_assignIds_id : ∀ (l : List TimeSlot) (n : Nat), ∀ x ∈ assignIds n l,
    n ≤ x.id ∧ x.id < n + l.length
  | [], _, x, hx => absurd hx (List.not_mem_nil x)
  | z :: zs, n, x, hx => by
    rcases List.mem_cons.mp hx with h | h
    · subst h
      simp only [List.length_cons]
      omega
    · have := mem_assignIds_id zs (n + 1) x h
      simp only [List.length_cons]
      omega

/-- The ids assigned by `assignIds` are pairwise distinct. -/
theorem assignIds_pairwise_id : ∀ (l : List TimeSlot) (n : Nat),
    List.Pairwise (fun a b => a.id ≠ b.id) (assignIds n l)
  | [], _ => List.Pairwise.nil
  | z :: zs, n => by
    rw [assignIds, List.pairwise_cons]
    refine ⟨?_, assignIds_pairwise_id zs (n + 1)⟩
    intro x hx
    have := mem_assignIds_id zs (n + 1) x hx
    simp only
    omega

end AppointmentCore
namespace AppointmentCore

/-- Inversion of a successful `CreateBooking`: the slot was `Planned`, no
booking row referenced it, and the state gained exactly the new `Confirmed`
booking while the slot was mapped to `Booked`. -/
theorem CreateBooking_ok_inv (s : DBState) (cid sid : Nat) (comment : String)
    (s' : DBState) (b : Booking)
    (h : CreateBooking s cid sid comment = .ok (s', b)) :
    ∃ slot, findSlot s sid = some slot ∧ slot.status = TimeSlotStatus.planned ∧
      (findClient s cid).isSome = true ∧
      s.bookings.any (fun x => x.slotId == slot.id) = false ∧
      b = { id := s.nextId, clientId := cid, slotId := slot.id,
            status := BookingStatus.confirmed, cancelledAt := none, comment := comment } ∧
      s' = { s with
             bookings := s.bookings ++
               [{ id := s.nextId, clientId := cid, slotId := slot.id,
                  status := BookingStatus.confirmed, cancelledAt := none, comment := comment }],
             slots := s.slots.map (fun sl =>
               if sl.id == slot.id then { sl with status := TimeSlotStatus.booked } else sl),
             nextId := s.nextId + 1 } := by
  unfold CreateBooking at h
  cases hfc : findClient s cid with
  | none => rw [hfc] at h; exact Except.noConfusion h
  | some c =>
    rw [hfc] at h
    cases hfsl : findSlot s sid with
    | none => rw [hfsl] at h; exact Except.noConfusion h
    | some slot =>
      rw [hfsl] at h
      dsimp only at h
      by_cases hst : (!(slot.status == TimeSlotStatus.planned)) = true
      · rw [if_pos hst] at h; exact Except.noConfusion h
      · rw [if_neg hst] at h
        by_cases hcc : (HasOverlap ⟨slot.startsAt, slot.endsAt⟩
            (listClientConfirmedBookingRangesTx s cid slot.id) false).1 = true
        · rw [if_pos hcc] at h; exact Except.noConfusion h
        · rw [if_neg hcc] at h
          by_cases hpc : (HasOverlap ⟨slot.startsAt, slot.endsAt⟩
              (listProviderConfirmedBookingRangesTx s slot.providerId slot.id) false).1 = true
          · rw [if_pos hpc] at h; exact Except.noConfusion h
          · rw [if_neg hpc] at h
            by_cases hany : s.bookings.any (fun x => x.slotId == slot.id) = true
            · rw [if_pos hany] at h; exact Except.noConfusion h
            · rw [if_neg hany] at h
              injection h with h1
              rw [Prod.mk.injEq] at h1
              refine ⟨slot, rfl, ?_, rfl, Bool.eq_false_iff.mpr hany,
                h1.2.symm, h1.1.symm⟩
              have := Bool.eq_false_iff.mpr hst
              simp only [Bool.not_eq_false', beq_iff_eq] at this
              exact this

/-- `CreateBooking` preserves the status invariant and well-formedness. -/
theorem createBooking_preserves (s s' : DBState) (cid sid : Nat) (comment : String)
    (b : Booking) (h : CreateBooking s cid sid comment = .ok (s', b))
    (hi : statusInvCheck s = true) (hw : wfCheck s = true) :
    statusInvCheck s' = true ∧ wfCheck s' = true := by
  obtain ⟨slot, hfsl, hpl, hfc, hany, hb, hs'⟩ := CreateBooking_ok_inv s cid sid comment s' b h
  obtain ⟨w1, w2, w3, w4, w5, w6, w7, w8⟩ := (wfCheck_iff s).mp hw
  have hinv := (statusInvCheck_iff s).mp hi
  have hsid : slot.id = sid := by
    have := List.find?_some hfsl
    simpa using this
  have hslotmem : slot ∈ s.slots := List.mem_of_find?_eq_some hfsl
  have hfid : ∀ sl : TimeSlot,
      (if sl.id == slot.id then { sl with status := TimeSlotStatus.booked } else sl).id
        = sl.id := by
    intro sl
    by_cases h' : (sl.id == slot.id) = true
    · rw [if_pos h']
    · rw [if_neg h']
  have hslots' : s'.slots = s.slots.map (fun sl =>
      if sl.id == slot.id then { sl with status := TimeSlotStatus.booked } else sl) := by
    rw [hs']
  have hfind : ∀ j, findSlot s' j = (findSlot s j).map (fun sl =>
      if sl.id == slot.id then { sl with status := TimeSlotStatus.booked } else sl) :=
    findSlot_map s s' _ hfid hslots'
  have hbk' : s'.bookings = s.bookings ++
      [{ id := s.nextId, clientId := cid, slotId := slot.id,
         status := BookingStatus.confirmed, cancelledAt := none, comment := comment }] := by
    rw [hs']
  have hnoref : ∀ x ∈ s.bookings, (x.slotId == slot.id) = false := by
    intro x hx
    rcases Bool.eq_false_or_eq_true (x.slotId == slot.id) with h' | h'
    · exact absurd (List.any_eq_true.mpr ⟨x, hx, h'⟩) (Bool.eq_false_iff.mp hany)
    · exact h'
  have hclients' : ∀ j, findClient s' j = findClient s j := by
    intro j
    unfold findClient
    rw [hs']
  have husers' : ∀ j, findUser s' j = findUser s j := by
    intro j
    unfold findUser
    rw [hs']
  constructor
  · rw [statusInvCheck_iff]
    intro x hx
    rw [hbk'] at hx
    rcases List.mem_append.mp hx with hx' | hx'
    · constructor
      · intro hconf
        obtain ⟨sl, hsl, hstat⟩ := (hinv x hx').1 hconf
        have hslid : sl.id = x.slotId := by
          have := List.find?_some hsl
          simpa using this
        have hne : (sl.id == slot.id) = false := by
          rw [hslid]
          exact hnoref x hx'
        refine ⟨_, by rw [hfind x.slotId, hsl]; rfl, ?_⟩
        simp only [hne]
        simpa using hstat
      · intro hcanc
        obtain ⟨sl, hsl, hstat⟩ := (hinv x hx').2 hcanc
        have hslid : sl.id = x.slotId := by
          have := List.find?_some hsl
          simpa using this
        have hne : (sl.id == slot.id) = false := by
          rw [hslid]
          exact hnoref x hx'
        refine ⟨_, by rw [hfind x.slotId, hsl]; rfl, ?_⟩
        simp only [hne]
        simpa using hstat
    · have hx2 : x = { id := s.nextId, clientId := cid, slotId := slot.id,
                         status := BookingStatus.confirmed, cancelledAt := none,
                         comment := comment } := by
        simpa using hx'
      subst hx2
      constructor
      · intro _
        refine ⟨{ slot with status := TimeSlotStatus.booked }, ?_, rfl⟩
        have : findSlot s slot.id = some slot := by rw [hsid]; exact hfsl
        rw [hfind, this]
        simp
      · intro hcanc
        exact absurd hcanc (by simp)
  · rw [wfCheck_iff]
    have hnext' : s'.nextId = s.nextId + 1 := by rw [hs']
    have hcl' : s'.clients = s.clients := by rw [hs']
    refine ⟨?_, ?_, ?_, ?_, ?_, ?_, ?_, ?_⟩
    · intro x hx
      rw [hbk'] at hx
      rw [hnext']
      rcases List.mem_append.mp hx with hx' | hx'
      · have := w1 x hx'
        omega
      · have hx2 : x = { id := s.nextId, clientId := cid, slotId := slot.id,
                           status := BookingStatus.confirmed, cancelledAt := none,
                           comment := comment } := by
          simpa using hx'
        subst hx2
        exact Nat.lt_succ_self s.nextId
    · intro sl hsl
      rw [hslots'] at hsl
      rw [hnext']
      obtain ⟨y, hy, hfy⟩ := List.mem_map.mp hsl
      have := w2 y hy
      have hideq : sl.id = y.id := by rw [← hfy]; exact hfid y
      omega
    · rw [hslots']
      rw [List.pairwise_map]
      exact w3.imp (fun {a b} hne => by rw [hfid a, hfid b]; exact hne)
    · rw [hbk']
      rw [List.pairwise_append]
      refine ⟨w4, List.pairwise_singleton _ _, ?_⟩
      intro a ha y hy
      have hy2 : y = { id := s.nextId, clientId := cid, slotId := slot.id,
                         status := BookingStatus.confirmed, cancelledAt := none,
                         comment := comment } := by
        simpa using hy
      subst hy2
      have := w1 a ha
      simp only
      omega
    · rw [hbk']
      rw [List.pairwise_append]
      refine ⟨w5, List.pairwise_singleton _ _, ?_⟩
      intro a ha y hy
      have hy2 : y = { id := s.nextId, clientId := cid, slotId := slot.id,
                         status := BookingStatus.confirmed, cancelledAt := none,
                         comment := comment } := by
        simpa using hy
      subst hy2
      simp only
      exact ne_of_beq_false (hnoref a ha)
    · intro x hx
      rw [hbk'] at hx
      rw [hfind]
      rcases List.mem_append.mp hx with hx' | hx'
      · have := w6 x hx'
        obtain ⟨sl, hsl⟩ := Option.isSome_iff_exists.mp this
        rw [hsl]
        rfl
      · have hx2 : x = { id := s.nextId, clientId := cid, slotId := slot.id,
                           status := BookingStatus.confirmed, cancelledAt := none,
                           comment := comment } := by
          simpa using hx'
        subst hx2
        have : findSlot s slot.id = some slot := by rw [hsid]; exact hfsl
        simp only
        rw [this]
        rfl
    · intro x hx
      rw [hbk'] at hx
      rw [hclients']
      rcases List.mem_append.mp hx with hx' | hx'
      · exact w7 x hx'
      · have hx2 : x = { id := s.nextId, clientId := cid, slotId := slot.id,
                           status := BookingStatus.confirmed, cancelledAt := none,
                           comment := comment } := by
          simpa using hx'
        subst hx2
        exact hfc
    · intro c hc
      rw [hcl'] at hc
      rw [husers']
      exact w8 c hc

end AppointmentCore
namespace AppointmentCore

/-- Inversion of a successful `CancelBooking`: either the booking was already
cancelled and nothing changed, or the booking row is mapped to `Cancelled` and
its slot row to `Planned`. -/
theorem CancelBooking_ok_inv (s : DBState) (bid : Nat) (now : Int)
    (s' : DBState) (b' : Booking)
    (h : CancelBooking s bid now = .ok (s', b')) :
    (s' = s ∧ ∃ b, findBooking s bid = some b ∧ b.status = BookingStatus.cancelled ∧ b' = b)
  ∨ (∃ b, findBooking s bid = some b ∧ ¬b.status = BookingStatus.cancelled ∧
      b' = { b with status := BookingStatus.cancelled, cancelledAt := some now } ∧
      s' = { s with
             bookings := s.bookings.map (fun x =>
               if x.id == bid then
                 { x with status := BookingStatus.cancelled, cancelledAt := some now }
               else x),
             slots := s.slots.map (fun sl =>
               if sl.id == b.slotId then { sl with status := TimeSlotStatus.planned }
               else sl) }) := by
  unfold CancelBooking at h
  cases hfb : findBooking s bid with
  | none => rw [hfb] at h; exact Except.noConfusion h
  | some b =>
    simp only [hfb] at h
    by_cases hc : (b.status == BookingStatus.cancelled) = true
    · rw [if_pos hc] at h
      injection h with h1
      rw [Prod.mk.injEq] at h1
      exact Or.inl ⟨h1.1.symm, b, rfl, by simpa using hc, h1.2.symm⟩
    · rw [if_neg hc] at h
      injection h with h1
      rw [Prod.mk.injEq] at h1
      exact Or.inr ⟨b, rfl, by simpa using hc, h1.2.symm, h1.1.symm⟩

/-- `CancelBooking` preserves the status invariant and well-formedness. -/
theorem cancelBooking_preserves (s s' : DBState) (bid : Nat) (now : Int)
    (b' : Booking) (h : CancelBooking s bid now = .ok (s', b'))
    (hi : statusInvCheck s = true) (hw : wfCheck s = true) :
    statusInvCheck s' = true ∧ wfCheck s' = true := by
  rcases CancelBooking_ok_inv s bid now s' b' h with ⟨heq, _⟩ | ⟨b, hfb, hbc, hb', hs'⟩
  · rw [heq]
    exact ⟨hi, hw⟩
  obtain ⟨w1, w2, w3, w4, w5, w6, w7, w8⟩ := (wfCheck_iff s).mp hw
  have hinv := (statusInvCheck_iff s).mp hi
  have hbid : b.id = bid := by
    have := List.find?_some hfb
    simpa using this
  have hbmem : b ∈ s.bookings := List.mem_of_find?_eq_some hfb
  have hfidS : ∀ sl : TimeSlot,
      (if sl.id == b.slotId then { sl with status := TimeSlotStatus.planned } else sl).id
        = sl.id := by
    intro sl
    by_cases h' : (sl.id == b.slotId) = true
    · rw [if_pos h']
    · rw [if_neg h']
  have hgB : ∀ x : Booking,
      ((if x.id == bid then
          { x with status := BookingStatus.cancelled, cancelledAt := some now }
        else x) : Booking).id = x.id
    ∧ ((if x.id == bid then
          { x with status := BookingStatus.cancelled, cancelledAt := some now }
        else x) : Booking).slotId = x.slotId
    ∧ ((if x.id == bid then
          { x with status := BookingStatus.cancelled, cancelledAt := some now }
        else x) : Booking).clientId = x.clientId := by
    intro x
    by_cases h' : (x.id == bid) = true
    · rw [if_pos h']
      exact ⟨rfl, rfl, rfl⟩
    · rw [if_neg h']
      exact ⟨rfl, rfl, rfl⟩
  have hslots' : s'.slots = s.slots.map (fun sl =>
      if sl.id == b.slotId then { sl with status := TimeSlotStatus.planned } else sl) := by
    rw [hs']
  have hfind : ∀ j, findSlot s' j = (findSlot s j).map (fun sl =>
      if sl.id == b.slotId then { sl with status := TimeSlotStatus.planned } else sl) :=
    findSlot_map s s' _ hfidS hslots'
  have hbk' : s'.bookings = s.bookings.map (fun x =>
      if x.id == bid then
        { x with status := BookingStatus.cancelled, cancelledAt := some now }
      else x) := by
    rw [hs']
  have hclients' : ∀ j, findClient s' j = findClient s j := by
    intro j
    unfold findClient
    rw [hs']
  have husers' : ∀ j, findUser s' j = findUser s j := by
    intro j
    unfold findUser
    rw [hs']
  constructor
  · rw [statusInvCheck_iff]
    intro y hy
    rw [hbk'] at hy
    obtain ⟨x, hx, hyx⟩ := List.mem_map.mp hy
    by_cases hxb : (x.id == bid) = true
    · have hxeq : x = b := by
        apply eq_of_mem_of_pairwise_key Booking.id s.bookings w4 x hx b hbmem
        rw [hbid]
        simpa using hxb
      subst hxeq
      rw [if_pos hxb] at hyx
      subst hyx
      constructor
      · intro hcf
        exact absurd hcf (by simp)
      · intro _
        obtain ⟨sl, hsl⟩ := Option.isSome_iff_exists.mp (w6 x hx)
        have hslid : sl.id = x.slotId := by
          have := List.find?_some hsl
          simpa using this
        refine ⟨if sl.id == x.slotId then { sl with status := TimeSlotStatus.planned } else sl,
          by rw [hfind, hsl]; rfl, ?_⟩
        rw [if_pos (show (sl.id == x.slotId) = true by rw [hslid]; simp)]
        exact Or.inl rfl
    · rw [if_neg hxb] at hyx
      subst hyx
      have hxne : x ≠ b := by
        intro hcon
        apply hxb
        rw [hcon, hbid]
        simp
      have hxslot : x.slotId ≠ b.slotId := by
        intro hcon
        exact hxne (eq_of_mem_of_pairwise_key Booking.slotId s.bookings w5 x hx b hbmem hcon)
      constructor
      · intro hcf
        obtain ⟨sl, hsl, hstat⟩ := (hinv x hx).1 hcf
        have hslid : sl.id = x.slotId := by
          have := List.find?_some hsl
          simpa using this
        have hne : (sl.id == b.slotId) = false := by
          rw [hslid]
          exact beq_eq_false_iff_ne.mpr hxslot
        refine ⟨_, by rw [hfind, hsl]; rfl, ?_⟩
        simp only [hne]
        simpa using hstat
      · intro hcanc
        obtain ⟨sl, hsl, hstat⟩ := (hinv x hx).2 hcanc
        refine ⟨if sl.id == b.slotId then { sl with status := TimeSlotStatus.planned } else sl,
          by rw [hfind, hsl]; rfl, ?_⟩
        by_cases hne : (sl.id == b.slotId) = true
        · rw [if_pos hne]
          exact Or.inl rfl
        · rw [if_neg hne]
          exact hstat
  · rw [wfCheck_iff]
    have hnext' : s'.nextId = s.nextId := by rw [hs']
    have hcl' : s'.clients = s.clients := by rw [hs']
    refine ⟨?_, ?_, ?_, ?_, ?_, ?_, ?_, ?_⟩
    · intro x hx
      rw [hbk'] at hx
      rw [hnext']
      obtain ⟨y, hy, hyx⟩ := List.mem_map.mp hx
      have := w1 y hy
      have hideq : x.id = y.id := by rw [← hyx]; exact (hgB y).1
      omega
    · intro sl hsl
      rw [hslots'] at hsl
      rw [hnext']
      obtain ⟨y, hy, hfy⟩ := List.mem_map.mp hsl
      have := w2 y hy
      have hideq : sl.id = y.id := by rw [← hfy]; exact hfidS y
      omega
    · rw [hslots', List.pairwise_map]
      exact w3.imp (fun {a c} hne => by rw [hfidS a, hfidS c]; exact hne)
    · rw [hbk', List.pairwise_map]
      exact w4.imp (fun {a c} hne => by rw [(hgB a).1, (hgB c).1]; exact hne)
    · rw [hbk', List.pairwise_map]
      exact w5.imp (fun {a c} hne => by rw [(hgB a).2.1, (hgB c).2.1]; exact hne)
    · intro x hx
      rw [hbk'] at hx
      obtain ⟨y, hy, hyx⟩ := List.mem_map.mp hx
      have hslotEq : x.slotId = y.slotId := by rw [← hyx]; exact (hgB y).2.1
      rw [hfind, hslotEq]
      obtain ⟨sl, hsl⟩ := Option.isSome_iff_exists.mp (w6 y hy)
      rw [hsl]
      rfl
    · intro x hx
      rw [hbk'] at hx
      obtain ⟨y, hy, hyx⟩ := List.mem_map.mp hx
      have hclEq : x.clientId = y.clientId := by rw [← hyx]; exact (hgB y).2.2
      rw [hclients', hclEq]
      exact w7 y hy
    · intro c hc
      rw [hcl'] at hc
      rw [husers']
      exact w8 c hc

end AppointmentCore
namespace AppointmentCore

/-- Inversion of a successful `BulkCancelProviderSlots` (under distinct booking
ids and resolvable clients/users): targeted slots are mapped to `Cancelled` and
targeted bookings to `Cancelled`, everything else is unchanged. -/
theorem BulkCancel_ok_inv (s : DBState) (pid : Nat) (start fin : Int)
    (reason : String) (now : Int) (s' : DBState) (r : BulkCancelResult)
    (h : BulkCancelProviderSlots s pid start fin reason now = .ok (s', r))
    (hpair : List.Pairwise (fun a b => a.id ≠ b.id) s.bookings)
    (hUsers : s.bookings.all (fun b =>
      match findClient s b.clientId with
      | some c => (findUser s c.userId).isSome
      | none => false) = true) :
    s'.slots = s.slots.map (fun sl =>
      if bulkSlotTarget pid start fin sl then { sl with status := TimeSlotStatus.cancelled }
      else sl)
  ∧ s'.bookings = s.bookings.map (fun b =>
      if bulkBookingTarget s pid start fin b then
        { b with status := BookingStatus.cancelled, cancelledAt := some now,
                 comment := if reason == "" then b.comment else reason }
      else b)
  ∧ s'.clients = s.clients ∧ s'.users = s.users ∧ s'.nextId = s.nextId := by
  have hkey := bulk_contains_iff s pid start fin hpair hUsers
  unfold BulkCancelProviderSlots at h
  by_cases hwin : (!decide (start < fin)) = true
  · rw [if_pos hwin] at h
    exact Except.noConfusion h
  · rw [if_neg hwin] at h
    injection h with h1
    rw [Prod.mk.injEq] at h1
    have hs' := h1.1.symm
    have hbookings :
        (if (bulkAffectedRows s pid start fin).isEmpty then s.bookings
         else s.bookings.map (fun b =>
           if ((bulkAffectedRows s pid start fin).map (fun r => r.bookingId)).contains b.id
               && !(b.status == BookingStatus.cancelled) then
             { b with status := .cancelled, cancelledAt := some now,
                      comment := if reason == "" then b.comment else reason }
           else b)) =
        s.bookings.map (fun b =>
          if bulkBookingTarget s pid start fin b then
            { b with status := .cancelled, cancelledAt := some now,
                     comment := if reason == "" then b.comment else reason }
          else b) := by
      by_cases hempty : (bulkAffectedRows s pid start fin).isEmpty = true
      · rw [if_pos hempty]
        have hnone : ∀ b ∈ s.bookings, bulkBookingTarget s pid start fin b = false := by
          intro b hb
          rw [← hkey b hb]
          rw [List.isEmpty_iff.mp hempty]
          rfl
        exact (map_ite_of_guard_false _ _ s.bookings hnone).symm
      · rw [if_neg hempty]
        apply List.map_congr_left
        intro b hb
        have hc : (((bulkAffectedRows s pid start fin).map (fun r => r.bookingId)).contains b.id
            && !(b.status == BookingStatus.cancelled)) =
            bulkBookingTarget s pid start fin b := by
          rw [hkey b hb]
          unfold bulkBookingTarget
          cases hm : (match findSlot s b.slotId with
            | some sl => bulkSlotTarget pid start fin sl
            | none => false) <;>
            cases hcs : (b.status == BookingStatus.cancelled) <;> simp
        rw [hc]
    rw [hs']
    refine ⟨rfl, ?_, rfl, rfl, rfl⟩
    exact hbookings

/-- `BulkCancelProviderSlots` preserves the status invariant and
well-formedness. -/
theorem bulkCancel_preserves (s s' : DBState) (pid : Nat) (start fin : Int)
    (reason : String) (now : Int) (r : BulkCancelResult)
    (h : BulkCancelProviderSlots s pid start fin reason now = .ok (s', r))
    (hi : statusInvCheck s = true) (hw : wfCheck s = true) :
    statusInvCheck s' = true ∧ wfCheck s' = true := by
  obtain ⟨w1, w2, w3, w4, w5, w6, w7, w8⟩ := (wfCheck_iff s).mp hw
  have hinv := (statusInvCheck_iff s).mp hi
  have hUsers : s.bookings.all (fun b =>
      match findClient s b.clientId with
      | some c => (findUser s c.userId).isSome
      | none => false) = true := by
    rw [List.all_eq_true]
    intro b hb
    obtain ⟨c, hc⟩ := Option.isSome_iff_exists.mp (w7 b hb)
    rw [hc]
    exact w8 c (List.mem_of_find?_eq_some hc)
  obtain ⟨hslots', hbk', hcl', hus', hnext'⟩ :=
    BulkCancel_ok_inv s pid start fin reason now s' r h w4 hUsers
  have hfidS : ∀ sl : TimeSlot,
      (if bulkSlotTarget pid start fin sl then { sl with status := TimeSlotStatus.cancelled }
       else sl).id = sl.id := by
    intro sl
    by_cases h' : bulkSlotTarget pid start fin sl = true
    · rw [if_pos h']
    · rw [if_neg h']
  have hgB : ∀ x : Booking,
      ((if bulkBookingTarget s pid start fin x then
          { x with status := BookingStatus.cancelled, cancelledAt := some now,
                   comment := if reason == "" then x.comment else reason }
        else x) : Booking).id = x.id
    ∧ ((if bulkBookingTarget s pid start fin x then
          { x with status := BookingStatus.cancelled, cancelledAt := some now,
                   comment := if reason == "" then x.comment else reason }
        else x) : Booking).slotId = x.slotId
    ∧ ((if bulkBookingTarget s pid start fin x then
          { x with status := BookingStatus.cancelled, cancelledAt := some now,
                   comment := if reason == "" then x.comment else reason }
        else x) : Booking).clientId = x.clientId := by
    intro x
    by_cases h' : bulkBookingTarget s pid start fin x = true
    · rw [if_pos h']
      exact ⟨rfl, rfl, rfl⟩
    · rw [if_neg h']
      exact ⟨rfl, rfl, rfl⟩
  have hfind : ∀ j, findSlot s' j = (findSlot s j).map (fun sl =>
      if bulkSlotTarget pid start fin sl then { sl with status := TimeSlotStatus.cancelled }
      else sl) :=
    findSlot_map s s' _ hfidS hslots'
  have hclients' : ∀ j, findClient s' j = findClient s j := by
    intro j
    unfold findClient
    rw [hcl']
  have husers' : ∀ j, findUser s' j = findUser s j := by
    intro j
    unfold findUser
    rw [hus']
  constructor
  · rw [statusInvCheck_iff]
    intro y hy
    rw [hbk'] at hy
    obtain ⟨x, hx, hyx⟩ := List.mem_map.mp hy
    by_cases htg : bulkBookingTarget s pid start fin x = true
    · rw [if_pos htg] at hyx
      subst hyx
      constructor
      · intro hcf
        exact absurd hcf (by simp)
      · intro _
        have htg' := htg
        unfold bulkBookingTarget at htg'
        rw [Bool.and_eq_true] at htg'
        obtain ⟨hm, _⟩ := htg'
        cases hfs : findSlot s x.slotId with
        | none => rw [hfs] at hm; exact absurd hm (by simp)
        | some sl =>
          rw [hfs] at hm
          refine ⟨if bulkSlotTarget pid start fin sl then
              { sl with status := TimeSlotStatus.cancelled } else sl,
            by rw [hfind, hfs]; rfl, ?_⟩
          rw [if_pos hm]
          exact Or.inr rfl
    · rw [if_neg htg] at hyx
      subst hyx
      constructor
      · intro hcf
        obtain ⟨sl, hsl, hstat⟩ := (hinv x hx).1 hcf
        have hnt : bulkSlotTarget pid start fin sl = false := by
          rcases Bool.eq_false_or_eq_true (bulkSlotTarget pid start fin sl) with h' | h'
          · exfalso
            apply htg
            unfold bulkBookingTarget
            simp [hsl, h', hcf]
          · exact h'
        refine ⟨if bulkSlotTarget pid start fin sl then
            { sl with status := TimeSlotStatus.cancelled } else sl,
          by rw [hfind, hsl]; rfl, ?_⟩
        rw [if_neg (by rw [hnt]; exact Bool.false_ne_true)]
        exact hstat
      · intro hcanc
        obtain ⟨sl, hsl, hstat⟩ := (hinv x hx).2 hcanc
        refine ⟨if bulkSlotTarget pid start fin sl then
            { sl with status := TimeSlotStatus.cancelled } else sl,
          by rw [hfind, hsl]; rfl, ?_⟩
        by_cases hne : bulkSlotTarget pid start fin sl = true
        · rw [if_pos hne]
          exact Or.inr rfl
        · rw [if_neg hne]
          exact hstat
  · rw [wfCheck_iff]
    refine ⟨?_, ?_, ?_, ?_, ?_, ?_, ?_, ?_⟩
    · intro x hx
      rw [hbk'] at hx
      rw [hnext']
      obtain ⟨y, hy, hyx⟩ := List.mem_map.mp hx
      have := w1 y hy
      have hideq : x.id = y.id := by rw [← hyx]; exact (hgB y).1
      omega
    · intro sl hsl
      rw [hslots'] at hsl
      rw [hnext']
      obtain ⟨y, hy, hfy⟩ := List.mem_map.mp hsl
      have := w2 y hy
      have hideq : sl.id = y.id := by rw [← hfy]; exact hfidS y
      omega
    · rw [hslots', List.pairwise_map]
      exact w3.imp (fun {a c} hne => by rw [hfidS a, hfidS c]; exact hne)
    · rw [hbk', List.pairwise_map]
      exact w4.imp (fun {a c} hne => by rw [(hgB a).1, (hgB c).1]; exact hne)
    · rw [hbk', List.pairwise_map]
      exact w5.imp (fun {a c} hne => by rw [(hgB a).2.1, (hgB c).2.1]; exact hne)
    · intro x hx
      rw [hbk'] at hx
      obtain ⟨y, hy, hyx⟩ := List.mem_map.mp hx
      have hslotEq : x.slotId = y.slotId := by rw [← hyx]; exact (hgB y).2.1
      rw [hfind, hslotEq]
      obtain ⟨sl, hsl⟩ := Option.isSome_iff_exists.mp (w6 y hy)
      rw [hsl]
      rfl
    · intro x hx
      rw [hbk'] at hx
      obtain ⟨y, hy, hyx⟩ := List.mem_map.mp hx
      have hclEq : x.clientId = y.clientId := by rw [← hyx]; exact (hgB y).2.2
      rw [hclients', hclEq]
      exact w7 y hy
    · intro c hc
      rw [hcl'] at hc
      rw [husers']
      exact w8 c hc

end AppointmentCore
namespace AppointmentCore

/-- Inversion of a successful materialization: either nothing changed or a
batch of freshly-keyed rows was appended. -/
theorem materialize_ok_inv (fuel : Nat) (s : DBState) (pid : Nat) (sid : Option Nat)
    (fromUTC toUTC : Int) (schedules : List Schedule) (s' : DBState)
    (h : materializeSlotsFromSchedules fuel s pid sid fromUTC toUTC schedules =
      .ok (some s')) :
    s' = s ∨ ∃ created : List TimeSlot,
      s' = { s with slots := s.slots ++ created, nextId := s.nextId + created.length }
    ∧ (∀ x ∈ created, s.nextId ≤ x.id ∧ x.id < s.nextId + created.length)
    ∧ List.Pairwise (fun a b => a.id ≠ b.id) created := by
  unfold materializeSlotsFromSchedules at h
  by_cases h1 : schedules.isEmpty = true
  · rw [if_pos h1] at h
    injection h with h1'
    exact Or.inl (Option.some_inj.mp h1').symm
  · rw [if_neg h1] at h
    by_cases h2 : (!decide (fromUTC < toUTC)) = true
    · rw [if_pos h2] at h
      injection h with h2'
      exact Or.inl (Option.some_inj.mp h2').symm
    · rw [if_neg h2] at h
      cases hexp : expandAllSchedules fuel fromUTC toUTC schedules with
      | error e => rw [hexp] at h; exact Except.noConfusion h
      | ok o =>
        rw [hexp] at h
        cases o with
        | none =>
          injection h with h3'
          exact Option.noConfusion h3'
        | some occB =>
          dsimp only at h
          by_cases h4 : occB.isEmpty = true
          · rw [if_pos h4] at h
            injection h with h4'
            exact Or.inl (Option.some_inj.mp h4').symm
          · rw [if_neg h4] at h
            by_cases h5 : (materializeToCreate
                ((materializeExistingQuery s pid sid fromUTC toUTC).map
                  (fun sl => SlotKey.mk sl.serviceId sl.startsAt sl.endsAt))
                pid sid occB).isEmpty = true
            · rw [if_pos h5] at h
              injection h with h5'
              exact Or.inl (Option.some_inj.mp h5').symm
            · rw [if_neg h5] at h
              injection h with h6'
              have h6 := Option.some_inj.mp h6'
              refine Or.inr ⟨assignIds s.nextId (sortSlotsByStart (materializeToCreate
                ((materializeExistingQuery s pid sid fromUTC toUTC).map
                  (fun sl => SlotKey.mk sl.serviceId sl.startsAt sl.endsAt))
                pid sid occB)), ?_, ?_, ?_⟩
              · rw [← h6]
              · intro x hx
                rw [assignIds_length]
                exact mem_assignIds_id _ s.nextId x hx
              · exact assignIds_pairwise_id _ s.nextId

/-- Appending fresh-id slot rows preserves the status invariant and
well-formedness. -/
theorem append_slots_preserves (s s' : DBState) (created : List TimeSlot)
    (hs' : s' = { s with slots := s.slots ++ created,
                         nextId := s.nextId + created.length })
    (hids : ∀ x ∈ created, s.nextId ≤ x.id ∧ x.id < s.nextId + created.length)
    (hcp : List.Pairwise (fun a b => a.id ≠ b.id) created)
    (hi : statusInvCheck s = true) (hw : wfCheck s = true) :
    statusInvCheck s' = true ∧ wfCheck s' = true := by
  obtain ⟨w1, w2, w3, w4, w5, w6, w7, w8⟩ := (wfCheck_iff s).mp hw
  have hinv := (statusInvCheck_iff s).mp hi
  have hfind : ∀ j, (findSlot s j).isSome = true → findSlot s' j = findSlot s j := by
    intro j hj
    unfold findSlot at hj ⊢
    rw [hs']
    exact find?_append_of_isSome _ s.slots created hj
  have hbk' : s'.bookings = s.bookings := by rw [hs']
  have hclients' : ∀ j, findClient s' j = findClient s j := by
    intro j
    unfold findClient
    rw [hs']
  have husers' : ∀ j, findUser s' j = findUser s j := by
    intro j
    unfold findUser
    rw [hs']
  constructor
  · rw [statusInvCheck_iff]
    intro x hx
    rw [hbk'] at hx
    constructor
    · intro hcf
      obtain ⟨sl, hsl, hstat⟩ := (hinv x hx).1 hcf
      refine ⟨sl, ?_, hstat⟩
      rw [hfind x.slotId (by rw [hsl]; rfl)]
      exact hsl
    · intro hcanc
      obtain ⟨sl, hsl, hstat⟩ := (hinv x hx).2 hcanc
      refine ⟨sl, ?_, hstat⟩
      rw [hfind x.slotId (by rw [hsl]; rfl)]
      exact hsl
  · rw [wfCheck_iff]
    have hnext' : s'.nextId = s.nextId + created.length := by rw [hs']
    have hsl' : s'.slots = s.slots ++ created := by rw [hs']
    have hcl' : s'.clients = s.clients := by rw [hs']
    refine ⟨?_, ?_, ?_, ?_, ?_, ?_, ?_, ?_⟩
    · intro x hx
      rw [hbk'] at hx
      rw [hnext']
      have := w1 x hx
      omega
    · intro sl hsl
      rw [hsl'] at hsl
      rw [hnext']
      rcases List.mem_append.mp hsl with h' | h'
      · have := w2 sl h'
        omega
      · exact (hids sl h').2
    · rw [hsl', List.pairwise_append]
      refine ⟨w3, hcp, ?_⟩
      intro a ha b hb
      have h1 := w2 a ha
      have h2 := (hids b hb).1
      omega
    · rw [hbk']
      exact w4
    · rw [hbk']
      exact w5
    · intro x hx
      rw [hbk'] at hx
      rw [hfind x.slotId (w6 x hx)]
      exact w6 x hx
    · intro x hx
      rw [hbk'] at hx
      rw [hclients']
      exact w7 x hx
    · intro c hc
      rw [hcl'] at hc
      rw [husers']
      exact w8 c hc

/-- `CreateSlot` preserves the status invariant and well-formedness. -/
theorem createSlot_preserves (s s' : DBState) (pid : Nat) (sid : Option Nat)
    (start fin : Int) (sl : TimeSlot)
    (h : CreateSlot s pid sid start fin = .ok (s', sl))
    (hi : statusInvCheck s = true) (hw : wfCheck s = true) :
    statusInvCheck s' = true ∧ wfCheck s' = true := by
  unfold CreateSlot at h
  by_cases h1 : (!decide (start < fin)) = true
  · rw [if_pos h1] at h
    exact Except.noConfusion h
  · rw [if_neg h1] at h
    injection h with h2
    rw [Prod.mk.injEq] at h2
    refine append_slots_preserves s s'
      [{ id := s.nextId, scheduleId := none, providerId := pid,
         serviceId := sid, startsAt := start, endsAt := fin,
         status := TimeSlotStatus.planned }] ?_ ?_ ?_ hi hw
    · rw [← h2.1]
      rfl
    · intro x hx
      have hx2 : x = { id := s.nextId, scheduleId := none, providerId := pid,
                       serviceId := sid, startsAt := start, endsAt := fin,
                       status := TimeSlotStatus.planned } := by
        simpa using hx
      subst hx2
      simp only [List.length_singleton]
      omega
    · exact List.pairwise_singleton _ _

/-- Materialization preserves the status invariant and well-formedness. -/
theorem materialize_preserves (fuel : Nat) (s s' : DBState) (pid : Nat)
    (sid : Option Nat) (fromUTC toUTC : Int) (schedules : List Schedule)
    (h : materializeSlotsFromSchedules fuel s pid sid fromUTC toUTC schedules =
      .ok (some s'))
    (hi : statusInvCheck s = true) (hw : wfCheck s = true) :
    statusInvCheck s' = true ∧ wfCheck s' = true := by
  rcases materialize_ok_inv fuel s pid sid fromUTC toUTC schedules s' h with
    heq | ⟨created, hs', hids, hcp⟩
  · rw [heq]
    exact ⟨hi, hw⟩
  · exact append_slots_preserves s s' created hs' hids hcp hi hw

/-- Inversion of a successful `UpdateSlot` without a status argument: the
written row keeps the stored row's id and status. -/
theorem UpdateSlot_none_ok_inv (s : DBState) (slotId : Nat) (newServiceId : Option Nat)
    (newRange : Option (Int × Int)) (s' : DBState) (sl' : TimeSlot)
    (h : UpdateSlot s slotId newServiceId newRange none = .ok (s', sl')) :
    ∃ slot0, findSlot s slotId = some slot0 ∧
      sl'.id = slot0.id ∧ sl'.status = slot0.status ∧
      s' = { s with slots := s.slots.map (fun sl => if sl.id == slotId then sl' else sl) } := by
  unfold UpdateSlot at h
  cases hfsl : findSlot s slotId with
  | none => rw [hfsl] at h; exact Except.noConfusion h
  | some slot0 =>
    simp only [hfsl] at h
    refine ⟨slot0, rfl, ?_⟩
    cases newRange with
    | some p =>
      cases p with
      | mk a b =>
        dsimp only at h
        by_cases hg : (!decide (a < b)) = true
        · rw [if_pos hg] at h
          exact Except.noConfusion h
        · rw [if_neg hg] at h
          injection h with h1
          rw [Prod.mk.injEq] at h1
          cases newServiceId with
          | none =>
            refine ⟨by rw [← h1.2], by rw [← h1.2], ?_⟩
            rw [← h1.1, ← h1.2]
          | some v =>
            refine ⟨by rw [← h1.2], by rw [← h1.2], ?_⟩
            rw [← h1.1, ← h1.2]
    | none =>
      dsimp only at h
      injection h with h1
      rw [Prod.mk.injEq] at h1
      cases newServiceId with
      | none =>
        refine ⟨by rw [← h1.2], by rw [← h1.2], ?_⟩
        rw [← h1.1, ← h1.2]
      | some v =>
        refine ⟨by rw [← h1.2], by rw [← h1.2], ?_⟩
        rw [← h1.1, ← h1.2]

/-- `UpdateSlot` without a status argument preserves the status invariant and
well-formedness. -/
theorem updateSlotNoStatus_preserves (s s' : DBState) (slotId : Nat)
    (newServiceId : Option Nat) (newRange : Option (Int × Int)) (sl' : TimeSlot)
    (h : UpdateSlot s slotId newServiceId newRange none = .ok (s', sl'))
    (hi : statusInvCheck s = true) (hw : wfCheck s = true) :
    statusInvCheck s' = true ∧ wfCheck s' = true := by
  obtain ⟨slot0, hfsl, hid0, hst0, hs'⟩ :=
    UpdateSlot_none_ok_inv s slotId newServiceId newRange s' sl' h
  obtain ⟨w1, w2, w3, w4, w5, w6, w7, w8⟩ := (wfCheck_iff s).mp hw
  have hinv := (statusInvCheck_iff s).mp hi
  have hsid : slot0.id = slotId := by
    have := List.find?_some hfsl
    simpa using this
  have hfid : ∀ sl : TimeSlot, ((if sl.id == slotId then sl' else sl) : TimeSlot).id = sl.id := by
    intro sl
    by_cases h' : (sl.id == slotId) = true
    · rw [if_pos h', hid0, hsid]
      exact (beq_iff_eq.mp h').symm
    · rw [if_neg h']
  have hslots' : s'.slots = s.slots.map (fun sl => if sl.id == slotId then sl' else sl) := by
    rw [hs']
  have hfind : ∀ j, findSlot s' j = (findSlot s j).map
      (fun sl => if sl.id == slotId then sl' else sl) :=
    findSlot_map s s' _ hfid hslots'
  have hbk' : s'.bookings = s.bookings := by rw [hs']
  have hclients' : ∀ j, findClient s' j = findClient s j := by
    intro j
    unfold findClient
    rw [hs']
  have husers' : ∀ j, findUser s' j = findUser s j := by
    intro j
    unfold findUser
    rw [hs']
  have hstatus : ∀ sl ∈ s.slots,
      ((if sl.id == slotId then sl' else sl) : TimeSlot).status = sl.status := by
    intro sl hsl
    by_cases h' : (sl.id == slotId) = true
    · rw [if_pos h']
      have hsl0 : sl = slot0 := by
        apply eq_of_mem_of_pairwise_key TimeSlot.id s.slots w3 sl hsl slot0
          (List.mem_of_find?_eq_some hfsl)
        rw [hsid]
        exact beq_iff_eq.mp h'
      rw [hst0, hsl0]
    · rw [if_neg h']
  constructor
  · rw [statusInvCheck_iff]
    intro x hx
    rw [hbk'] at hx
    constructor
    · intro hcf
      obtain ⟨sl, hsl, hstat⟩ := (hinv x hx).1 hcf
      refine ⟨if sl.id == slotId then sl' else sl, by rw [hfind, hsl]; rfl, ?_⟩
      rw [hstatus sl (List.mem_of_find?_eq_some hsl)]
      exact hstat
    · intro hcanc
      obtain ⟨sl, hsl, hstat⟩ := (hinv x hx).2 hcanc
      refine ⟨if sl.id == slotId then sl' else sl, by rw [hfind, hsl]; rfl, ?_⟩
      rw [hstatus sl (List.mem_of_find?_eq_some hsl)]
      exact hstat
  · rw [wfCheck_iff]
    have hnext' : s'.nextId = s.nextId := by rw [hs']
    have hcl' : s'.clients = s.clients := by rw [hs']
    refine ⟨?_, ?_, ?_, ?_, ?_, ?_, ?_, ?_⟩
    · intro x hx
      rw [hbk'] at hx
      rw [hnext']
      exact w1 x hx
    · intro sl hsl
      rw [hslots'] at hsl
      rw [hnext']
      obtain ⟨y, hy, hfy⟩ := List.mem_map.mp hsl
      have := w2 y hy
      have hideq : sl.id = y.id := by rw [← hfy]; exact hfid y
      omega
    · rw [hslots', List.pairwise_map]
      exact w3.imp (fun {a c} hne => by rw [hfid a, hfid c]; exact hne)
    · rw [hbk']
      exact w4
    · rw [hbk']
      exact w5
    · intro x hx
      rw [hbk'] at hx
      rw [hfind]
      obtain ⟨sl, hsl⟩ := Option.isSome_iff_exists.mp (w6 x hx)
      rw [hsl]
      rfl
    · intro x hx
      rw [hbk'] at hx
      rw [hclients']
      exact w7 x hx
    · intro c hc
      rw [hcl'] at hc
      rw [husers']
      exact w8 c hc

/-- `DeleteSlot` preserves the status invariant and well-formedness. -/
theorem deleteSlot_preserves (s s' : DBState) (slotId : Nat)
    (h : DeleteSlot s slotId = .ok s')
    (hi : statusInvCheck s = true) (hw : wfCheck s = true) :
    statusInvCheck s' = true ∧ wfCheck s' = true := by
  obtain ⟨w1, w2, w3, w4, w5, w6, w7, w8⟩ := (wfCheck_iff s).mp hw
  have hinv := (statusInvCheck_iff s).mp hi
  unfold DeleteSlot at h
  cases hfsl : findSlot s slotId with
  | none => rw [hfsl] at h; exact Except.noConfusion h
  | some slot0 =>
    simp only [hfsl] at h
    by_cases hany : s.bookings.any (fun b => b.slotId == slotId) = true
    · rw [if_pos hany] at h
      exact Except.noConfusion h
    · rw [if_neg hany] at h
      injection h with h1
      have hs' : s' = { s with slots := s.slots.filter (fun sl => !(sl.id == slotId)) } :=
        h1.symm
      have hnoref : ∀ x ∈ s.bookings, x.slotId ≠ slotId := by
        intro x hx hcon
        apply hany
        exact List.any_eq_true.mpr ⟨x, hx, by rw [hcon]; simp⟩
      have hfind : ∀ x ∈ s.bookings, findSlot s' x.slotId = findSlot s x.slotId := by
        intro x hx
        unfold findSlot
        rw [hs']
        apply find?_filter_of_imp
        intro a _ hp
        have : a.id = x.slotId := by simpa using hp
        rw [this]
        simp only [Bool.not_eq_true']
        exact beq_eq_false_iff_ne.mpr (hnoref x hx)
      have hbk' : s'.bookings = s.bookings := by rw [hs']
      have hclients' : ∀ j, findClient s' j = findClient s j := by
        intro j
        unfold findClient
        rw [hs']
      have husers' : ∀ j, findUser s' j = findUser s j := by
        intro j
        unfold findUser
        rw [hs']
      constructor
      · rw [statusInvCheck_iff]
        intro x hx
        rw [hbk'] at hx
        constructor
        · intro hcf
          obtain ⟨sl, hsl, hstat⟩ := (hinv x hx).1 hcf
          exact ⟨sl, by rw [hfind x hx]; exact hsl, hstat⟩
        · intro hcanc
          obtain ⟨sl, hsl, hstat⟩ := (hinv x hx).2 hcanc
          exact ⟨sl, by rw [hfind x hx]; exact hsl, hstat⟩
      · rw [wfCheck_iff]
        have hnext' : s'.nextId = s.nextId := by rw [hs']
        have hsl' : s'.slots = s.slots.filter (fun sl => !(sl.id == slotId)) := by rw [hs']
        have hcl' : s'.clients = s.clients := by rw [hs']
        refine ⟨?_, ?_, ?_, ?_, ?_, ?_, ?_, ?_⟩
        · intro x hx
          rw [hbk'] at hx
          rw [hnext']
          exact w1 x hx
        · intro sl hsl
          rw [hsl'] at hsl
          rw [hnext']
          exact w2 sl (List.mem_of_mem_filter hsl)
        · rw [hsl']
          exact w3.sublist (List.filter_sublist s.slots)
        · rw [hbk']
          exact w4
        · rw [hbk']
          exact w5
        · intro x hx
          rw [hbk'] at hx
          rw [hfind x hx]
          exact w6 x hx
        · intro x hx
          rw [hbk'] at hx
          rw [hclients']
          exact w7 x hx
        · intro c hc
          rw [hcl'] at hc
          rw [husers']
          exact w8 c hc

end AppointmentCore
namespace AppointmentCore

/-- Every core step preserves the status invariant together with
well-formedness. -/
theorem coreStep_preserves (s s' : DBState) (h : CoreStep s s')
    (hi : statusInvCheck s = true) (hw : wfCheck s = true) :
    statusInvCheck s' = true ∧ wfCheck s' = true := by
  cases h with
  | createBooking cid sid comment s1 s2 b heq =>
    exact createBooking_preserves _ _ cid sid comment b heq hi hw
  | cancelBooking bid now s1 s2 b heq =>
    exact cancelBooking_preserves _ _ bid now b heq hi hw
  | bulkCancel pid start fin reason now s1 s2 r heq =>
    exact bulkCancel_preserves _ _ pid start fin reason now r heq hi hw
  | materialize fuel pid sid fromUTC toUTC schedules s1 s2 heq =>
    exact materialize_preserves fuel _ _ pid sid fromUTC toUTC schedules heq hi hw
  | createSlot pid sid start fin s1 s2 sl heq =>
    exact createSlot_preserves _ _ pid sid start fin sl heq hi hw
  | updateSlotNoStatus slotId nsid nr s1 s2 sl heq =>
    exact updateSlotNoStatus_preserves _ _ slotId nsid nr sl heq hi hw
  | deleteSlot slotId s1 s2 heq =>
    exact deleteSlot_preserves _ _ slotId heq hi hw

/-- C3 (amended): in every state reachable from a well-formed state satisfying
the invariant by the core operations — `CreateBooking`, `CancelBooking`,
`BulkCancelProviderSlots`, slot materialization and the slot CRUD operations,
with `UpdateSlot` restricted to calls that do not set a status — every
`Confirmed` booking sits on a `Booked` slot and every `Cancelled` booking on a
`Planned` or `Cancelled` slot (an `UpdateSlot` call that sets a status breaks
the invariant, see the counterexample); and `CancelBooking` on a
not-yet-cancelled booking sets the slot's status to `Planned` unconditionally,
regardless of the slot's prior status. -/
theorem C3_status_invariant_amended :
    (∀ s₀ s : DBState, statusInvCheck s₀ = true → wfCheck s₀ = true →
      CoreReachable s₀ s → statusInvCheck s = true ∧ wfCheck s = true)
  ∧ (∀ (t t' : DBState) (bid : Nat) (now : Int) (b' : Booking),
      CancelBooking t bid now = .ok (t', b') →
      (findBooking t bid).map Booking.status ≠ some BookingStatus.cancelled →
      ∀ sl ∈ t'.slots, sl.id = b'.slotId → sl.status = TimeSlotStatus.planned) := by
  constructor
  · intro s₀ s hi hw hreach
    induction hreach with
    | refl => exact ⟨hi, hw⟩
    | tail _ hstep ih => exact coreStep_preserves _ _ hstep ih.1 ih.2
  · intro t t' bid now b' hrun hnc sl hsl hid
    rcases CancelBooking_ok_inv t bid now t' b' hrun with
      ⟨_, b, hfb, hbc, _⟩ | ⟨b, hfb, hbc, hb', hs'⟩
    · exfalso
      apply hnc
      rw [hfb]
      simp [hbc]
    · have hslots : t'.slots = t.slots.map (fun x =>
          if x.id == b.slotId then { x with status := TimeSlotStatus.planned } else x) := by
        rw [hs']
      rw [hslots] at hsl
      obtain ⟨y, hy, hfy⟩ := List.mem_map.mp hsl
      by_cases hc : (y.id == b.slotId) = true
      · rw [if_pos hc] at hfy
        rw [← hfy]
      · exfalso
        rw [if_neg hc] at hfy
        apply hc
        rw [hfy, hid, hb']
        simp

/-- Witness for `C3_status_invariant_amended`: booking then cancelling on the
concrete `stateA` keeps the invariant, and the cancellation leaves slot 3
`Planned`. -/
theorem C3_status_invariant_amended_witness :
    (statusInvCheck stateA = true ∧ wfCheck stateA = true
      ∧ (statusInvCheck stateAfterBook = true ∧ wfCheck stateAfterBook = true))
  ∧ (CancelBooking stateAfterBook 10 555 = .ok (stateAfterCancel, bookACancelled)
      ∧ (⟨3, none, 4, none, 1000, 2000, TimeSlotStatus.planned⟩ : TimeSlot)
          ∈ stateAfterCancel.slots
      ∧ (⟨3, none, 4, none, 1000, 2000, TimeSlotStatus.planned⟩ : TimeSlot).status
          = TimeSlotStatus.planned) :=
  ⟨⟨by decide, by decide,
    C3_status_invariant_amended.1 stateA stateAfterBook (by decide) (by decide)
      (Relation.ReflTransGen.single
        (CoreStep.createBooking 2 3 "" stateA stateAfterBook bookA rfl))⟩,
   ⟨rfl, by decide,
    C3_status_invariant_amended.2 stateAfterBook stateAfterCancel 10 555 bookACancelled
      rfl (by decide)
      ⟨3, none, 4, none, 1000, 2000, TimeSlotStatus.planned⟩ (by decide) (by decide)⟩⟩

end AppointmentCore
namespace AppointmentCore

/-- The time-of-day part of an instant lies inside one day. -/
theorem timeOfDay_bounds (t : Int) : 0 ≤ timeOfDay t ∧ timeOfDay t < secondsPerDay := by
  unfold timeOfDay secondsPerDay
  have h : Int.emod t 86400 = t % 86400 := rfl
  rw [h]
  omega

/-- Flooring to midnight commutes with shifting by whole days. -/
theorem dateOnly_add_mul (t m : Int) :
    dateOnly (t + secondsPerDay * m) = dateOnly t + secondsPerDay * m := by
  unfold dateOnly secondsPerDay
  have h1 : Int.ediv (t + 86400 * m) 86400 = (t + 86400 * m) / 86400 := rfl
  have h2 : Int.ediv t 86400 = t / 86400 := rfl
  rw [h1, h2, Int.add_mul_ediv_left t m (by omega : (86400 : Int) ≠ 0)]
  ring

/-- A whole multiple of a day is its own midnight. -/
theorem dateOnly_mul (m : Int) : dateOnly (secondsPerDay * m) = secondsPerDay * m := by
  have h := dateOnly_add_mul 0 m
  rw [show (0 : Int) + secondsPerDay * m = secondsPerDay * m by ring] at h
  rw [h, show dateOnly 0 = 0 from rfl]
  ring

/-- The Go weekday is invariant under shifting by whole weeks. -/
theorem goWeekday_add_weeks (t n : Int) :
    goWeekday (t + secondsPerDay * (7 * n)) = goWeekday t := by
  unfold goWeekday secondsPerDay
  have h1 : Int.ediv (t + 86400 * (7 * n)) 86400 = (t + 86400 * (7 * n)) / 86400 := rfl
  have h2 : Int.ediv t 86400 = t / 86400 := rfl
  rw [h1, h2, Int.add_mul_ediv_left t (7 * n) (by omega : (86400 : Int) ≠ 0)]
  have h3 : ∀ a : Int, Int.emod a 7 = a % 7 := fun a => rfl
  rw [h3, h3]
  omega

/-- The ISO-week Monday commutes with shifting by whole weeks. -/
theorem weekStartMonday_add_weeks (t n : Int) :
    weekStartMonday (t + secondsPerDay * (7 * n)) =
      weekStartMonday t + secondsPerDay * (7 * n) := by
  unfold weekStartMonday
  dsimp only
  rw [dateOnly_add_mul t (7 * n), goWeekday_add_weeks (dateOnly t) n]
  ring

/-- The ISO-week Monday is a midnight: whole-day offsets from it are fixed
points of `dateOnly`. -/
theorem weekStartMonday_midnight_off (t off : Int) :
    dateOnly (weekStartMonday t + secondsPerDay * off) =
      weekStartMonday t + secondsPerDay * off := by
  have hq : ∃ q : Int, weekStartMonday t = secondsPerDay * q := by
    refine ⟨Int.ediv t secondsPerDay -
      (if goWeekday (dateOnly t) = 0 then 6 else goWeekday (dateOnly t) - 1), ?_⟩
    unfold weekStartMonday
    dsimp only
    have hd : dateOnly t = secondsPerDay * Int.ediv t secondsPerDay := rfl
    rw [hd]
    ring
  obtain ⟨q, hq⟩ := hq
  rw [hq, show secondsPerDay * q + secondsPerDay * off = secondsPerDay * (q + off) by ring,
    dateOnly_mul]

/-- Membership through sorted insertion. -/
theorem mem_insertSorted (x : Int) : ∀ (l : List Int) (y : Int),
    y ∈ insertSorted x l ↔ y = x ∨ y ∈ l
  | [], y => by simp [insertSorted]
  | z :: zs, y => by
    unfold insertSorted
    by_cases h : x ≤ z
    · rw [if_pos h]
      simp
    · rw [if_neg h]
      rw [List.mem_cons, List.mem_cons, mem_insertSorted x zs y]
      tauto

/-- Insertion sort preserves membership. -/
theorem mem_sortInts : ∀ (l : List Int) (y : Int), y ∈ sortInts l ↔ y ∈ l
  | [], y => Iff.rfl
  | z :: zs, y => by
    unfold sortInts
    rw [mem_insertSorted, mem_sortInts zs y, List.mem_cons]

/-- Deduplication only drops elements. -/
theorem dedupFirst_subset : ∀ (l seen : List Int) (y : Int),
    y ∈ dedupFirst l seen → y ∈ l
  | [], _, y, hy => absurd hy (List.not_mem_nil y)
  | d :: rest, seen, y, hy => by
    unfold dedupFirst at hy
    by_cases h : seen.contains d = true
    · rw [if_pos h] at hy
      exact List.mem_cons_of_mem d (dedupFirst_subset rest seen y hy)
    · rw [if_neg h] at hy
      rcases List.mem_cons.mp hy with h' | h'
      · exact h' ▸ List.mem_cons_self d rest
      · exact List.mem_cons_of_mem d (dedupFirst_subset rest (d :: seen) y h')

/-- The deduplicated sorted weekday list only contains listed weekdays. -/
theorem uniqueSortedWeekdays_subset (l : List Int) (y : Int)
    (h : y ∈ uniqueSortedWeekdays l) : y ∈ l := by
  unfold uniqueSortedWeekdays at h
  exact dedupFirst_subset l [] y ((mem_sortInts (dedupFirst l []) y).mp h)

end AppointmentCore
namespace AppointmentCore

/-- Soundness of the inner weekly loop: the accumulator is preserved, every
emitted range is a filtered listed-weekday occurrence of the given week, and
an early `true` return exhibits an occurrence past `Until`. -/
theorem expandWeeklyDays_mem (rule : RecurringRule) (window : TimeRange) (ws : Int) :
    ∀ (l : List Int) (cnt : Nat) (acc : List TimeRange),
      (∀ r ∈ acc, r ∈ (expandWeeklyDays rule window ws l cnt acc).2.2)
    ∧ (∀ r ∈ (expandWeeklyDays rule window ws l cnt acc).2.2, r ∈ acc ∨ ∃ wd ∈ l,
        r = ⟨weeklyOccStart rule ws wd, weeklyOccStart rule ws wd + rule.Duration⟩
        ∧ weeklyOccPass rule window (weeklyOccStart rule ws wd) = true)
    ∧ ((expandWeeklyDays rule window ws l cnt acc).1 = true → ∃ wd ∈ l,
        pastUntil rule.Until (weeklyOccStart rule ws wd) = true)
  | [], cnt, acc =>
    ⟨fun _ hr => hr, fun r hr => Or.inl hr, fun h => by simp [expandWeeklyDays] at h⟩
  | wd :: rest, cnt, acc => by
    have ih := expandWeeklyDays_mem rule window ws rest
    unfold expandWeeklyDays
    by_cases h1 : countReached rule.Count cnt = true
    · rw [if_pos h1]
      exact ⟨fun _ hr => hr, fun r hr => Or.inl hr, fun h => by simp at h⟩
    · rw [if_neg h1]
      dsimp only
      by_cases h2 : decide (dateOnly (ws + secondsPerDay * offsetFromMonday wd)
          + timeOfDay rule.StartTime < rule.StartTime) = true
      · rw [if_pos h2]
        obtain ⟨ihm, ihs, ihr⟩ := ih cnt acc
        refine ⟨ihm, ?_, ?_⟩
        · intro r hr
          rcases ihs r hr with h | ⟨w, hw, hre, hp⟩
          · exact Or.inl h
          · exact Or.inr ⟨w, List.mem_cons_of_mem _ hw, hre, hp⟩
        · intro h
          obtain ⟨w, hw, hp⟩ := ihr h
          exact ⟨w, List.mem_cons_of_mem _ hw, hp⟩
      · rw [if_neg h2]
        by_cases h3 : pastUntil rule.Until (dateOnly (ws + secondsPerDay * offsetFromMonday wd)
            + timeOfDay rule.StartTime) = true
        · rw [if_pos h3]
          exact ⟨fun _ hr => hr, fun r hr => Or.inl hr,
            fun _ => ⟨wd, List.mem_cons_self _ _, h3⟩⟩
        · rw [if_neg h3]
          by_cases h4 : isException rule (dateOnly (ws + secondsPerDay * offsetFromMonday wd)
              + timeOfDay rule.StartTime) = true
          · rw [if_pos h4]
            obtain ⟨ihm, ihs, ihr⟩ := ih cnt acc
            refine ⟨ihm, ?_, ?_⟩
            · intro r hr
              rcases ihs r hr with h | ⟨w, hw, hre, hp⟩
              · exact Or.inl h
              · exact Or.inr ⟨w, List.mem_cons_of_mem _ hw, hre, hp⟩
            · intro h
              obtain ⟨w, hw, hp⟩ := ihr h
              exact ⟨w, List.mem_cons_of_mem _ hw, hp⟩
          · rw [if_neg h4]
            by_cases h5 : rangesOverlap
                ⟨dateOnly (ws + secondsPerDay * offsetFromMonday wd)
                  + timeOfDay rule.StartTime,
                 dateOnly (ws + secondsPerDay * offsetFromMonday wd)
                  + timeOfDay rule.StartTime + rule.Duration⟩ window false = true
            · rw [if_pos h5]
              have hpass : weeklyOccPass rule window (weeklyOccStart rule ws wd) = true := by
                unfold weeklyOccPass weeklyOccStart
                rw [Bool.eq_false_iff.mpr h2, Bool.eq_false_iff.mpr h3,
                  Bool.eq_false_iff.mpr h4, h5]
                rfl
              obtain ⟨ihm, ihs, ihr⟩ := ih (cnt + 1)
                (acc ++ [⟨dateOnly (ws + secondsPerDay * offsetFromMonday wd)
                    + timeOfDay rule.StartTime,
                  dateOnly (ws + secondsPerDay * offsetFromMonday wd)
                    + timeOfDay rule.StartTime + rule.Duration⟩])
              refine ⟨?_, ?_, ?_⟩
              · intro r hr
                exact ihm r (List.mem_append_left _ hr)
              · intro r hr
                rcases ihs r hr with h | ⟨w, hw, hre, hp⟩
                · rcases List.mem_append.mp h with h' | h'
                  · exact Or.inl h'
                  · refine Or.inr ⟨wd, List.mem_cons_self _ _, ?_, hpass⟩
                    simpa using h'
                · exact Or.inr ⟨w, List.mem_cons_of_mem _ hw, hre, hp⟩
              · intro h
                obtain ⟨w, hw, hp⟩ := ihr h
                exact ⟨w, List.mem_cons_of_mem _ hw, hp⟩
            · rw [if_neg h5]
              by_cases h6 : (decide (window.End < dateOnly
                    (ws + secondsPerDay * offsetFromMonday wd) + timeOfDay rule.StartTime)
                  && decide (window.End < dateOnly (ws + secondsPerDay * offsetFromMonday wd)
                    + timeOfDay rule.StartTime + rule.Duration)) = true
              · rw [if_pos h6]
                exact ⟨fun _ hr => hr, fun r hr => Or.inl hr, fun h => by simp at h⟩
              · rw [if_neg h6]
                obtain ⟨ihm, ihs, ihr⟩ := ih cnt acc
                refine ⟨ihm, ?_, ?_⟩
                · intro r hr
                  rcases ihs r hr with h | ⟨w, hw, hre, hp⟩
                  · exact Or.inl h
                  · exact Or.inr ⟨w, List.mem_cons_of_mem _ hw, hre, hp⟩
                · intro h
                  obtain ⟨w, hw, hp⟩ := ihr h
                  exact ⟨w, List.mem_cons_of_mem _ hw, hp⟩

end AppointmentCore
namespace AppointmentCore

/-- A negated boolean is true exactly when the boolean is false. -/
theorem bnot_eq_true_iff (b : Bool) : (!b) = true ↔ b = false := by
  cases b <;> simp

/-- Completeness of the inner weekly loop for rules without a count bound and
weekday lists scanned in chronological (ascending-offset) order: every listed
weekday of the week whose occurrence passes the emission filter is emitted. -/
theorem expandWeeklyDays_complete (rule : RecurringRule) (window : TimeRange) (ws : Int)
    (hcnt : rule.Count = none)
    (hmid : ∀ off : Int, dateOnly (ws + secondsPerDay * off) = ws + secondsPerDay * off) :
    ∀ (l : List Int),
      List.Pairwise (fun a b => offsetFromMonday a < offsetFromMonday b) l →
    ∀ (cnt : Nat) (acc : List TimeRange), ∀ wd ∈ l,
      weeklyOccPass rule window (weeklyOccStart rule ws wd) = true →
      (⟨weeklyOccStart rule ws wd, weeklyOccStart rule ws wd + rule.Duration⟩ : TimeRange)
        ∈ (expandWeeklyDays rule window ws l cnt acc).2.2
  | [], _, cnt, acc, wd, hwd, _ => absurd hwd (List.not_mem_nil wd)
  | wd0 :: rest, hpw, cnt, acc, wd, hwd, hpass => by
    obtain ⟨hhead, htail⟩ := List.pairwise_cons.mp hpw
    have hocc : ∀ x : Int, weeklyOccStart rule ws x =
        ws + secondsPerDay * offsetFromMonday x + timeOfDay rule.StartTime := by
      intro x
      unfold weeklyOccStart
      rw [hmid]
    have horder : ∀ b ∈ rest, weeklyOccStart rule ws wd0 < weeklyOccStart rule ws b := by
      intro b hb
      have := hhead b hb
      rw [hocc, hocc]
      unfold secondsPerDay
      omega
    obtain ⟨hp2, hp3, hp4, hp5⟩ :
        decide (weeklyOccStart rule ws wd < rule.StartTime) = false
      ∧ pastUntil rule.Until (weeklyOccStart rule ws wd) = false
      ∧ isException rule (weeklyOccStart rule ws wd) = false
      ∧ rangesOverlap ⟨weeklyOccStart rule ws wd,
          weeklyOccStart rule ws wd + rule.Duration⟩ window false = true := by
      unfold weeklyOccPass at hpass
      rw [Bool.and_eq_true, Bool.and_eq_true, Bool.and_eq_true] at hpass
      obtain ⟨⟨⟨a2, a3⟩, a4⟩, a5⟩ := hpass
      exact ⟨(bnot_eq_true_iff _).mp a2, (bnot_eq_true_iff _).mp a3, (bnot_eq_true_iff _).mp a4, a5⟩
    have h1 : ¬countReached rule.Count cnt = true := by
      rw [hcnt]
      simp [countReached]
    unfold expandWeeklyDays
    rw [if_neg h1]
    dsimp only
    by_cases g2 : decide (dateOnly (ws + secondsPerDay * offsetFromMonday wd0)
        + timeOfDay rule.StartTime < rule.StartTime) = true
    · rw [if_pos g2]
      rcases List.mem_cons.mp hwd with hEq | hTail
      · exfalso
        rw [show dateOnly (ws + secondsPerDay * offsetFromMonday wd0)
            + timeOfDay rule.StartTime = weeklyOccStart rule ws wd0 from rfl] at g2
        rw [← hEq] at g2
        rw [hp2] at g2
        exact Bool.false_ne_true g2
      · exact expandWeeklyDays_complete rule window ws hcnt hmid rest htail cnt acc wd
          hTail hpass
    · rw [if_neg g2]
      by_cases g3 : pastUntil rule.Until (dateOnly (ws + secondsPerDay * offsetFromMonday wd0)
          + timeOfDay rule.StartTime) = true
      · exfalso
        rw [show dateOnly (ws + secondsPerDay * offsetFromMonday wd0)
            + timeOfDay rule.StartTime = weeklyOccStart rule ws wd0 from rfl] at g3
        rcases List.mem_cons.mp hwd with hEq | hTail
        · rw [← hEq] at g3
          rw [hp3] at g3
          exact Bool.false_ne_true g3
        · have hlt := horder wd hTail
          unfold pastUntil at g3 hp3
          cases hu : rule.Until with
          | none =>
            rw [hu] at g3
            exact absurd g3 (by simp)
          | some u =>
            rw [hu] at g3 hp3
            have h3a : u < weeklyOccStart rule ws wd0 := of_decide_eq_true g3
            have h3b : ¬(u < weeklyOccStart rule ws wd) := of_decide_eq_false hp3
            omega
      · rw [if_neg g3]
        by_cases g4 : isException rule (dateOnly (ws + secondsPerDay * offsetFromMonday wd0)
            + timeOfDay rule.StartTime) = true
        · rw [if_pos g4]
          rcases List.mem_cons.mp hwd with hEq | hTail
          · exfalso
            rw [show dateOnly (ws + secondsPerDay * offsetFromMonday wd0)
                + timeOfDay rule.StartTime = weeklyOccStart rule ws wd0 from rfl] at g4
            rw [← hEq] at g4
            rw [hp4] at g4
            exact Bool.false_ne_true g4
          · exact expandWeeklyDays_complete rule window ws hcnt hmid rest htail cnt acc wd
              hTail hpass
        · rw [if_neg g4]
          by_cases g5 : rangesOverlap
              ⟨dateOnly (ws + secondsPerDay * offsetFromMonday wd0)
                + timeOfDay rule.StartTime,
               dateOnly (ws + secondsPerDay * offsetFromMonday wd0)
                + timeOfDay rule.StartTime + rule.Duration⟩ window false = true
          · rw [if_pos g5]
            rcases List.mem_cons.mp hwd with hEq | hTail
            · subst hEq
              exact (expandWeeklyDays_mem rule window ws rest (cnt + 1)
                  (acc ++ [⟨weeklyOccStart rule ws wd,
                    weeklyOccStart rule ws wd + rule.Duration⟩])).1 _
                (List.mem_append_right _ (List.mem_singleton.mpr rfl))
            · exact expandWeeklyDays_complete rule window ws hcnt hmid rest htail (cnt + 1)
                (acc ++ [⟨dateOnly (ws + secondsPerDay * offsetFromMonday wd0)
                    + timeOfDay rule.StartTime,
                  dateOnly (ws + secondsPerDay * offsetFromMonday wd0)
                    + timeOfDay rule.StartTime + rule.Duration⟩]) wd hTail hpass
          · rw [if_neg g5]
            by_cases g6 : (decide (window.End < dateOnly
                  (ws + secondsPerDay * offsetFromMonday wd0) + timeOfDay rule.StartTime)
                && decide (window.End < dateOnly (ws + secondsPerDay * offsetFromMonday wd0)
                  + timeOfDay rule.StartTime + rule.Duration)) = true
            · exfalso
              rw [Bool.and_eq_true] at g6
              have h6a : window.End < weeklyOccStart rule ws wd0 := of_decide_eq_true g6.1
              have h5a : weeklyOccStart rule ws wd < window.End := by
                have h := hp5
                unfold rangesOverlap at h
                simp only [Bool.false_eq_true, if_false, Bool.and_eq_true,
                  decide_eq_true_eq] at h
                exact h.1
              rcases List.mem_cons.mp hwd with hEq | hTail
              · rw [← hEq] at h6a
                omega
              · have hlt := horder wd hTail
                omega
            · rw [if_neg g6]
              rcases List.mem_cons.mp hwd with hEq | hTail
              · exfalso
                rw [show rangesOverlap
                    ⟨dateOnly (ws + secondsPerDay * offsetFromMonday wd0)
                      + timeOfDay rule.StartTime,
                     dateOnly (ws + secondsPerDay * offsetFromMonday wd0)
                      + timeOfDay rule.StartTime + rule.Duration⟩ window false =
                    rangesOverlap ⟨weeklyOccStart rule ws wd0,
                      weeklyOccStart rule ws wd0 + rule.Duration⟩ window false from rfl] at g5
                rw [← hEq] at g5
                exact g5 hp5
              · exact expandWeeklyDays_complete rule window ws hcnt hmid rest htail cnt acc
                  wd hTail hpass

end AppointmentCore
namespace AppointmentCore

/-- One step of the week cursor. -/
theorem weeklyCursor_succ (rule : RecurringRule) (j : Nat) :
    weeklyCursor rule (j + 1) =
      weeklyCursor rule j + 7 * (secondsPerDay * rule.Interval) := by
  unfold weeklyCursor
  push_cast
  ring

/-- Soundness of the outer weekly loop: the accumulator survives, and every
element of the result is a filtered listed-weekday occurrence of some stepped
week at or after the current one. -/
theorem expandWeeklyWeeks_memChar (rule : RecurringRule) (window : TimeRange)
    (W : List Int) :
    ∀ (fuel : Nat) (j : Nat) (cnt : Nat) (acc res : List TimeRange),
      expandWeeklyWeeks rule window W fuel (weeklyCursor rule j) cnt acc = some res →
      (∀ r ∈ acc, r ∈ res)
    ∧ (∀ r ∈ res, r ∈ acc ∨ ∃ k : Nat, j ≤ k ∧ ∃ wd ∈ W,
        r = ⟨weeklyOccStart rule (weekStartMonday (weeklyCursor rule k)) wd,
             weeklyOccStart rule (weekStartMonday (weeklyCursor rule k)) wd + rule.Duration⟩
        ∧ weeklyOccPass rule window
            (weeklyOccStart rule (weekStartMonday (weeklyCursor rule k)) wd) = true)
  | 0, j, cnt, acc, res, hrun => absurd hrun (by simp [expandWeeklyWeeks])
  | fuel + 1, j, cnt, acc, res, hrun => by
    unfold expandWeeklyWeeks at hrun
    by_cases h1 : countReached rule.Count cnt = true
    · rw [if_pos h1] at hrun
      have hres := Option.some_inj.mp hrun
      subst hres
      exact ⟨fun _ hr => hr, fun r hr => Or.inl hr⟩
    · rw [if_neg h1] at hrun
      dsimp only at hrun
      by_cases h2 : decide (window.End < weekStartMonday (weeklyCursor rule j)) = true
      · rw [if_pos h2] at hrun
        have hres := Option.some_inj.mp hrun
        subst hres
        exact ⟨fun _ hr => hr, fun r hr => Or.inl hr⟩
      · rw [if_neg h2] at hrun
        obtain ⟨ihm, ihs, ihr⟩ := expandWeeklyDays_mem rule window
          (weekStartMonday (weeklyCursor rule j)) W cnt acc
        cases hinn : expandWeeklyDays rule window
            (weekStartMonday (weeklyCursor rule j)) W cnt acc with
        | mk ret rest2 =>
        cases rest2 with
        | mk cnt2 acc2 =>
        rw [hinn] at ihm ihs ihr
        dsimp only at ihm ihs ihr
        cases ret with
        | true =>
          simp only [hinn] at hrun
          have hres := Option.some_inj.mp hrun
          subst hres
          refine ⟨ihm, ?_⟩
          intro r hr
          rcases ihs r hr with h | ⟨w, hw, hre, hp⟩
          · exact Or.inl h
          · exact Or.inr ⟨j, le_refl j, w, hw, hre, hp⟩
        | false =>
          simp only [hinn] at hrun
          by_cases h3 : pastUntil rule.Until
              (weeklyCursor rule j + 7 * (secondsPerDay * rule.Interval)) = true
          · rw [if_pos h3] at hrun
            have hres := Option.some_inj.mp hrun
            subst hres
            refine ⟨ihm, ?_⟩
            intro r hr
            rcases ihs r hr with h | ⟨w, hw, hre, hp⟩
            · exact Or.inl h
            · exact Or.inr ⟨j, le_refl j, w, hw, hre, hp⟩
          · rw [if_neg h3] at hrun
            rw [show weeklyCursor rule j + 7 * (secondsPerDay * rule.Interval) =
                weeklyCursor rule (j + 1) from (weeklyCursor_succ rule j).symm] at hrun
            obtain ⟨rm, rs⟩ := expandWeeklyWeeks_memChar rule window W fuel (j + 1)
              cnt2 acc2 res hrun
            refine ⟨fun r hr => rm r (ihm r hr), ?_⟩
            intro r hr
            rcases rs r hr with h | ⟨k, hk, w, hw, hre, hp⟩
            · rcases ihs r h with h' | ⟨w, hw, hre, hp⟩
              · exact Or.inl h'
              · exact Or.inr ⟨j, le_refl j, w, hw, hre, hp⟩
            · exact Or.inr ⟨k, by omega, w, hw, hre, hp⟩

/-- Completeness of the outer weekly loop for count-free rules with a
chronologically sorted weekday list: a listed-weekday occurrence of a stepped
week `k` passing the emission filter is in the result, provided no
intermediate raw week cursor lies past `Until` (the loop's extra stopping
condition, absent from the specified semantics). -/
theorem expandWeeklyWeeks_complete (rule : RecurringRule) (window : TimeRange)
    (W : List Int)
    (hcnt : rule.Count = none)
    (hsorted : List.Pairwise (fun a b => offsetFromMonday a < offsetFromMonday b) W)
    (hoffb : ∀ wd ∈ W, 0 ≤ offsetFromMonday wd ∧ offsetFromMonday wd ≤ 6)
    (hiv : 1 ≤ rule.Interval) :
    ∀ (fuel : Nat) (j : Nat) (cnt : Nat) (acc res : List TimeRange),
      expandWeeklyWeeks rule window W fuel (weeklyCursor rule j) cnt acc = some res →
      ∀ (k : Nat), j ≤ k → ∀ wd ∈ W,
        weeklyOccPass rule window
          (weeklyOccStart rule (weekStartMonday (weeklyCursor rule k)) wd) = true →
        (∀ i : Nat, j < i → i ≤ k → pastUntil rule.Until (weeklyCursor rule i) = false) →
        (⟨weeklyOccStart rule (weekStartMonday (weeklyCursor rule k)) wd,
          weeklyOccStart rule (weekStartMonday (weeklyCursor rule k)) wd + rule.Duration⟩ :
            TimeRange) ∈ res
  | 0, j, cnt, acc, res, hrun => absurd hrun (by simp [expandWeeklyWeeks])
  | fuel + 1, j, cnt, acc, res, hrun => by
    intro k hjk wd hwd hpass hreach
    have hws : weekStartMonday (weeklyCursor rule k) =
        weekStartMonday (weeklyCursor rule j)
          + secondsPerDay * (7 * (((k : Int) - (j : Int)) * rule.Interval)) := by
      rw [show weeklyCursor rule k = weeklyCursor rule j
          + secondsPerDay * (7 * (((k : Int) - (j : Int)) * rule.Interval)) by
        unfold weeklyCursor
        push_cast
        ring]
      rw [weekStartMonday_add_weeks]
    have hmfact : 0 ≤ ((k : Int) - (j : Int)) * rule.Interval ∧
        ((j : Nat) < k → 1 ≤ ((k : Int) - (j : Int)) * rule.Interval) := by
      constructor
      · apply mul_nonneg _ (by omega)
        have : (j : Int) ≤ (k : Int) := by exact_mod_cast hjk
        omega
      · intro hlt
        have h1 : 1 ≤ (k : Int) - (j : Int) := by
          have : (j : Int) < (k : Int) := by exact_mod_cast hlt
          omega
        calc (1 : Int) = 1 * 1 := by ring
        _ ≤ ((k : Int) - (j : Int)) * rule.Interval :=
          mul_le_mul h1 hiv (by omega) (by omega)
    have htod := timeOfDay_bounds rule.StartTime
    have hoccj : ∀ x : Int, weeklyOccStart rule (weekStartMonday (weeklyCursor rule j)) x =
        weekStartMonday (weeklyCursor rule j) + secondsPerDay * offsetFromMonday x
          + timeOfDay rule.StartTime := by
      intro x
      unfold weeklyOccStart
      rw [weekStartMonday_midnight_off]
    have hocck : weeklyOccStart rule (weekStartMonday (weeklyCursor rule k)) wd =
        weekStartMonday (weeklyCursor rule k) + secondsPerDay * offsetFromMonday wd
          + timeOfDay rule.StartTime := by
      unfold weeklyOccStart
      rw [weekStartMonday_midnight_off]
    obtain ⟨hwd0, hwd6⟩ := hoffb wd hwd
    obtain ⟨hp2, hp3, hp4, hp5⟩ :
        decide (weeklyOccStart rule (weekStartMonday (weeklyCursor rule k)) wd
            < rule.StartTime) = false
      ∧ pastUntil rule.Until
          (weeklyOccStart rule (weekStartMonday (weeklyCursor rule k)) wd) = false
      ∧ isException rule
          (weeklyOccStart rule (weekStartMonday (weeklyCursor rule k)) wd) = false
      ∧ rangesOverlap ⟨weeklyOccStart rule (weekStartMonday (weeklyCursor rule k)) wd,
          weeklyOccStart rule (weekStartMonday (weeklyCursor rule k)) wd + rule.Duration⟩
            window false = true := by
      unfold weeklyOccPass at hpass
      rw [Bool.and_eq_true, Bool.and_eq_true, Bool.and_eq_true] at hpass
      obtain ⟨⟨⟨a2, a3⟩, a4⟩, a5⟩ := hpass
      exact ⟨(bnot_eq_true_iff _).mp a2, (bnot_eq_true_iff _).mp a3,
        (bnot_eq_true_iff _).mp a4, a5⟩
    have hoverlap : weeklyOccStart rule (weekStartMonday (weeklyCursor rule k)) wd
        < window.End := by
      have h := hp5
      unfold rangesOverlap at h
      simp only [Bool.false_eq_true, if_false, Bool.and_eq_true, decide_eq_true_eq] at h
      exact h.1
    have h1 : ¬countReached rule.Count cnt = true := by
      rw [hcnt]
      simp [countReached]
    unfold expandWeeklyWeeks at hrun
    rw [if_neg h1] at hrun
    dsimp only at hrun
    by_cases h2 : decide (window.End < weekStartMonday (weeklyCursor rule j)) = true
    · exfalso
      have h2' : window.End < weekStartMonday (weeklyCursor rule j) := of_decide_eq_true h2
      rw [hocck, hws] at hoverlap
      unfold secondsPerDay at hoverlap hmfact htod
      have hnn : (0 : Int) ≤ 86400 * (7 * (((k : Int) - (j : Int)) * rule.Interval)) := by
        have := hmfact.1
        omega
      have hoffnn : (0 : Int) ≤ 86400 * offsetFromMonday wd := by omega
      omega
    · rw [if_neg h2] at hrun
      obtain ⟨ihm, ihs, ihr⟩ := expandWeeklyDays_mem rule window
        (weekStartMonday (weeklyCursor rule j)) W cnt acc
      have hcomp := expandWeeklyDays_complete rule window
        (weekStartMonday (weeklyCursor rule j)) hcnt
        (fun off => weekStartMonday_midnight_off (weeklyCursor rule j) off) W hsorted cnt acc
      cases hinn : expandWeeklyDays rule window
          (weekStartMonday (weeklyCursor rule j)) W cnt acc with
      | mk ret rest2 =>
      cases rest2 with
      | mk cnt2 acc2 =>
      rw [hinn] at ihm ihs ihr hcomp
      dsimp only at ihm ihs ihr hcomp
      rcases Nat.eq_or_lt_of_le hjk with heq | hlt
      · -- k = j : the occurrence is emitted by this week's inner loop
        subst heq
        have hmem : (⟨weeklyOccStart rule (weekStartMonday (weeklyCursor rule j)) wd,
            weeklyOccStart rule (weekStartMonday (weeklyCursor rule j)) wd
              + rule.Duration⟩ : TimeRange) ∈ acc2 := hcomp wd hwd hpass
        cases ret with
        | true =>
          simp only [hinn] at hrun
          have hres := Option.some_inj.mp hrun
          subst hres
          exact hmem
        | false =>
          simp only [hinn] at hrun
          by_cases h3 : pastUntil rule.Until
              (weeklyCursor rule j + 7 * (secondsPerDay * rule.Interval)) = true
          · rw [if_pos h3] at hrun
            have hres := Option.some_inj.mp hrun
            subst hres
            exact hmem
          · rw [if_neg h3] at hrun
            rw [show weeklyCursor rule j + 7 * (secondsPerDay * rule.Interval) =
                weeklyCursor rule (j + 1) from (weeklyCursor_succ rule j).symm] at hrun
            exact (expandWeeklyWeeks_memChar rule window W fuel (j + 1)
              cnt2 acc2 res hrun).1 _ hmem
      · -- j < k : the occurrence belongs to a later week
        have hlater : ∀ wd' ∈ W,
            weeklyOccStart rule (weekStartMonday (weeklyCursor rule j)) wd'
              < weeklyOccStart rule (weekStartMonday (weeklyCursor rule k)) wd := by
          intro wd' hwd'
          obtain ⟨hb0, hb6⟩ := hoffb wd' hwd'
          rw [hoccj, hocck, hws]
          have hm1 := hmfact.2 hlt
          unfold secondsPerDay
          have : (86400 : Int) * (7 * (((k : Int) - (j : Int)) * rule.Interval))
              ≥ 86400 * 7 := by
            have h7 : (7 : Int) ≤ 7 * (((k : Int) - (j : Int)) * rule.Interval) := by
              omega
            omega
          omega
        cases ret with
        | true =>
          exfalso
          obtain ⟨wd', hwd', hpu⟩ := ihr rfl
          have hlt2 := hlater wd' hwd'
          unfold pastUntil at hpu hp3
          cases hu : rule.Until with
          | none =>
            rw [hu] at hpu
            exact absurd hpu (by simp)
          | some u =>
            rw [hu] at hpu hp3
            have ha : u < weeklyOccStart rule (weekStartMonday (weeklyCursor rule j)) wd' :=
              of_decide_eq_true hpu
            have hb : ¬(u < weeklyOccStart rule (weekStartMonday (weeklyCursor rule k)) wd) :=
              of_decide_eq_false hp3
            omega
        | false =>
          simp only [hinn] at hrun
          by_cases h3 : pastUntil rule.Until
              (weeklyCursor rule j + 7 * (secondsPerDay * rule.Interval)) = true
          · exfalso
            have hr1 := hreach (j + 1) (by omega) (by omega)
            rw [weeklyCursor_succ rule j] at hr1
            rw [hr1] at h3
            exact Bool.false_ne_true h3
          · rw [if_neg h3] at hrun
            rw [show weeklyCursor rule j + 7 * (secondsPerDay * rule.Interval) =
                weeklyCursor rule (j + 1) from (weeklyCursor_succ rule j).symm] at hrun
            exact expandWeeklyWeeks_complete rule window W hcnt hsorted hoffb hiv fuel
              (j + 1) cnt2 acc2 res hrun k (by omega) wd hwd hpass
              (fun i hi1 hi2 => hreach i (by omega) hi2)

end AppointmentCore
namespace AppointmentCore

/-- C6 (amended): for a weekly rule with a non-empty weekday set and positive
interval over a valid window, every emitted range is a listed-weekday
occurrence of one of the Monday-anchored weeks stepped `interval` weeks apart
from the week of the anchor, at the anchor's time-of-day, passing the filter
(not before the anchor, not past `until`, not an exception day, and
window-overlapping). Completeness does NOT hold as claimed: the loop also
stops when the raw next week cursor (anchor plus whole intervals, keeping the
anchor's weekday and time-of-day) is past `until`, which can drop occurrences
that are themselves not after `until` (see the counterexample). For count-free
rules whose weekday set is scanned chronologically (strictly ascending offsets
from Monday, which excludes sets mixing Sunday with other days), a filtered
occurrence of week `k` is emitted exactly when no raw cursor up to week `k` is
past `until`. -/
theorem C6_weekly_expansion_amended (rule : RecurringRule) (window : TimeRange)
    (fuel : Nat) (res : List TimeRange)
    (hfreq : rule.Freq = RecurrenceFrequency.FreqWeekly)
    (hwdne : rule.Weekdays.isEmpty = false)
    (hiv : 1 ≤ rule.Interval)
    (hwin : window.Start < window.End)
    (hrun : ExpandRecurringRule fuel rule window = .ok (some res)) :
    (∀ r ∈ res, ∃ k : Nat, ∃ wd ∈ uniqueSortedWeekdays rule.Weekdays,
        r = ⟨weeklyOccStart rule (weekStartMonday (weeklyCursor rule k)) wd,
             weeklyOccStart rule (weekStartMonday (weeklyCursor rule k)) wd + rule.Duration⟩
      ∧ weeklyOccPass rule window
          (weeklyOccStart rule (weekStartMonday (weeklyCursor rule k)) wd) = true)
  ∧ (rule.Count = none →
      (∀ wd ∈ rule.Weekdays, 0 ≤ wd ∧ wd < 7) →
      List.Pairwise (fun a b => offsetFromMonday a < offsetFromMonday b)
        (uniqueSortedWeekdays rule.Weekdays) →
      ∀ (k : Nat), ∀ wd ∈ uniqueSortedWeekdays rule.Weekdays,
        weeklyOccPass rule window
          (weeklyOccStart rule (weekStartMonday (weeklyCursor rule k)) wd) = true →
        (∀ i : Nat, 0 < i → i ≤ k → pastUntil rule.Until (weeklyCursor rule i) = false) →
        (⟨weeklyOccStart rule (weekStartMonday (weeklyCursor rule k)) wd,
          weeklyOccStart rule (weekStartMonday (weeklyCursor rule k)) wd + rule.Duration⟩ :
            TimeRange) ∈ res) := by
  unfold ExpandRecurringRule at hrun
  by_cases hdur0 : decide (rule.Duration ≤ 0) = true
  · rw [if_pos hdur0] at hrun
    exact Except.noConfusion hrun
  · rw [if_neg hdur0] at hrun
    dsimp only at hrun
    rw [if_neg (show ¬rule.Interval ≤ 0 by omega)] at hrun
    by_cases hz : rule.StartTime = goZeroTime
    · rw [if_pos hz] at hrun
      exact Except.noConfusion hrun
    · rw [if_neg hz] at hrun
      rw [if_neg (show ¬(!decide (window.Start < window.End)) = true by
        simp [hwin])] at hrun
      rw [if_pos (show (rule.Freq == RecurrenceFrequency.FreqWeekly
          && !rule.Weekdays.isEmpty) = true by rw [hfreq, hwdne]; rfl)] at hrun
      injection hrun with hrun2
      have hc0 : rule.StartTime = weeklyCursor rule 0 := by
        unfold weeklyCursor
        push_cast
        ring
      rw [hc0] at hrun2
      constructor
      · intro r hr
        rcases (expandWeeklyWeeks_memChar rule window
            (uniqueSortedWeekdays rule.Weekdays) fuel 0 0 [] res hrun2).2 r hr with
          h | ⟨k, _, w, hw, hre, hp⟩
        · exact absurd h (List.not_mem_nil r)
        · exact ⟨k, w, hw, hre, hp⟩
      · intro hcnt hwrange hsorted k wd hwd hpass hreach
        have hoffb : ∀ w ∈ uniqueSortedWeekdays rule.Weekdays,
            0 ≤ offsetFromMonday w ∧ offsetFromMonday w ≤ 6 := by
          intro w hw
          obtain ⟨h0, h7⟩ := hwrange w (uniqueSortedWeekdays_subset rule.Weekdays w hw)
          unfold offsetFromMonday
          by_cases hw0 : w = 0
          · rw [if_pos hw0]
            omega
          · rw [if_neg hw0]
            omega
        exact expandWeeklyWeeks_complete rule window (uniqueSortedWeekdays rule.Weekdays)
          hcnt hsorted hoffb hiv fuel 0 0 [] res hrun2 k (Nat.zero_le k) wd hwd hpass
          (fun i hi1 hi2 => hreach i hi1 hi2)

end AppointmentCore
namespace AppointmentCore

/-- Witness for `C6_weekly_expansion_amended`: the Monday rule over a
three-week window emits the second week's Monday occurrence. -/
theorem C6_weekly_expansion_amended_witness :
    (ruleWeeklyMon.Freq = RecurrenceFrequency.FreqWeekly
      ∧ ruleWeeklyMon.Weekdays.isEmpty = false
      ∧ 1 ≤ ruleWeeklyMon.Interval
      ∧ (0 : Int) < 1728000
      ∧ ExpandRecurringRule 10 ruleWeeklyMon ⟨0, 1728000⟩ =
          .ok (some [⟨381600, 385200⟩, ⟨986400, 990000⟩, ⟨1591200, 1594800⟩]))
  ∧ (⟨weeklyOccStart ruleWeeklyMon (weekStartMonday (weeklyCursor ruleWeeklyMon 1)) 1,
      weeklyOccStart ruleWeeklyMon (weekStartMonday (weeklyCursor ruleWeeklyMon 1)) 1
        + ruleWeeklyMon.Duration⟩ : TimeRange)
      ∈ [(⟨381600, 385200⟩ : TimeRange), ⟨986400, 990000⟩, ⟨1591200, 1594800⟩] :=
  ⟨⟨rfl, rfl, by decide, by decide, rfl⟩,
    (C6_weekly_expansion_amended ruleWeeklyMon ⟨0, 1728000⟩ 10
        [⟨381600, 385200⟩, ⟨986400, 990000⟩, ⟨1591200, 1594800⟩]
        rfl rfl (by decide) (by decide) rfl).2
      rfl (by decide) (by decide) 1 1 (by decide) (by decide)
      (fun i _ _ => rfl)⟩

end AppointmentCore
